import Mathlib

/-!
# data_grid_bathy: fast non-recursive interpolation on a 2-D grid

Shallow embedding of `src/types/data_grid_bathy.h` (class `usml::types::data_grid_bathy`).

Conventions of the embedding

* `double` is modelled by `ℚ`: every statement is about exact arithmetic.  Division by
  zero is `0` in `ℚ`; the theorems that depend on a divisor carry the hypothesis that makes
  it non-zero (strictly monotonic axes).
* `unsigned` / `int` indices are `Nat` / `Int`.  The differences `size() - 2` and
  `size() - 1` are truncated subtractions; every theorem that depends on them assumes at
  least two nodes per axis, where they do not wrap.
* The axis class `seq_vector` is not part of the sources at hand; it is a structure of the
  four operations the engine calls.
* `abs` applied to a `double` (line 505) is the absolute value on `ℚ`.  The inputs at which
  nearest mode is evaluated below give the same outcome if `abs` truncates its argument to an
  integer first.
* A `double* derivative` argument is a `Bool` (slot supplied or `NULL`); the slot after the call
  is an `Option (ℚ × ℚ)`.
* Members that are written by a query are collected in `scratch`; a query returns the
  engine state after the call.
-/

namespace usml

/-! ## Collaborators -/

/-- Modelled from the spec: the axis type `seq_vector` (header `usml/types/seq_vector.h`) is
not among the sources.  The engine uses its length `size()`, the node accessor `operator()`
(here `elem`), the per-node spacing `increment(i)` and the bracketing lookup `find_index`.
`begin()` is `elem 0` and `rbegin()` is `elem (size - 1)`. -/
structure seq_vector where
  size : Nat
  elem : Nat → ℚ
  increment : Nat → ℚ
  find_index : ℚ → Nat

/-- First node of the axis, `*(axis->begin())`. -/
def seq_vector.first (ax : seq_vector) : ℚ := ax.elem 0

/-- Last node of the axis, `*(axis->rbegin())`. -/
def seq_vector.last (ax : seq_vector) : ℚ := ax.elem (ax.size - 1)

/-- Modelled from the spec: the base class `data_grid<double,2>` (header
`usml/types/data_grid.h`) is not among the sources.  The engine reads its two axes, the raw
values `data(index)`, and the per-axis flags `interp_type(dim)` and `edge_limit(dim)`. -/
structure data_grid where
  axis0 : seq_vector
  axis1 : seq_vector
  data : Nat → Nat → ℚ
  interp_type0 : Int
  interp_type1 : Int
  edge_limit0 : Bool
  edge_limit1 : Bool

/-- Enumerator `GRID_INTERP_NEAREST`. -/
def GRID_INTERP_NEAREST : Int := -1

/-- Enumerator `GRID_INTERP_LINEAR`. -/
def GRID_INTERP_LINEAR : Int := 0

/-- Enumerator `GRID_INTERP_PCHIP`. -/
def GRID_INTERP_PCHIP : Int := 1

/-! ## Members of the engine -/

/-- Members of `data_grid_bathy` that a query writes (lines 52-54 and 69-73). -/
structure scratch where
  _offset : Nat × Nat
  fast_index : Nat × Nat
  bicubic_coeff : Nat → ℚ
  field : Nat → ℚ
  xyloc : Nat → ℚ
  result_pchip : ℚ
  value : Nat → Nat → ℚ

/-- The class `data_grid_bathy`: the wrapped grid, the members filled once by the constructor,
and the scratch members. -/
structure data_grid_bathy where
  grid : data_grid
  inv_bicubic_coeff : Nat → Nat → ℚ
  derv_x : Nat → Nat → ℚ
  derv_y : Nat → Nat → ℚ
  derv_x_y : Nat → Nat → ℚ
  kmin : Int
  k0max : Int
  k1max : Int
  mem : scratch

/-! ## Constructor: inverse bicubic coefficient matrix (lines 255-320) -/

/-- The matrix `zero_matrix<double>(16,16)`. -/
def zero_matrix : Nat → Nat → ℚ := fun _ _ => 0

/-- One assignment `m(r,c) = v`. -/
def assign (m : Nat → Nat → ℚ) (r c : Nat) (v : ℚ) : Nat → Nat → ℚ :=
  fun i j => if i = r ∧ j = c then v else m i j

/-- The assignments of lines 257-320 in execution order, as (row, column, value); a chained
assignment `m(a) = m(b) = v` stores into `m(b)` first. -/
def inv_bicubic_assign : List (Nat × Nat × ℚ) :=
  [ (0,0,1), (1,8,1),
    (2,0,-3), (2,1,3), (2,8,-2), (2,9,-1),
    (3,0,2), (3,1,-2), (3,9,1), (3,8,1),
    (4,4,1), (5,12,1),
    (6,4,-3), (6,5,3), (6,12,-2), (6,13,-1),
    (7,4,2), (7,5,-2), (7,13,1), (7,12,1),
    (8,0,-3), (8,2,3), (8,4,-2), (8,6,-1),
    (9,8,-3), (9,10,3), (9,12,-2), (9,14,-1),
    (10,3,9), (10,0,9), (10,2,-9), (10,1,-9), (10,8,6), (10,4,6),
    (10,10,-6), (10,5,-6), (10,9,3), (10,6,3), (10,11,-3), (10,7,-3),
    (10,12,4), (10,14,2), (10,13,2), (10,15,1),
    (11,3,-6), (11,0,-6), (11,2,6), (11,1,6),
    (11,13,-2), (11,12,-2), (11,6,-2), (11,4,-4), (11,5,4), (11,7,2),
    (11,9,-3), (11,8,-3), (11,11,3), (11,10,3), (11,15,-1), (11,14,-1),
    (12,0,2), (12,2,-2), (12,6,1), (12,4,1),
    (13,8,2), (13,10,-2), (13,14,1), (13,12,1),
    (14,3,-6), (14,0,-6), (14,2,6), (14,1,6), (14,6,-3), (14,4,-3),
    (14,7,3), (14,5,3), (14,8,-4), (14,10,4),
    (14,14,-2), (14,12,-2), (14,9,-2), (14,11,2), (14,15,-1), (14,13,-1),
    (15,3,4), (15,0,4), (15,2,-4), (15,1,-4),
    (15,9,2), (15,8,2), (15,6,2), (15,4,2),
    (15,11,-2), (15,10,-2), (15,7,-2), (15,5,-2),
    (15,15,1), (15,14,1), (15,13,1), (15,12,1) ]

/-- The member `inv_bicubic_coeff` as the constructor leaves it. -/
def inv_bicubic_coeff_init : Nat → Nat → ℚ :=
  inv_bicubic_assign.foldl (fun m e => assign m e.1 e.2.1 e.2.2) zero_matrix

/-- The product `prod(m, v)` of a 16x16 matrix and a 16x1 column. -/
def prod_mv (m : Nat → Nat → ℚ) (v : Nat → ℚ) : Nat → ℚ :=
  fun r => ∑ c in Finset.range 16, m r c * v c

/-- The product `prod(x, a)` of a 1x16 row and a 16x1 column. -/
def prod_vv (x a : Nat → ℚ) : ℚ :=
  ∑ k in Finset.range 16, x k * a k

/-! ## Constructor: normalization increments and derivative fields (lines 325-440) -/

/-- The loop bodies of lines 327-335 and 337-345: entry `i` of `inc_x` (or `inc_y`) for an axis
whose last index is `kmax`. -/
def inc_of (ax : seq_vector) (kmax : Nat) (i : Nat) : ℚ :=
  if i = 0 ∨ i = kmax then 2
  else (ax.increment (i - 1) + ax.increment (i + 1)) / ax.increment i

/-- The body of the double loop of lines 351-440: the triple
`(derv_x(i,j), derv_y(i,j), derv_x_y(i,j))`, the nine branches in source order. -/
def derv_of (grid : data_grid) (i j : Nat) : ℚ × ℚ × ℚ :=
  let k0max := grid.axis0.size - 1
  let k1max := grid.axis1.size - 1
  let data_2d := grid.data
  let inc_x := inc_of grid.axis0 k0max
  let inc_y := inc_of grid.axis1 k1max
  if i < 1 ∧ j < 1 then
    ( (data_2d (i+1) j - data_2d i j) / inc_x i,
      (data_2d i (j+1) - data_2d i j) / inc_y j,
      (data_2d (i+1) (j+1) - data_2d (i+1) j - data_2d i (j+1) + data_2d i j)
        / (inc_x i * inc_y j) )
  else if i = k0max ∧ j = k1max then
    ( (data_2d i j - data_2d (i-1) j) / inc_x i,
      (data_2d i j - data_2d i (j-1)) / inc_y j,
      (data_2d i j - data_2d i (j-1) - data_2d (i-1) j + data_2d (i-1) (j-1))
        / (inc_x i * inc_y j) )
  else if i < 1 ∧ j = k1max then
    ( (data_2d (i+1) j - data_2d i j) / inc_x i,
      (data_2d i j - data_2d i (j-1)) / inc_y j,
      (data_2d (i+1) j - data_2d (i+1) (j-1) - data_2d i j + data_2d i (j-1))
        / (inc_x i * inc_y j) )
  else if j < 1 ∧ i = k0max then
    ( (data_2d i j - data_2d (i-1) j) / inc_x i,
      (data_2d i (j+1) - data_2d i j) / inc_y j,
      (data_2d i (j+1) - data_2d i j - data_2d (i-1) (j+1) + data_2d (i-1) j)
        / (inc_x i * inc_y j) )
  else if i < 1 ∧ (1 ≤ j ∧ j < k1max) then
    ( (data_2d (i+1) j - data_2d i j) / inc_x i,
      (data_2d i (j+1) - data_2d i (j-1)) / inc_y j,
      (data_2d (i+1) (j+1) - data_2d (i+1) (j-1) - data_2d i (j+1) + data_2d i (j-1))
        / (inc_x i * inc_y j) )
  else if j < 1 ∧ (1 ≤ i ∧ i < k0max) then
    ( (data_2d (i+1) j - data_2d (i-1) j) / inc_x i,
      (data_2d i (j+1) - data_2d i j) / inc_y j,
      (data_2d (i+1) (j+1) - data_2d (i+1) j - data_2d (i-1) (j+1) + data_2d (i-1) j)
        / (inc_x i * inc_y j) )
  else if j = k1max ∧ (1 ≤ i ∧ i < k0max) then
    ( (data_2d (i+1) j - data_2d (i-1) j) / inc_x i,
      (data_2d i j - data_2d i (j-1)) / inc_y j,
      (data_2d (i+1) j - data_2d (i+1) (j-1) - data_2d (i-1) j + data_2d (i-1) (j-1))
        / (inc_x i * inc_y j) )
  else if i = k0max ∧ (1 ≤ j ∧ j < k1max) then
    ( (data_2d i j - data_2d (i-1) j) / inc_x i,
      (data_2d i (j+1) - data_2d i (j-1)) / inc_y j,
      (data_2d i (j+1) - data_2d i (j-1) - data_2d (i-1) (j+1) + data_2d (i-1) (j-1))
        / (inc_x i * inc_y j) )
  else
    ( (data_2d (i+1) j - data_2d (i-1) j) / inc_x i,
      (data_2d i (j+1) - data_2d i (j-1)) / inc_y j,
      (data_2d (i+1) (j+1) - data_2d (i+1) (j-1) - data_2d (i-1) (j+1) + data_2d (i-1) (j-1))
        / (inc_x i * inc_y j) )

/-- The constructor `data_grid_bathy(grid, copy_data)` (lines 250-441).  The scratch members
that the constructor leaves uninitialised are taken from `mem`; `fast_index` is set to zero
(lines 322-323). -/
def construct (grid : data_grid) (mem : scratch) : data_grid_bathy :=
  { grid := grid
    inv_bicubic_coeff := inv_bicubic_coeff_init
    derv_x := fun i j => (derv_of grid i j).1
    derv_y := fun i j => (derv_of grid i j).2.1
    derv_x_y := fun i j => (derv_of grid i j).2.2
    kmin := 0
    k0max := (grid.axis0.size : Int) - 1
    k1max := (grid.axis1.size : Int) - 1
    mem := { mem with fast_index := (0, 0) } }

/-! ## The bicubic evaluator `fast_pchip` (lines 132-238) -/

/-- The boundary test of lines 145-150 (and 152-154): the index stored into `fast_index`
for the neighbour `k`. -/
def clamp_index (k kmin kmax : Int) : Nat :=
  if k ≥ kmax then kmax.toNat
  else if k ≤ kmin then kmin.toNat
  else k.toNat

/-- The loops of lines 142-157: entry `(r, c)` of the window `value`, which is written as
`value(i+1, j+1)` for the neighbour offsets `i = r - 1`, `j = c - 1`. -/
def value_window (e : data_grid_bathy) (k0 k1 : Int) : Nat → Nat → ℚ :=
  fun r c =>
    e.grid.data (clamp_index (k0 + ((r : Int) - 1)) e.kmin e.k0max)
      (clamp_index (k1 + ((c : Int) - 1)) e.kmin e.k1max)

/-- The field vector of lines 172-187. -/
def field_of (e : data_grid_bathy) (value : Nat → Nat → ℚ) (k0 k1 : Nat) : Nat → ℚ
  | 0 => value 1 1
  | 1 => value 1 2
  | 2 => value 2 1
  | 3 => value 2 2
  | 4 => e.derv_x k0 k1
  | 5 => e.derv_x k0 (k1+1)
  | 6 => e.derv_x (k0+1) k1
  | 7 => e.derv_x (k0+1) (k1+1)
  | 8 => e.derv_y k0 k1
  | 9 => e.derv_y k0 (k1+1)
  | 10 => e.derv_y (k0+1) k1
  | 11 => e.derv_y (k0+1) (k1+1)
  | 12 => e.derv_x_y k0 k1
  | 13 => e.derv_x_y k0 (k1+1)
  | 14 => e.derv_x_y (k0+1) k1
  | 15 => e.derv_x_y (k0+1) (k1+1)
  | _ => 0

/-- The power series of lines 203-218, entry by entry in source order. -/
def xyloc_of (x_inv y_inv norm0 norm1 : ℚ) : Nat → ℚ :=
  let x1 := y_inv / norm1
  let x2 := x1 * x1
  let x3 := x2 * x1
  let x4 := x_inv / norm0
  let x5 := x4 * x1
  let x6 := x4 * x2
  let x7 := x4 * x3
  let x8 := x4 * x4
  let x9 := x8 * x1
  let x10 := x8 * x2
  let x11 := x8 * x3
  let x12 := x8 * x4
  let x13 := x12 * x1
  let x14 := x12 * x2
  let x15 := x12 * x3
  fun n =>
    match n with
    | 0 => 1
    | 1 => x1
    | 2 => x2
    | 3 => x3
    | 4 => x4
    | 5 => x5
    | 6 => x6
    | 7 => x7
    | 8 => x8
    | 9 => x9
    | 10 => x10
    | 11 => x11
    | 12 => x12
    | 13 => x13
    | 14 => x14
    | 15 => x15
    | _ => 0

/-- The accumulation of lines 222-229 into `derivative[0]`. -/
def pchip_derivative0 (bicubic_coeff xyloc : Nat → ℚ) : ℚ :=
  ∑ i in Finset.Ico (1 : Nat) 4, ∑ j in Finset.range 4,
    (i : ℚ) * bicubic_coeff (i * 4 + j) * xyloc (4 * (i - 1)) * xyloc j

/-- The accumulation of lines 230-235 into `derivative[1]`. -/
def pchip_derivative1 (bicubic_coeff xyloc : Nat → ℚ) : ℚ :=
  ∑ i in Finset.range 4, ∑ j in Finset.Ico (1 : Nat) 4,
    (j : ℚ) * bicubic_coeff (i * 4 + j) * xyloc (4 * i) * xyloc (j - 1)

/-- What a query hands back: the returned value, the caller's `location` array after the call
(the edge limit writes into it), the derivative slot, and the engine after the call. -/
structure query_result where
  result : ℚ
  location : ℚ × ℚ
  derivative : Option (ℚ × ℚ)
  self : data_grid_bathy

/-- The method `fast_pchip(interp_index, location, derivative)`. -/
def fast_pchip (e : data_grid_bathy) (interp_index : Nat × Nat) (location : ℚ × ℚ)
    (derivative : Bool) : query_result :=
  let k0 : Int := interp_index.1
  let k1 : Int := interp_index.2
  let norm0 := e.grid.axis0.elem (interp_index.1 + 1) - e.grid.axis0.elem interp_index.1
  let norm1 := e.grid.axis1.elem (interp_index.2 + 1) - e.grid.axis1.elem interp_index.2
  let value := value_window e k0 k1
  let fast_index := (clamp_index (k0 + 2) e.kmin e.k0max, clamp_index (k1 + 2) e.kmin e.k1max)
  let field := field_of e value interp_index.1 interp_index.2
  let bicubic_coeff := prod_mv e.inv_bicubic_coeff field
  let x_inv := location.1 - e.grid.axis0.elem interp_index.1
  let y_inv := location.2 - e.grid.axis1.elem interp_index.2
  let xyloc := xyloc_of x_inv y_inv norm0 norm1
  let result_pchip := prod_vv xyloc bicubic_coeff
  { result := result_pchip
    location := location
    derivative :=
      if derivative then
        some (pchip_derivative0 bicubic_coeff xyloc, pchip_derivative1 bicubic_coeff xyloc)
      else none
    self :=
      { e with
        mem :=
          { e.mem with
            fast_index := fast_index
            bicubic_coeff := bicubic_coeff
            field := field
            xyloc := xyloc
            result_pchip := result_pchip
            value := value } } }

/-! ## The scalar `interpolate` (lines 456-559) -/

/-- One pass of the loop of lines 461-497 for the axis `ax`: the coordinate `location[dim]`
and the index `_offset[dim]` after the pass, `off` being `_offset[dim]` before it. -/
def locate (ax : seq_vector) (edge_limit : Bool) (loc : ℚ) (off : Nat) : ℚ × Nat :=
  if edge_limit then
    let a := ax.first
    let b := ax.last
    let inc := ax.increment 0
    let s1 : ℚ × Nat :=
      if inc < 0 then
        if loc ≥ a then (a, 0)
        else if loc ≤ b then (b, ax.size - 2)
        else (loc, ax.find_index loc)
      else (loc, off)
    if inc > 0 then
      if s1.1 ≤ a then (a, 0)
      else if s1.1 ≥ b then (b, ax.size - 2)
      else (s1.1, ax.find_index s1.1)
    else s1
  else (loc, ax.find_index loc)

/-- The whole loop of lines 461-497: `location` and `_offset` after it. -/
def locate_cell (e : data_grid_bathy) (location : ℚ × ℚ) : (ℚ × ℚ) × (Nat × Nat) :=
  let c0 := locate e.grid.axis0 e.grid.edge_limit0 location.1 e.mem._offset.1
  let c1 := locate e.grid.axis1 e.grid.edge_limit1 location.2 e.mem._offset.2
  ((c0.1, c1.1), (c0.2, c1.2))

/-- The body of the loop of lines 503-511 for one axis: the index `fast_index[dim]`. -/
def nearest_index (ax : seq_vector) (loc : ℚ) (off : Nat) : Nat :=
  let inc := ax.increment 0
  let u := |loc - ax.elem off| / inc
  if u < 1/2 then off else off + 1

/-- The method `interpolate(location, derivative)`; the `default` branch throws
`std::invalid_argument`. -/
def interpolate (e : data_grid_bathy) (location : ℚ × ℚ) (derivative : Bool) :
    Except String query_result :=
  let cell := locate_cell e location
  let location := cell.1
  let _offset := cell.2
  let e1 : data_grid_bathy := { e with mem := { e.mem with _offset := _offset } }
  if e.grid.interp_type0 = -1 then
    let fast_index :=
      (nearest_index e.grid.axis0 location.1 _offset.1,
       nearest_index e.grid.axis1 location.2 _offset.2)
    .ok { result := e.grid.data fast_index.1 fast_index.2
          location := location
          derivative := if derivative then some (0, 0) else none
          self := { e1 with mem := { e1.mem with fast_index := fast_index } } }
  else if e.grid.interp_type0 = 0 then
    let x := location.1
    let x1 := e.grid.axis0.elem _offset.1
    let x2 := e.grid.axis0.elem (_offset.1 + 1)
    let y := location.2
    let y1 := e.grid.axis1.elem _offset.2
    let y2 := e.grid.axis1.elem (_offset.2 + 1)
    let f11 := e.grid.data _offset.1 _offset.2
    let f21 := e.grid.data (_offset.1 + 1) _offset.2
    let f12 := e.grid.data _offset.1 (_offset.2 + 1)
    let f22 := e.grid.data (_offset.1 + 1) (_offset.2 + 1)
    let x_diff := x2 - x1
    let y_diff := y2 - y1
    let result := ( f11*(x2-x)*(y2-y) + f21*(x-x1)*(y2-y) + f12*(x2-x)*(y-y1)
                    + f22*(x-x1)*(y-y1) ) / (x_diff*y_diff)
    .ok { result := result
          location := location
          derivative :=
            if derivative then
              some ( ( f21*(y2-y) - f11*(y2-y) + f22*(y-y1) - f12*(y-y1) ) / (x_diff*y_diff),
                     ( f12*(x2-x) - f11*(x2-x) + f22*(x-x1) - f21*(x-x1) ) / (x_diff*y_diff) )
            else none
          self :=
            { e1 with mem := { e1.mem with fast_index := (_offset.1 + 1, _offset.2 + 1) } } }
  else if e.grid.interp_type0 = 1 then
    .ok (fast_pchip e1 _offset location derivative)
  else
    .error "Interp must be NEAREST, LINEAR, or PCHIP"

/-! ## The vectorized `interpolate` (lines 574-594) -/

/-- A `matrix<double>`: its two sizes and its entries. -/
structure matrix where
  size1 : Nat
  size2 : Nat
  elem : Nat → Nat → ℚ

/-- The assignment `(*a)(n, k) = v` into a matrix. -/
def matrix.set (a : matrix) (n k : Nat) (v : ℚ) : matrix :=
  { a with elem := assign a.elem n k v }

/-- The variables that the vectorized `interpolate` writes: the arrays behind the pointers
`result`, `dx` and `dy` (a `NULL` pointer is `none`), the local array `derivative`, and the
engine. -/
structure matrix_state where
  result : matrix
  dx : Option matrix
  dy : Option matrix
  derivative : ℚ × ℚ
  self : data_grid_bathy

/-- The body of the inner loop (lines 582-591) for the index `(n, m)`; the local array
`derivative` keeps its content when the scalar call does not write it. -/
def interpolate_body (x y : matrix) (st : matrix_state) (n m : Nat) :
    Except String matrix_state :=
  let location := (x.elem n m, y.elem n m)
  match st.dx, st.dy with
  | some dx, some dy =>
    match interpolate st.self location true with
    | .error msg => .error msg
    | .ok r =>
      let derivative := r.derivative.getD st.derivative
      .ok { result := st.result.set n m r.result
            dx := some (dx.set n m derivative.1)
            dy := some (dy.set n m derivative.2)
            derivative := derivative
            self := r.self }
  | _, _ =>
    match interpolate st.self location false with
    | .error msg => .error msg
    | .ok r => .ok { st with result := st.result.set n m r.result, self := r.self }

/-- The method `interpolate(x, y, result, dx, dy)`: the loop over `n < x.size1()` and, inside
it, the loop over `m < x.size2()`.  The argument `derivative` is the content of the
uninitialised local array at entry. -/
def interpolate_matrix (e : data_grid_bathy) (x y result : matrix) (dx dy : Option matrix)
    (derivative : ℚ × ℚ) : Except String matrix_state :=
  (List.range x.size1).foldlM
    (fun st n => (List.range x.size2).foldlM (fun st m => interpolate_body x y st n m) st)
    { result := result, dx := dx, dy := dy, derivative := derivative, self := e }

/-! ## Axes used in the examples -/

/-- Modelled from the spec: an axis given by its list of nodes, standing for the classes
derived from `seq_vector` that are not among the sources.  `increment k` is the spacing from
node `k` to node `k+1` (the last spacing is repeated past the end), and `find_index` is the
bracketing index: the index of the node immediately at or below the coordinate in the
direction of the axis, kept inside the cells `0 .. size-2`. -/
def seq_data (xs : List ℚ) : seq_vector :=
  { size := xs.length
    elem := fun k => xs.getD k 0
    increment := fun k =>
      if k + 1 < xs.length then xs.getD (k+1) 0 - xs.getD k 0
      else xs.getD (xs.length - 1) 0 - xs.getD (xs.length - 2) 0
    find_index := fun x =>
      ((List.range (xs.length - 2)).filter
        (fun k => if xs.getD 1 0 - xs.getD 0 0 < 0 then decide (x ≤ xs.getD (k+1) 0)
                  else decide (xs.getD (k+1) 0 ≤ x))).length }

/-- A scratch state with every member zero. -/
def scratch_zero : scratch :=
  { _offset := (0, 0)
    fast_index := (0, 0)
    bicubic_coeff := fun _ => 0
    field := fun _ => 0
    xyloc := fun _ => 0
    result_pchip := 0
    value := fun _ _ => 0 }

/-! ## Well-formedness of axes -/

/-- Node values strictly increase along the axis. -/
def seq_vector.ascending (ax : seq_vector) : Prop :=
  ∀ k, k + 1 < ax.size → ax.elem k < ax.elem (k + 1)

/-- Node values strictly decrease along the axis. -/
def seq_vector.descending (ax : seq_vector) : Prop :=
  ∀ k, k + 1 < ax.size → ax.elem (k + 1) < ax.elem k

/-- The precondition on an axis: at least two nodes, strictly monotonic, and `increment` is
the spacing between consecutive nodes. -/
def seq_vector.valid (ax : seq_vector) : Prop :=
  2 ≤ ax.size ∧ (ax.ascending ∨ ax.descending) ∧
    ∀ k, k + 1 < ax.size → ax.increment k = ax.elem (k + 1) - ax.elem k

/-! ## Notions used in the statements -/

/-- The immutable members of the engine are as the constructor leaves them.  Queries only
write `mem`, so every engine reached from `construct` stays in this set. -/
def data_grid_bathy.built (e : data_grid_bathy) : Prop :=
  e.inv_bicubic_coeff = inv_bicubic_coeff_init ∧
  e.derv_x = (fun i j => (derv_of e.grid i j).1) ∧
  e.derv_y = (fun i j => (derv_of e.grid i j).2.1) ∧
  e.derv_x_y = (fun i j => (derv_of e.grid i j).2.2) ∧
  e.kmin = 0 ∧
  e.k0max = (e.grid.axis0.size : Int) - 1 ∧
  e.k1max = (e.grid.axis1.size : Int) - 1

/-- The axis lookup, asked for the coordinate of node `i`, answers with a cell that has the
node as its low or as its high corner. -/
def seq_vector.finds_node (ax : seq_vector) (i : Nat) : Prop :=
  ax.find_index (ax.elem i) + 1 < ax.size ∧
    (ax.find_index (ax.elem i) = i ∨ ax.find_index (ax.elem i) + 1 = i)

/-- The coordinate `x` lies inside the range of the axis. -/
def seq_vector.in_range (ax : seq_vector) (x : ℚ) : Prop :=
  (ax.first ≤ x ∧ x ≤ ax.last) ∨ (ax.last ≤ x ∧ x ≤ ax.first)

open MvPolynomial in
/-- The 16 Hermite conditions on the unit cell tie a coefficient vector `a` to a data vector
`F`: with `g(t,u) = Σ a (4 i + j) t^i u^j` (variable 0 is `t`, variable 1 is `u`), the values
of `g`, `∂g/∂t`, `∂g/∂u` and `∂²g/∂t∂u` at the corners (0,0), (0,1), (1,0), (1,1) are
`F 0 .. F 3`, `F 4 .. F 7`, `F 8 .. F 11` and `F 12 .. F 15`. -/
def hermite_conditions (a F : Nat → ℚ) : Prop :=
  let g : MvPolynomial (Fin 2) ℚ :=
    ∑ i in Finset.range 4, ∑ j in Finset.range 4, C (a (4 * i + j)) * X 0 ^ i * X 1 ^ j
  let gt := pderiv 0 g
  let gu := pderiv 1 g
  let gtu := pderiv 1 (pderiv 0 g)
  eval ![0, 0] g = F 0 ∧ eval ![0, 1] g = F 1 ∧ eval ![1, 0] g = F 2 ∧ eval ![1, 1] g = F 3 ∧
  eval ![0, 0] gt = F 4 ∧ eval ![0, 1] gt = F 5 ∧ eval ![1, 0] gt = F 6 ∧ eval ![1, 1] gt = F 7 ∧
  eval ![0, 0] gu = F 8 ∧ eval ![0, 1] gu = F 9 ∧ eval ![1, 0] gu = F 10 ∧ eval ![1, 1] gu = F 11 ∧
  eval ![0, 0] gtu = F 12 ∧ eval ![0, 1] gtu = F 13 ∧ eval ![1, 0] gtu = F 14 ∧
  eval ![1, 1] gtu = F 15

/-- The bicubic polynomial `g(t,u) = Σ a (4 i + j) t^i u^j` of the documentation of
`fast_pchip` (lines 88-92), as a function of the normalized offsets. -/
def bicubic_poly (a : Nat → ℚ) (t u : ℚ) : ℚ :=
  ∑ i in Finset.range 4, ∑ j in Finset.range 4, a (4 * i + j) * t ^ i * u ^ j

/-- The term-by-term derivative of `bicubic_poly` with respect to `t`. -/
def bicubic_poly_dt (a : Nat → ℚ) (t u : ℚ) : ℚ :=
  ∑ i in Finset.range 4, ∑ j in Finset.range 4, (i : ℚ) * a (4 * i + j) * t ^ (i - 1) * u ^ j

/-- The term-by-term derivative of `bicubic_poly` with respect to `u`. -/
def bicubic_poly_du (a : Nat → ℚ) (t u : ℚ) : ℚ :=
  ∑ i in Finset.range 4, ∑ j in Finset.range 4, (j : ℚ) * a (4 * i + j) * t ^ i * u ^ (j - 1)

/-- The field vector of the cell `(k0, k1)` read directly from the grid: the raw values at
the four corners in the order (0,0), (0,1), (1,0), (1,1), then the constructor's `derv_x`,
`derv_y` and `derv_x_y` at the same corners. -/
def cell_field (grid : data_grid) (k0 k1 : Nat) : Nat → ℚ
  | 0 => grid.data k0 k1
  | 1 => grid.data k0 (k1+1)
  | 2 => grid.data (k0+1) k1
  | 3 => grid.data (k0+1) (k1+1)
  | 4 => (derv_of grid k0 k1).1
  | 5 => (derv_of grid k0 (k1+1)).1
  | 6 => (derv_of grid (k0+1) k1).1
  | 7 => (derv_of grid (k0+1) (k1+1)).1
  | 8 => (derv_of grid k0 k1).2.1
  | 9 => (derv_of grid k0 (k1+1)).2.1
  | 10 => (derv_of grid (k0+1) k1).2.1
  | 11 => (derv_of grid (k0+1) (k1+1)).2.1
  | 12 => (derv_of grid k0 k1).2.2
  | 13 => (derv_of grid k0 (k1+1)).2.2
  | 14 => (derv_of grid (k0+1) k1).2.2
  | 15 => (derv_of grid (k0+1) (k1+1)).2.2
  | _ => 0

/-- The normalized offset of the coordinate `x` in the cell `k` of an axis, the quotient
`x_inv / norm0` (or `y_inv / norm1`) of `fast_pchip`. -/
def cell_offset (ax : seq_vector) (k : Nat) (x : ℚ) : ℚ :=
  (x - ax.elem k) / (ax.elem (k + 1) - ax.elem k)

/-- The outcome of the cell location on an axis with edge limit enabled: `x` is the query
coordinate, `x1` the coordinate and `k` the cell index after the loop.  At or beyond the
first node the coordinate becomes the first node and the cell is 0; at or beyond the last node
the coordinate becomes the last node and the cell is `size - 2`; strictly between the two the
coordinate is kept and the cell is the answer of the axis lookup. -/
def edge_limited (ax : seq_vector) (x x1 : ℚ) (k : Nat) : Prop :=
  (ax.ascending →
    (x ≤ ax.first → x1 = ax.first ∧ k = 0) ∧
    (ax.last ≤ x → x1 = ax.last ∧ k = ax.size - 2) ∧
    (ax.first < x → x < ax.last → x1 = x ∧ k = ax.find_index x)) ∧
  (ax.descending →
    (ax.first ≤ x → x1 = ax.first ∧ k = 0) ∧
    (x ≤ ax.last → x1 = ax.last ∧ k = ax.size - 2) ∧
    (x < ax.first → ax.last < x → x1 = x ∧ k = ax.find_index x))

/-- The coordinate `x` lies at or beyond the last node of the axis, in the direction of the
axis. -/
def seq_vector.beyond_last (ax : seq_vector) (x : ℚ) : Prop :=
  (ax.ascending ∧ ax.last ≤ x) ∨ (ax.descending ∧ x ≤ ax.last)

/-- The axis is uniformly spaced: every per-node spacing `increment(k)` is the same non-zero
number `h`. -/
def seq_vector.uniform (ax : seq_vector) (h : ℚ) : Prop :=
  h ≠ 0 ∧ ∀ k, k < ax.size → ax.increment k = h

/-- The edge-limit loop sets `_offset[dim]` on this axis: edge limit is off, or
`increment(0)` is not zero (as on every strictly monotonic axis). -/
def seq_vector.locates (ax : seq_vector) (edge_limit : Bool) : Prop :=
  edge_limit = false ∨ ax.increment 0 ≠ 0

/-- What the caller of a scalar query observes: the returned value, the `location` array and
the derivative slot after the call. -/
def query_result.view (r : query_result) : ℚ × (ℚ × ℚ) × Option (ℚ × ℚ) :=
  (r.result, r.location, r.derivative)

/-- The cubic Hermite polynomial on the unit interval with end values `f0`, `f1` and end
slopes `d0`, `d1`. -/
def hermite_cubic (f0 f1 d0 d1 t : ℚ) : ℚ :=
  f0 + d0 * t + (-3 * f0 + 3 * f1 - 2 * d0 - d1) * t ^ 2 + (2 * f0 - 2 * f1 + d0 + d1) * t ^ 3

/-- The derivative of `hermite_cubic` with respect to `t`. -/
def hermite_cubic_dt (f0 f1 d0 d1 t : ℚ) : ℚ :=
  d0 + 2 * (-3 * f0 + 3 * f1 - 2 * d0 - d1) * t + 3 * (2 * f0 - 2 * f1 + d0 + d1) * t ^ 2

/-- The clamped upper neighbour `min(i+1, R-1)` of the index `i` on an axis with `R` nodes. -/
def next_index (i R : Nat) : Nat := min (i + 1) (R - 1)

/-- The clamped lower neighbour `max(i-1, 0)` of the index `i`, the maximum taken over the
integers. -/
def prev_index (i : Nat) : Nat := (max ((i : Int) - 1) 0).toNat

/-- The slope stored in `derv_x` at row `i` when the data do not depend on the column,
data(i,j) = f(i): the clamped difference of `f` over the normalization increment. -/
def column_slope (grid : data_grid) (f : Nat → ℚ) (i : Nat) : ℚ :=
  (f (next_index i grid.axis0.size) - f (prev_index i))
    / inc_of grid.axis0 (grid.axis0.size - 1) i

/-- Entry `(n, m)` of the output arrays in the state `st` is the outcome of the scalar query
of the engine `e` at the location `(x(n,m), y(n,m))`, asked with a derivative slot exactly
when both `dx` and `dy` are supplied (`slot`): `result(n,m)` is the returned value and, with
a slot, `dx(n,m)` and `dy(n,m)` are the two components of the derivative. -/
def scalar_entry (e : data_grid_bathy) (x y : matrix) (slot : Bool) (st : matrix_state)
    (n m : Nat) : Prop :=
  ∃ r, interpolate e (x.elem n m, y.elem n m) slot = .ok r ∧
    st.result.elem n m = r.result ∧
    (slot = true → ∃ ox oy, st.dx = some ox ∧ st.dy = some oy ∧
      r.derivative = some (ox.elem n m, oy.elem n m))

/-! ## Notions used in the statements on bounds, regions and offsets -/

/-- The accessor `data_2d(row, col)` (lines 45-50) with the bounds of the grid checked: a read
outside the `R x C` nodes has no value.  The indices are integers, so that an `unsigned`
difference `i - 1` taken at `i = 0`, which wraps around in the source, is out of bounds. -/
def data_2d_checked (grid : data_grid) (row col : Int) : Option ℚ :=
  if 0 ≤ row ∧ row < grid.axis0.size ∧ 0 ≤ col ∧ col < grid.axis1.size then
    some (grid.data row.toNat col.toNat)
  else none

/-- The three assignments of one branch of the loop of lines 351-440 with checked reads, the
rows read being `ip`, `im` and the columns read being `jp`, `jm`:
`derv_x(i,j) = (data_2d(ip,j) - data_2d(im,j)) / inc_x(i)`,
`derv_y(i,j) = (data_2d(i,jp) - data_2d(i,jm)) / inc_y(j)` and
`derv_x_y(i,j) = (data_2d(ip,jp) - data_2d(ip,jm) - data_2d(im,jp) + data_2d(im,jm))
/ (inc_x(i) * inc_y(j))`. -/
def stencil_checked (grid : data_grid) (ip im jp jm : Int) (i j : Nat) : Option (ℚ × ℚ × ℚ) :=
  let inc_x := inc_of grid.axis0 (grid.axis0.size - 1)
  let inc_y := inc_of grid.axis1 (grid.axis1.size - 1)
  do
    let x1 ← data_2d_checked grid ip j
    let x0 ← data_2d_checked grid im j
    let y1 ← data_2d_checked grid i jp
    let y0 ← data_2d_checked grid i jm
    let f11 ← data_2d_checked grid ip jp
    let f10 ← data_2d_checked grid ip jm
    let f01 ← data_2d_checked grid im jp
    let f00 ← data_2d_checked grid im jm
    pure ((x1 - x0) / inc_x i, (y1 - y0) / inc_y j, (f11 - f10 - f01 + f00) / (inc_x i * inc_y j))

/-- The body of the double loop of lines 351-440 with checked reads: the nine branches in
source order, each with the rows and columns it reads. -/
def derv_of_checked (grid : data_grid) (i j : Nat) : Option (ℚ × ℚ × ℚ) :=
  let k0max := grid.axis0.size - 1
  let k1max := grid.axis1.size - 1
  let i0 : Int := i
  let j0 : Int := j
  if i < 1 ∧ j < 1 then stencil_checked grid (i0 + 1) i0 (j0 + 1) j0 i j
  else if i = k0max ∧ j = k1max then stencil_checked grid i0 (i0 - 1) j0 (j0 - 1) i j
  else if i < 1 ∧ j = k1max then stencil_checked grid (i0 + 1) i0 j0 (j0 - 1) i j
  else if j < 1 ∧ i = k0max then stencil_checked grid i0 (i0 - 1) (j0 + 1) j0 i j
  else if i < 1 ∧ (1 ≤ j ∧ j < k1max) then stencil_checked grid (i0 + 1) i0 (j0 + 1) (j0 - 1) i j
  else if j < 1 ∧ (1 ≤ i ∧ i < k0max) then stencil_checked grid (i0 + 1) (i0 - 1) (j0 + 1) j0 i j
  else if j = k1max ∧ (1 ≤ i ∧ i < k0max) then
    stencil_checked grid (i0 + 1) (i0 - 1) j0 (j0 - 1) i j
  else if i = k0max ∧ (1 ≤ j ∧ j < k1max) then
    stencil_checked grid i0 (i0 - 1) (j0 + 1) (j0 - 1) i j
  else stencil_checked grid (i0 + 1) (i0 - 1) (j0 + 1) (j0 - 1) i j

/-- The condition of region `n` of the loop of lines 351-440 for the node `(i, j)`: the eight
conditions tested, in source order (`n = 0, ..., 7`), and the interior `1 <= i < k0max`,
`1 <= j < k1max` (`n = 8`), for which the source has the final `else`. -/
def region_condition (k0max k1max i j : Nat) : Nat → Bool
  | 0 => decide (i < 1 ∧ j < 1)
  | 1 => decide (i = k0max ∧ j = k1max)
  | 2 => decide (i < 1 ∧ j = k1max)
  | 3 => decide (j < 1 ∧ i = k0max)
  | 4 => decide (i < 1 ∧ (1 ≤ j ∧ j < k1max))
  | 5 => decide (j < 1 ∧ (1 ≤ i ∧ i < k0max))
  | 6 => decide (j = k1max ∧ (1 ≤ i ∧ i < k0max))
  | 7 => decide (i = k0max ∧ (1 ≤ j ∧ j < k1max))
  | 8 => decide ((1 ≤ i ∧ i < k0max) ∧ (1 ≤ j ∧ j < k1max))
  | _ => false

/-- The three assignments of a branch whose reads are at the rows `ip`, `im` and the columns
`jp`, `jm`. -/
def stencil_of (grid : data_grid) (ip im jp jm i j : Nat) : ℚ × ℚ × ℚ :=
  let inc_x := inc_of grid.axis0 (grid.axis0.size - 1)
  let inc_y := inc_of grid.axis1 (grid.axis1.size - 1)
  ( (grid.data ip j - grid.data im j) / inc_x i,
    (grid.data i jp - grid.data i jm) / inc_y j,
    (grid.data ip jp - grid.data ip jm - grid.data im jp + grid.data im jm)
      / (inc_x i * inc_y j) )

/-- The stencil that the branch of region `n` assigns at the node `(i, j)`. -/
def region_stencil (grid : data_grid) (i j : Nat) : Nat → ℚ × ℚ × ℚ
  | 0 => stencil_of grid (i + 1) i (j + 1) j i j
  | 1 => stencil_of grid i (i - 1) j (j - 1) i j
  | 2 => stencil_of grid (i + 1) i j (j - 1) i j
  | 3 => stencil_of grid i (i - 1) (j + 1) j i j
  | 4 => stencil_of grid (i + 1) i (j + 1) (j - 1) i j
  | 5 => stencil_of grid (i + 1) (i - 1) (j + 1) j i j
  | 6 => stencil_of grid (i + 1) (i - 1) j (j - 1) i j
  | 7 => stencil_of grid i (i - 1) (j + 1) (j - 1) i j
  | _ => stencil_of grid (i + 1) (i - 1) (j + 1) (j - 1) i j

/-- The region that an if-else chain selects when it tests the conditions in the order
`order` and ends with the `else` of the interior. -/
def first_region (order : List Nat) (k0max k1max i j : Nat) : Nat :=
  (order.find? (region_condition k0max k1max i j)).getD 8

/-- The precondition on an axis together with the direction of the spacing reported at the
last node: `increment(size-1)`, which the constructor reads for `inc(size-2)`, has the sign of
the spacing of the last cell (the axis classes repeat the last spacing there). -/
def seq_vector.directed (ax : seq_vector) : Prop :=
  ax.valid ∧ 0 < ax.increment (ax.size - 1) * ax.increment (ax.size - 2)

/-- Modelled from the spec: the bracketing lookup of an axis.  For a coordinate strictly
inside the range of the axis, `find_index` answers with a cell whose two nodes enclose the
coordinate. -/
def seq_vector.brackets (ax : seq_vector) : Prop :=
  ∀ x, ((ax.first < x ∧ x < ax.last) ∨ (ax.last < x ∧ x < ax.first)) →
    ax.find_index x + 1 < ax.size ∧
    ((ax.elem (ax.find_index x) ≤ x ∧ x ≤ ax.elem (ax.find_index x + 1)) ∨
     (ax.elem (ax.find_index x + 1) ≤ x ∧ x ≤ ax.elem (ax.find_index x)))

/-- The coordinate `x` lies at or beyond the first node of the axis, against the direction of
the axis. -/
def seq_vector.before_first (ax : seq_vector) (x : ℚ) : Prop :=
  (ax.ascending ∧ x ≤ ax.first) ∨ (ax.descending ∧ ax.first ≤ x)

open MvPolynomial in
/-- The numbers `v`, `dt`, `du` are the value and the two partial derivatives at `(t, u)` of
the polynomial `g(t,u) = Σ a (4 i + j) t^i u^j` (variable 0 is `t`, variable 1 is `u`). -/
def pchip_series_spec (a : Nat → ℚ) (t u v dt du : ℚ) : Prop :=
  let g : MvPolynomial (Fin 2) ℚ :=
    ∑ i in Finset.range 4, ∑ j in Finset.range 4, C (a (4 * i + j)) * X 0 ^ i * X 1 ^ j
  eval ![t, u] g = v ∧ eval ![t, u] (pderiv 0 g) = dt ∧ eval ![t, u] (pderiv 1 g) = du

/-! ## Example grids -/

/-- A grid whose raw values sample the function `f` at the nodes of the two axes, with the
same interpolation type and the same edge-limit flag on both axes. -/
def grid_of (ax0 ax1 : seq_vector) (f : ℚ → ℚ → ℚ) (interp : Int) (el : Bool) : data_grid :=
  { axis0 := ax0
    axis1 := ax1
    data := fun i j => f (ax0.elem i) (ax1.elem j)
    interp_type0 := interp
    interp_type1 := interp
    edge_limit0 := el
    edge_limit1 := el }

/-- An ascending axis with unequal spacing. -/
def axis_up : seq_vector := seq_data [1, 2, 6]

/-- A descending axis with equal spacing. -/
def axis_down : seq_vector := seq_data [3, 2, 1]

/-- An ascending axis with equal spacing. -/
def axis_unit : seq_vector := seq_data [0, 1, 2]

/-- An ascending axis with equal spacing 2 and four nodes. -/
def axis_even : seq_vector := seq_data [0, 2, 4, 6]

/-- The axis 1, 2, ..., 9 of the accuracy scenario. -/
def axis_nine : seq_vector := seq_data [1, 2, 3, 4, 5, 6, 7, 8, 9]

/-- The grid of the accuracy scenario: both axes 1, ..., 9, data(i,j) = axis0(i)^3, PCHIP on
both axes. -/
def cubic_grid (el : Bool) : data_grid :=
  grid_of axis_nine axis_nine (fun x _ => x ^ 3) 1 el

/-- The engine built from the axes [1,2,6] and [3,2,1] with data(i,j) = x*x + 3*y, edge limit
on, and the interpolation type `interp` on both axes. -/
def example_engine (interp : Int) : data_grid_bathy :=
  construct (grid_of axis_up axis_down (fun x y => x * x + 3 * y) interp true) scratch_zero

/-- A 1 x 2 array of x coordinates. -/
def sample_x : matrix :=
  { size1 := 1, size2 := 2, elem := fun _ m => if m = 0 then 3 else 1 }

/-- A 1 x 2 array of y coordinates. -/
def sample_y : matrix :=
  { size1 := 1, size2 := 2, elem := fun _ m => if m = 0 then 5/2 else 2 }

/-- A 1 x 2 array of zeros. -/
def sample_zero : matrix :=
  { size1 := 1, size2 := 2, elem := fun _ _ => 0 }

/-! ## The inverse matrix -/

set_option maxRecDepth 100000 in
/-- The rows of the product `prod(inv_bicubic_coeff, field)` written out. -/
theorem prod_inv_rows (F : Nat → ℚ) :
    prod_mv inv_bicubic_coeff_init F 0 = F 0 ∧
    prod_mv inv_bicubic_coeff_init F 1 = F 8 ∧
    prod_mv inv_bicubic_coeff_init F 2 = -3 * F 0 + 3 * F 1 - 2 * F 8 - F 9 ∧
    prod_mv inv_bicubic_coeff_init F 3 = 2 * F 0 - 2 * F 1 + F 8 + F 9 ∧
    prod_mv inv_bicubic_coeff_init F 4 = F 4 ∧
    prod_mv inv_bicubic_coeff_init F 5 = F 12 ∧
    prod_mv inv_bicubic_coeff_init F 6 = -3 * F 4 + 3 * F 5 - 2 * F 12 - F 13 ∧
    prod_mv inv_bicubic_coeff_init F 7 = 2 * F 4 - 2 * F 5 + F 12 + F 13 ∧
    prod_mv inv_bicubic_coeff_init F 8 = -3 * F 0 + 3 * F 2 - 2 * F 4 - F 6 ∧
    prod_mv inv_bicubic_coeff_init F 9 = -3 * F 8 + 3 * F 10 - 2 * F 12 - F 14 ∧
    prod_mv inv_bicubic_coeff_init F 10 =
      9 * F 0 - 9 * F 1 - 9 * F 2 + 9 * F 3 + 6 * F 4 - 6 * F 5 + 3 * F 6 - 3 * F 7
        + 6 * F 8 + 3 * F 9 - 6 * F 10 - 3 * F 11 + 4 * F 12 + 2 * F 13 + 2 * F 14 + F 15 ∧
    prod_mv inv_bicubic_coeff_init F 11 =
      -6 * F 0 + 6 * F 1 + 6 * F 2 - 6 * F 3 - 4 * F 4 + 4 * F 5 - 2 * F 6 + 2 * F 7
        - 3 * F 8 - 3 * F 9 + 3 * F 10 + 3 * F 11 - 2 * F 12 - 2 * F 13 - F 14 - F 15 ∧
    prod_mv inv_bicubic_coeff_init F 12 = 2 * F 0 - 2 * F 2 + F 4 + F 6 ∧
    prod_mv inv_bicubic_coeff_init F 13 = 2 * F 8 - 2 * F 10 + F 12 + F 14 ∧
    prod_mv inv_bicubic_coeff_init F 14 =
      -6 * F 0 + 6 * F 1 + 6 * F 2 - 6 * F 3 - 3 * F 4 + 3 * F 5 - 3 * F 6 + 3 * F 7
        - 4 * F 8 - 2 * F 9 + 4 * F 10 + 2 * F 11 - 2 * F 12 - F 13 - 2 * F 14 - F 15 ∧
    prod_mv inv_bicubic_coeff_init F 15 =
      4 * F 0 - 4 * F 1 - 4 * F 2 + 4 * F 3 + 2 * F 4 - 2 * F 5 + 2 * F 6 - 2 * F 7
        + 2 * F 8 + 2 * F 9 - 2 * F 10 - 2 * F 11 + F 12 + F 13 + F 14 + F 15 := by
  refine ⟨?_, ?_, ?_, ?_, ?_, ?_, ?_, ?_, ?_, ?_, ?_, ?_, ?_, ?_, ?_, ?_⟩ <;>
    simp [prod_mv, Finset.sum_range_succ, inv_bicubic_coeff_init, inv_bicubic_assign, assign,
      zero_matrix] <;> ring

theorem pderiv_two (i : Fin 2) :
    MvPolynomial.pderiv i (2 : MvPolynomial (Fin 2) ℚ) = 0 := by
  have h := Derivation.map_natCast (MvPolynomial.pderiv i : Derivation ℚ (MvPolynomial (Fin 2) ℚ) _) 2
  simpa using h

theorem pderiv_three (i : Fin 2) :
    MvPolynomial.pderiv i (3 : MvPolynomial (Fin 2) ℚ) = 0 := by
  have h := Derivation.map_natCast (MvPolynomial.pderiv i : Derivation ℚ (MvPolynomial (Fin 2) ℚ) _) 3
  simpa using h

/-- C1: the coefficients `a = inv_bicubic_coeff * F` produced by the constructor's matrix
satisfy all 16 Hermite conditions on the unit cell, for every field vector `F`. -/
theorem inv_bicubic_coeff_hermite (grid : data_grid) (mem : scratch) (F : Nat → ℚ) :
    hermite_conditions (prod_mv (construct grid mem).inv_bicubic_coeff F) F := by
  obtain ⟨h0, h1, h2, h3, h4, h5, h6, h7, h8, h9, h10, h11, h12, h13, h14, h15⟩ :=
    prod_inv_rows F
  simp only [hermite_conditions, construct]
  simp [Finset.sum_range_succ, MvPolynomial.pderiv_X, Pi.single_apply, pderiv_two, pderiv_three]
  rw [h0, h1, h2, h3, h4, h5, h6, h7, h8, h9, h10, h11, h12, h13, h14, h15]
  and_intros <;> first | trivial | ring

/-! ## Axes -/

theorem seq_vector.ascending_lt {ax : seq_vector} (h : ax.ascending) {i j : Nat}
    (hij : i < j) (hj : j < ax.size) : ax.elem i < ax.elem j := by
  induction j with
  | zero => omega
  | succ n ih =>
    have hstep := h n hj
    rcases Nat.lt_succ_iff_lt_or_eq.mp hij with hlt | heq
    · exact lt_trans (ih hlt (by omega)) hstep
    · rw [heq]; exact hstep

theorem seq_vector.descending_lt {ax : seq_vector} (h : ax.descending) {i j : Nat}
    (hij : i < j) (hj : j < ax.size) : ax.elem j < ax.elem i := by
  induction j with
  | zero => omega
  | succ n ih =>
    have hstep := h n hj
    rcases Nat.lt_succ_iff_lt_or_eq.mp hij with hlt | heq
    · exact lt_trans hstep (ih hlt (by omega))
    · rw [heq]; exact hstep

/-- On a valid axis the nodes of a cell differ. -/
theorem seq_vector.valid_cell_ne {ax : seq_vector} (h : ax.valid) {k : Nat}
    (hk : k + 1 < ax.size) : ax.elem (k + 1) - ax.elem k ≠ 0 := by
  rcases h.2.1 with ha | hd
  · have := ha k hk; intro h0; linarith
  · have := hd k hk; intro h0; linarith

/-- The cell located for the coordinate of node `i`: the coordinate is unchanged and the
node is a corner of the cell. -/
theorem locate_node {ax : seq_vector} (h : ax.valid) (el : Bool) (off : Nat) {i : Nat}
    (hi : i < ax.size) (hf : ax.finds_node i) :
    (locate ax el (ax.elem i) off).1 = ax.elem i ∧
      (locate ax el (ax.elem i) off).2 + 1 < ax.size ∧
      ((locate ax el (ax.elem i) off).2 = i ∨ (locate ax el (ax.elem i) off).2 + 1 = i) := by
  obtain ⟨hsize, hmono, hinc⟩ := h
  have hinc0 : ax.increment 0 = ax.elem 1 - ax.elem 0 := hinc 0 (by omega)
  cases el with
  | false => simpa [locate] using hf
  | true =>
    rcases hmono with ha | hd
    · have hpos : 0 < ax.increment 0 := by
        have := ha 0 (by omega); rw [hinc0]; simpa using this
      have hneg : ¬ ax.increment 0 < 0 := not_lt.mpr hpos.le
      simp only [locate, if_true, hneg, if_false, gt_iff_lt, hpos, ge_iff_le,
        seq_vector.first, seq_vector.last]
      by_cases h1 : ax.elem i ≤ ax.elem 0
      · have hi0 : i = 0 := by
          by_contra hne
          have := seq_vector.ascending_lt ha (Nat.pos_of_ne_zero hne) hi
          linarith
        subst hi0
        simp
        omega
      · by_cases h2 : ax.elem (ax.size - 1) ≤ ax.elem i
        · have hil : i = ax.size - 1 := by
            by_contra hne
            have := seq_vector.ascending_lt ha (show i < ax.size - 1 by omega) (by omega)
            linarith
          simp [h1, h2]
          refine ⟨by rw [hil], by omega, by omega⟩
        · simpa [h1, h2] using hf
    · have hneg : ax.increment 0 < 0 := by
        have := hd 0 (by omega); rw [hinc0]; linarith
      have hpos : ¬ 0 < ax.increment 0 := not_lt.mpr hneg.le
      simp only [locate, if_true, hneg, if_false, gt_iff_lt, hpos, ge_iff_le,
        seq_vector.first, seq_vector.last]
      by_cases h1 : ax.elem 0 ≤ ax.elem i
      · have hi0 : i = 0 := by
          by_contra hne
          have := seq_vector.descending_lt hd (Nat.pos_of_ne_zero hne) hi
          linarith
        subst hi0
        simp
        omega
      · by_cases h2 : ax.elem i ≤ ax.elem (ax.size - 1)
        · have hil : i = ax.size - 1 := by
            by_contra hne
            have := seq_vector.descending_lt hd (show i < ax.size - 1 by omega) (by omega)
            linarith
          simp [h1, h2]
          refine ⟨by rw [hil], by omega, by omega⟩
        · simpa [h1, h2] using hf

/-! ## The evaluator at the corners of a cell -/

theorem construct_built (grid : data_grid) (mem : scratch) : (construct grid mem).built := by
  simp [data_grid_bathy.built, construct]

/-- Inside the grid the boundary test of `fast_pchip` leaves the index alone. -/
theorem clamp_index_inside (k : Nat) (n : Nat) (h : k < n) :
    clamp_index (k : Int) 0 ((n : Int) - 1) = k := by
  unfold clamp_index
  split_ifs <;> omega

/-- The four centre entries of the window are the raw values at the corners of the cell. -/
theorem value_window_corner {e : data_grid_bathy} (hb : e.built) {k0 k1 : Nat}
    (h0 : k0 + 1 < e.grid.axis0.size) (h1 : k1 + 1 < e.grid.axis1.size) (p q : Nat)
    (hp : p ≤ 1) (hq : q ≤ 1) :
    value_window e k0 k1 (p + 1) (q + 1) = e.grid.data (k0 + p) (k1 + q) := by
  obtain ⟨-, -, -, -, hmin, hmax0, hmax1⟩ := hb
  have e0 : (k0 : Int) + (((p + 1 : Nat) : Int) - 1) = ((k0 + p : Nat) : Int) := by
    push_cast; ring
  have e1 : (k1 : Int) + (((q + 1 : Nat) : Int) - 1) = ((k1 + q : Nat) : Int) := by
    push_cast; ring
  simp only [value_window, hmin, hmax0, hmax1, e0, e1]
  rw [clamp_index_inside _ _ (by omega), clamp_index_inside _ _ (by omega)]

/-- The product `prod(xyloc, bicubic_coeff)` is the bicubic polynomial in the normalized
offsets `t = x_inv / norm0` and `u = y_inv / norm1`. -/
theorem prod_vv_xyloc (x_inv y_inv norm0 norm1 : ℚ) (a : Nat → ℚ) :
    prod_vv (xyloc_of x_inv y_inv norm0 norm1) a =
      ∑ i in Finset.range 4, ∑ j in Finset.range 4,
        a (4 * i + j) * (x_inv / norm0) ^ i * (y_inv / norm1) ^ j := by
  simp only [prod_vv, xyloc_of, Finset.sum_range_succ, Finset.sum_range_zero]
  ring

/-- At the corner `(p, q)` of the unit cell the bicubic polynomial takes the value stored in
the field vector for that corner. -/
theorem pchip_poly_corner (F : Nat → ℚ) (p q : Nat) (hp : p ≤ 1) (hq : q ≤ 1) :
    ∑ i in Finset.range 4, ∑ j in Finset.range 4,
        prod_mv inv_bicubic_coeff_init F (4 * i + j) * (p : ℚ) ^ i * (q : ℚ) ^ j
      = F (2 * p + q) := by
  obtain ⟨h0, h1, h2, h3, h4, h5, h6, h7, h8, h9, h10, h11, h12, h13, h14, h15⟩ :=
    prod_inv_rows F
  simp only [Finset.sum_range_succ, Finset.sum_range_zero]
  norm_num
  rw [h0, h1, h2, h3, h4, h5, h6, h7, h8, h9, h10, h11, h12, h13, h14, h15]
  interval_cases p <;> interval_cases q <;> norm_num <;> ring

/-- The evaluator returns the raw corner value when the location is a corner of the cell. -/
theorem fast_pchip_corner {e : data_grid_bathy} (hb : e.built)
    (hv0 : e.grid.axis0.valid) (hv1 : e.grid.axis1.valid) {k0 k1 : Nat}
    (h0 : k0 + 1 < e.grid.axis0.size) (h1 : k1 + 1 < e.grid.axis1.size) (p q : Nat)
    (hp : p ≤ 1) (hq : q ≤ 1) (derivative : Bool) :
    (fast_pchip e (k0, k1) (e.grid.axis0.elem (k0 + p), e.grid.axis1.elem (k1 + q))
      derivative).result = e.grid.data (k0 + p) (k1 + q) := by
  have hn0 := seq_vector.valid_cell_ne hv0 h0
  have hn1 := seq_vector.valid_cell_ne hv1 h1
  have ht : (e.grid.axis0.elem (k0 + p) - e.grid.axis0.elem k0)
      / (e.grid.axis0.elem (k0 + 1) - e.grid.axis0.elem k0) = (p : ℚ) := by
    interval_cases p
    · simp
    · simpa using div_self hn0
  have hu : (e.grid.axis1.elem (k1 + q) - e.grid.axis1.elem k1)
      / (e.grid.axis1.elem (k1 + 1) - e.grid.axis1.elem k1) = (q : ℚ) := by
    interval_cases q
    · simp
    · simpa using div_self hn1
  simp only [fast_pchip, prod_vv_xyloc, ht, hu, hb.1]
  rw [pchip_poly_corner _ p q hp hq]
  have hw := value_window_corner hb h0 h1 p q hp hq
  interval_cases p <;> interval_cases q <;> simpa [field_of] using hw

/-! ## Bicubic interpolation at the nodes -/

theorem built_with_mem {e : data_grid_bathy} (hb : e.built) (m : scratch) :
    ({ e with mem := m } : data_grid_bathy).built := hb

theorem axis_up_valid : axis_up.valid := by
  refine ⟨by decide, Or.inl ?_, ?_⟩
  · intro k hk
    have hk3 : k < 2 := by have h3 : k + 1 < 3 := hk; omega
    interval_cases k <;> norm_num [axis_up, seq_data]
  · intro k hk
    have hk3 : k < 2 := by have h3 : k + 1 < 3 := hk; omega
    interval_cases k <;> norm_num [axis_up, seq_data]

theorem axis_down_valid : axis_down.valid := by
  refine ⟨by decide, Or.inr ?_, ?_⟩
  · intro k hk
    have hk3 : k < 2 := by have h3 : k + 1 < 3 := hk; omega
    interval_cases k <;> norm_num [axis_down, seq_data]
  · intro k hk
    have hk3 : k < 2 := by have h3 : k + 1 < 3 := hk; omega
    interval_cases k <;> norm_num [axis_down, seq_data]

theorem axis_unit_valid : axis_unit.valid := by
  refine ⟨by decide, Or.inl ?_, ?_⟩
  · intro k hk
    have hk3 : k < 2 := by have h3 : k + 1 < 3 := hk; omega
    interval_cases k <;> norm_num [axis_unit, seq_data]
  · intro k hk
    have hk3 : k < 2 := by have h3 : k + 1 < 3 := hk; omega
    interval_cases k <;> norm_num [axis_unit, seq_data]

/-- With the selector of axis 0 equal to PCHIP, a query is the cell location followed by
`fast_pchip`. -/
theorem interpolate_pchip_eq (e : data_grid_bathy) (location : ℚ × ℚ) (derivative : Bool)
    (h : e.grid.interp_type0 = 1) :
    interpolate e location derivative =
      .ok (fast_pchip { e with mem := { e.mem with _offset := (locate_cell e location).2 } }
        (locate_cell e location).2 (locate_cell e location).1 derivative) := by
  have hne : ¬ e.grid.interp_type0 = -1 := by rw [h]; decide
  have hn0 : ¬ e.grid.interp_type0 = 0 := by rw [h]; decide
  simp only [interpolate]
  rw [if_neg hne, if_neg hn0, if_pos h]

/-- C2: on a grid with valid axes (at least two nodes, strictly monotonic), bicubic
interpolation queried at the coordinates of node (i, j) returns the stored value
data(i, j), whichever of the cells touching the node the axis lookup selects, with or
without edge limit. -/
theorem interpolate_pchip_at_node (grid : data_grid) (mem : scratch) (derivative : Bool)
    (hv0 : grid.axis0.valid) (hv1 : grid.axis1.valid)
    (hp : grid.interp_type0 = GRID_INTERP_PCHIP)
    (i j : Nat) (hi : i < grid.axis0.size) (hj : j < grid.axis1.size)
    (hf0 : grid.axis0.finds_node i) (hf1 : grid.axis1.finds_node j) :
    ∃ r, interpolate (construct grid mem) (grid.axis0.elem i, grid.axis1.elem j) derivative
        = .ok r ∧ r.result = grid.data i j := by
  obtain ⟨hx, hk0, hc0⟩ := locate_node hv0 grid.edge_limit0 mem._offset.1 hi hf0
  obtain ⟨hy, hk1, hc1⟩ := locate_node hv1 grid.edge_limit1 mem._offset.2 hj hf1
  have hb := construct_built grid mem
  have hne : ¬ grid.interp_type0 = -1 := by rw [hp]; decide
  have hn0 : ¬ grid.interp_type0 = 0 := by rw [hp]; decide
  have h1 : grid.interp_type0 = 1 := hp
  refine ⟨_, interpolate_pchip_eq _ _ _ h1, ?_⟩
  · simp only []
    generalize hA : locate grid.axis0 grid.edge_limit0 (grid.axis0.elem i) mem._offset.1 = A
      at hx hk0 hc0
    generalize hB : locate grid.axis1 grid.edge_limit1 (grid.axis1.elem j) mem._offset.2 = B
      at hy hk1 hc1
    have hcell : locate_cell (construct grid mem) (grid.axis0.elem i, grid.axis1.elem j)
        = ((A.1, B.1), (A.2, B.2)) := by
      simp [locate_cell, construct, hA, hB]
    rw [hcell]
    obtain ⟨p, hp1, hpi⟩ : ∃ p, p ≤ 1 ∧ A.2 + p = i := by
      rcases hc0 with h | h
      · exact ⟨0, by omega, by omega⟩
      · exact ⟨1, by omega, by omega⟩
    obtain ⟨q, hq1, hqj⟩ : ∃ q, q ≤ 1 ∧ B.2 + q = j := by
      rcases hc1 with h | h
      · exact ⟨0, by omega, by omega⟩
      · exact ⟨1, by omega, by omega⟩
    have key := fast_pchip_corner
      (built_with_mem hb { (construct grid mem).mem with _offset := (A.2, B.2) })
      hv0 hv1 hk0 hk1 p q hp1 hq1 derivative
    simp only [hpi, hqj] at key
    simp only [hx, hy]
    exact key

/-- C2 at a concrete grid: node (1, 2) of the axes [1,2,6] and [3,2,1]. -/
theorem interpolate_pchip_at_node_witness :
    ∃ r, interpolate
          (construct (grid_of axis_up axis_down (fun x y => x * x + 3 * y) 1 true) scratch_zero)
          (axis_up.elem 1, axis_down.elem 2) true = .ok r ∧
      r.result = (grid_of axis_up axis_down (fun x y => x * x + 3 * y) 1 true).data 1 2 :=
  interpolate_pchip_at_node (grid_of axis_up axis_down (fun x y => x * x + 3 * y) 1 true)
    scratch_zero true axis_up_valid axis_down_valid rfl 1 2 (by decide) (by decide)
    (by norm_num [seq_vector.finds_node, grid_of, axis_up, seq_data, List.range_succ,
      List.filter])
    (by norm_num [seq_vector.finds_node, grid_of, axis_down, seq_data, List.range_succ,
      List.filter])

/-! ## Bilinear interpolation of affine data -/

/-- The cell located for a coordinate inside the axis range: the coordinate is unchanged and
the cell index is a cell of the axis. -/
theorem locate_in_range {ax : seq_vector} (h : ax.valid) (el : Bool) (off : Nat) {x : ℚ}
    (hx : ax.in_range x) (hf : ax.find_index x + 1 < ax.size) :
    (locate ax el x off).1 = x ∧ (locate ax el x off).2 + 1 < ax.size := by
  obtain ⟨hsize, hmono, hinc⟩ := h
  have hinc0 : ax.increment 0 = ax.elem 1 - ax.elem 0 := hinc 0 (by omega)
  cases el with
  | false => simpa [locate] using hf
  | true =>
    rcases hmono with ha | hd
    · have hpos : 0 < ax.increment 0 := by
        have := ha 0 (by omega); rw [hinc0]; simpa using this
      have hneg : ¬ ax.increment 0 < 0 := not_lt.mpr hpos.le
      have hfl : ax.elem 0 < ax.elem (ax.size - 1) :=
        seq_vector.ascending_lt ha (by omega) (by omega)
      have hr : ax.elem 0 ≤ x ∧ x ≤ ax.elem (ax.size - 1) := by
        rcases hx with h | h
        · exact h
        · simp only [seq_vector.first, seq_vector.last] at h
          exact absurd (le_trans h.1 h.2) (not_le.mpr hfl)
      simp only [locate, if_true, hneg, if_false, gt_iff_lt, hpos, ge_iff_le,
        seq_vector.first, seq_vector.last]
      by_cases h1 : x ≤ ax.elem 0
      · simp only [h1, if_true]
        exact ⟨le_antisymm h1 hr.1 |>.symm, by omega⟩
      · by_cases h2 : ax.elem (ax.size - 1) ≤ x
        · simp only [h1, h2, if_true, if_false]
          exact ⟨le_antisymm hr.2 h2 |>.symm, by omega⟩
        · simpa [h1, h2] using hf
    · have hneg : ax.increment 0 < 0 := by
        have := hd 0 (by omega); rw [hinc0]; linarith
      have hpos : ¬ 0 < ax.increment 0 := not_lt.mpr hneg.le
      have hfl : ax.elem (ax.size - 1) < ax.elem 0 :=
        seq_vector.descending_lt hd (by omega) (by omega)
      have hr : ax.elem (ax.size - 1) ≤ x ∧ x ≤ ax.elem 0 := by
        rcases hx with h | h
        · simp only [seq_vector.first, seq_vector.last] at h
          exact absurd (le_trans h.1 h.2) (not_le.mpr hfl)
        · exact h
      simp only [locate, if_true, hneg, if_false, gt_iff_lt, hpos, ge_iff_le,
        seq_vector.first, seq_vector.last]
      by_cases h1 : ax.elem 0 ≤ x
      · simp only [h1, if_true]
        exact ⟨le_antisymm h1 hr.2, by omega⟩
      · by_cases h2 : x ≤ ax.elem (ax.size - 1)
        · simp only [h1, h2, if_true, if_false]
          exact ⟨le_antisymm hr.1 h2, by omega⟩
        · simpa [h1, h2] using hf

/-- The bilinear formulas of lines 536-544 on affine corner values. -/
theorem bilinear_affine (a b c x y x1 x2 y1 y2 : ℚ) (hx : x2 - x1 ≠ 0) (hy : y2 - y1 ≠ 0) :
    ( (a + b*x1 + c*y1)*(x2-x)*(y2-y) + (a + b*x2 + c*y1)*(x-x1)*(y2-y)
        + (a + b*x1 + c*y2)*(x2-x)*(y-y1) + (a + b*x2 + c*y2)*(x-x1)*(y-y1) )
        / ((x2-x1)*(y2-y1)) = a + b*x + c*y ∧
    ( (a + b*x2 + c*y1)*(y2-y) - (a + b*x1 + c*y1)*(y2-y) + (a + b*x2 + c*y2)*(y-y1)
        - (a + b*x1 + c*y2)*(y-y1) ) / ((x2-x1)*(y2-y1)) = b ∧
    ( (a + b*x1 + c*y2)*(x2-x) - (a + b*x1 + c*y1)*(x2-x) + (a + b*x2 + c*y2)*(x-x1)
        - (a + b*x2 + c*y1)*(x-x1) ) / ((x2-x1)*(y2-y1)) = c := by
  refine ⟨?_, ?_, ?_⟩ <;> field_simp <;> ring

/-- C3: bilinear mode reproduces affine fields.  If data(i,j) = a + b*axis0(i) + c*axis1(j) at
every node of a grid with valid axes, then a query (x, y) inside the axis ranges, located in
any cell of the grid, returns a + b*x + c*y and reports the derivatives (b, c). -/
theorem interpolate_linear_affine (grid : data_grid) (mem : scratch) (derivative : Bool)
    (a b c : ℚ) (hv0 : grid.axis0.valid) (hv1 : grid.axis1.valid)
    (hl : grid.interp_type0 = GRID_INTERP_LINEAR)
    (hdata : ∀ i j, i < grid.axis0.size → j < grid.axis1.size →
      grid.data i j = a + b * grid.axis0.elem i + c * grid.axis1.elem j)
    (x y : ℚ) (hx : grid.axis0.in_range x) (hy : grid.axis1.in_range y)
    (hf0 : grid.axis0.find_index x + 1 < grid.axis0.size)
    (hf1 : grid.axis1.find_index y + 1 < grid.axis1.size) :
    ∃ r, interpolate (construct grid mem) (x, y) derivative = .ok r ∧
      r.result = a + b * x + c * y ∧
      r.derivative = if derivative then some (b, c) else none := by
  obtain ⟨hx1, hk0⟩ := locate_in_range hv0 grid.edge_limit0 mem._offset.1 hx hf0
  obtain ⟨hy1, hk1⟩ := locate_in_range hv1 grid.edge_limit1 mem._offset.2 hy hf1
  generalize hA : locate grid.axis0 grid.edge_limit0 x mem._offset.1 = A at hx1 hk0
  generalize hB : locate grid.axis1 grid.edge_limit1 y mem._offset.2 = B at hy1 hk1
  have hcell : locate_cell (construct grid mem) (x, y) = ((A.1, B.1), (A.2, B.2)) := by
    simp [locate_cell, construct, hA, hB]
  have hn0 := seq_vector.valid_cell_ne hv0 hk0
  have hn1 := seq_vector.valid_cell_ne hv1 hk1
  have h0 : grid.interp_type0 = 0 := hl
  have hne : ¬ grid.interp_type0 = -1 := by rw [h0]; decide
  obtain ⟨e1, e2, e3⟩ := bilinear_affine a b c x y (grid.axis0.elem A.2)
    (grid.axis0.elem (A.2 + 1)) (grid.axis1.elem B.2) (grid.axis1.elem (B.2 + 1)) hn0 hn1
  simp only [interpolate, hcell]
  rw [if_neg (by simpa [construct] using hne), if_pos (by simpa [construct] using h0)]
  refine ⟨_, rfl, ?_, ?_⟩
  · simp only [construct, hx1, hy1, hdata A.2 B.2 (by omega) (by omega),
      hdata (A.2 + 1) B.2 (by omega) (by omega), hdata A.2 (B.2 + 1) (by omega) (by omega),
      hdata (A.2 + 1) (B.2 + 1) (by omega) (by omega)]
    exact e1
  · simp only [construct, hx1, hy1, hdata A.2 B.2 (by omega) (by omega),
      hdata (A.2 + 1) B.2 (by omega) (by omega), hdata A.2 (B.2 + 1) (by omega) (by omega),
      hdata (A.2 + 1) (B.2 + 1) (by omega) (by omega)]
    rw [e2, e3]

/-- C3 at a concrete grid. -/
theorem interpolate_linear_affine_witness :
    ∃ r, interpolate
          (construct (grid_of axis_up axis_down (fun x y => 5 + 3 * x + (-2) * y) 0 true)
            scratch_zero) (3, 5/2) true = .ok r ∧
      r.result = 5 + 3 * 3 + (-2) * (5/2) ∧
      r.derivative = if true then some (3, -2) else none :=
  interpolate_linear_affine (grid_of axis_up axis_down (fun x y => 5 + 3 * x + (-2) * y) 0 true)
    scratch_zero true 5 3 (-2) axis_up_valid axis_down_valid rfl
    (fun _ _ _ _ => rfl) 3 (5/2)
    (by norm_num [seq_vector.in_range, seq_vector.first, seq_vector.last, grid_of, axis_up,
      seq_data])
    (by norm_num [seq_vector.in_range, seq_vector.first, seq_vector.last, grid_of, axis_down,
      seq_data])
    (by norm_num [grid_of, axis_up, seq_data, List.range_succ, List.filter])
    (by norm_num [grid_of, axis_down, seq_data, List.range_succ, List.filter])

/-! ## Closed form of the evaluator -/

/-- The value returned by `fast_pchip` is the bicubic polynomial of the coefficients
`prod(inv_bicubic_coeff, field)` at the normalized offsets, and the derivative slot holds
its term-by-term derivatives with respect to the normalized offsets. -/
theorem fast_pchip_closed {e : data_grid_bathy} (hb : e.built) (k0 k1 : Nat) (location : ℚ × ℚ)
    (derivative : Bool) :
    (fast_pchip e (k0, k1) location derivative).result =
      bicubic_poly (prod_mv inv_bicubic_coeff_init (field_of e (value_window e k0 k1) k0 k1))
        ((location.1 - e.grid.axis0.elem k0) / (e.grid.axis0.elem (k0 + 1) - e.grid.axis0.elem k0))
        ((location.2 - e.grid.axis1.elem k1) / (e.grid.axis1.elem (k1 + 1) - e.grid.axis1.elem k1))
    ∧ (fast_pchip e (k0, k1) location derivative).derivative =
      if derivative then some
        (bicubic_poly_dt
          (prod_mv inv_bicubic_coeff_init (field_of e (value_window e k0 k1) k0 k1))
          ((location.1 - e.grid.axis0.elem k0)
            / (e.grid.axis0.elem (k0 + 1) - e.grid.axis0.elem k0))
          ((location.2 - e.grid.axis1.elem k1)
            / (e.grid.axis1.elem (k1 + 1) - e.grid.axis1.elem k1)),
         bicubic_poly_du
          (prod_mv inv_bicubic_coeff_init (field_of e (value_window e k0 k1) k0 k1))
          ((location.1 - e.grid.axis0.elem k0)
            / (e.grid.axis0.elem (k0 + 1) - e.grid.axis0.elem k0))
          ((location.2 - e.grid.axis1.elem k1)
            / (e.grid.axis1.elem (k1 + 1) - e.grid.axis1.elem k1)))
      else none := by
  constructor
  · simp only [fast_pchip, prod_vv_xyloc, hb.1, bicubic_poly]
  · cases derivative with
    | false => simp [fast_pchip]
    | true =>
      simp only [fast_pchip, hb.1, if_true, Option.some.injEq, Prod.mk.injEq]
      constructor
      · simp only [pchip_derivative0, bicubic_poly_dt, xyloc_of, Finset.sum_range_succ,
          Finset.sum_range_zero, Finset.sum_Ico_eq_sum_range]
        norm_num
        ring
      · simp only [pchip_derivative1, bicubic_poly_du, xyloc_of, Finset.sum_range_succ,
          Finset.sum_range_zero, Finset.sum_Ico_eq_sum_range]
        norm_num
        ring

/-- In a cell of the grid the field vector built by `fast_pchip` is `cell_field`. -/
theorem field_of_eq_cell_field {e : data_grid_bathy} (hb : e.built) {k0 k1 : Nat}
    (h0 : k0 + 1 < e.grid.axis0.size) (h1 : k1 + 1 < e.grid.axis1.size) :
    field_of e (value_window e k0 k1) k0 k1 = cell_field e.grid k0 k1 := by
  have w00 := value_window_corner hb h0 h1 0 0 (by omega) (by omega)
  have w01 := value_window_corner hb h0 h1 0 1 (by omega) (by omega)
  have w10 := value_window_corner hb h0 h1 1 0 (by omega) (by omega)
  have w11 := value_window_corner hb h0 h1 1 1 (by omega) (by omega)
  obtain ⟨-, hx, hy, hxy, -, -, -⟩ := hb
  funext n
  unfold field_of cell_field
  split <;> simp_all

/-- The bicubic polynomial of the coefficients `prod(inv_bicubic_coeff, F)`, written out in
the entries of the field vector `F`. -/
theorem bicubic_poly_prod (F : Nat → ℚ) (t u : ℚ) :
    bicubic_poly (prod_mv inv_bicubic_coeff_init F) t u =
      (F 0 + F 8 * u + (-3 * F 0 + 3 * F 1 - 2 * F 8 - F 9) * u ^ 2
        + (2 * F 0 - 2 * F 1 + F 8 + F 9) * u ^ 3)
      + (F 4 + F 12 * u + (-3 * F 4 + 3 * F 5 - 2 * F 12 - F 13) * u ^ 2
        + (2 * F 4 - 2 * F 5 + F 12 + F 13) * u ^ 3) * t
      + ((-3 * F 0 + 3 * F 2 - 2 * F 4 - F 6) + (-3 * F 8 + 3 * F 10 - 2 * F 12 - F 14) * u
        + (9 * F 0 - 9 * F 1 - 9 * F 2 + 9 * F 3 + 6 * F 4 - 6 * F 5 + 3 * F 6 - 3 * F 7
            + 6 * F 8 + 3 * F 9 - 6 * F 10 - 3 * F 11 + 4 * F 12 + 2 * F 13 + 2 * F 14 + F 15)
          * u ^ 2
        + (-6 * F 0 + 6 * F 1 + 6 * F 2 - 6 * F 3 - 4 * F 4 + 4 * F 5 - 2 * F 6 + 2 * F 7
            - 3 * F 8 - 3 * F 9 + 3 * F 10 + 3 * F 11 - 2 * F 12 - 2 * F 13 - F 14 - F 15)
          * u ^ 3) * t ^ 2
      + ((2 * F 0 - 2 * F 2 + F 4 + F 6) + (2 * F 8 - 2 * F 10 + F 12 + F 14) * u
        + (-6 * F 0 + 6 * F 1 + 6 * F 2 - 6 * F 3 - 3 * F 4 + 3 * F 5 - 3 * F 6 + 3 * F 7
            - 4 * F 8 - 2 * F 9 + 4 * F 10 + 2 * F 11 - 2 * F 12 - F 13 - 2 * F 14 - F 15)
          * u ^ 2
        + (4 * F 0 - 4 * F 1 - 4 * F 2 + 4 * F 3 + 2 * F 4 - 2 * F 5 + 2 * F 6 - 2 * F 7
            + 2 * F 8 + 2 * F 9 - 2 * F 10 - 2 * F 11 + F 12 + F 13 + F 14 + F 15)
          * u ^ 3) * t ^ 3 := by
  obtain ⟨h0, h1, h2, h3, h4, h5, h6, h7, h8, h9, h10, h11, h12, h13, h14, h15⟩ :=
    prod_inv_rows F
  simp only [bicubic_poly, Finset.sum_range_succ, Finset.sum_range_zero]
  norm_num
  rw [h0, h1, h2, h3, h4, h5, h6, h7, h8, h9, h10, h11, h12, h13, h14, h15]
  ring

/-- The derivative of the bicubic polynomial with respect to `t`, written out in the entries
of the field vector. -/
theorem bicubic_poly_dt_prod (F : Nat → ℚ) (t u : ℚ) :
    bicubic_poly_dt (prod_mv inv_bicubic_coeff_init F) t u =
      (F 4 + F 12 * u + (-3 * F 4 + 3 * F 5 - 2 * F 12 - F 13) * u ^ 2
        + (2 * F 4 - 2 * F 5 + F 12 + F 13) * u ^ 3)
      + 2 * ((-3 * F 0 + 3 * F 2 - 2 * F 4 - F 6) + (-3 * F 8 + 3 * F 10 - 2 * F 12 - F 14) * u
        + (9 * F 0 - 9 * F 1 - 9 * F 2 + 9 * F 3 + 6 * F 4 - 6 * F 5 + 3 * F 6 - 3 * F 7
            + 6 * F 8 + 3 * F 9 - 6 * F 10 - 3 * F 11 + 4 * F 12 + 2 * F 13 + 2 * F 14 + F 15)
          * u ^ 2
        + (-6 * F 0 + 6 * F 1 + 6 * F 2 - 6 * F 3 - 4 * F 4 + 4 * F 5 - 2 * F 6 + 2 * F 7
            - 3 * F 8 - 3 * F 9 + 3 * F 10 + 3 * F 11 - 2 * F 12 - 2 * F 13 - F 14 - F 15)
          * u ^ 3) * t
      + 3 * ((2 * F 0 - 2 * F 2 + F 4 + F 6) + (2 * F 8 - 2 * F 10 + F 12 + F 14) * u
        + (-6 * F 0 + 6 * F 1 + 6 * F 2 - 6 * F 3 - 3 * F 4 + 3 * F 5 - 3 * F 6 + 3 * F 7
            - 4 * F 8 - 2 * F 9 + 4 * F 10 + 2 * F 11 - 2 * F 12 - F 13 - 2 * F 14 - F 15)
          * u ^ 2
        + (4 * F 0 - 4 * F 1 - 4 * F 2 + 4 * F 3 + 2 * F 4 - 2 * F 5 + 2 * F 6 - 2 * F 7
            + 2 * F 8 + 2 * F 9 - 2 * F 10 - 2 * F 11 + F 12 + F 13 + F 14 + F 15)
          * u ^ 3) * t ^ 2 := by
  obtain ⟨h0, h1, h2, h3, h4, h5, h6, h7, h8, h9, h10, h11, h12, h13, h14, h15⟩ :=
    prod_inv_rows F
  simp only [bicubic_poly_dt, Finset.sum_range_succ, Finset.sum_range_zero]
  norm_num
  rw [h4, h5, h6, h7, h8, h9, h10, h11, h12, h13, h14, h15]
  ring

/-- The derivative of the bicubic polynomial with respect to `u`, written out in the entries
of the field vector. -/
theorem bicubic_poly_du_prod (F : Nat → ℚ) (t u : ℚ) :
    bicubic_poly_du (prod_mv inv_bicubic_coeff_init F) t u =
      (F 8 + 2 * (-3 * F 0 + 3 * F 1 - 2 * F 8 - F 9) * u
        + 3 * (2 * F 0 - 2 * F 1 + F 8 + F 9) * u ^ 2)
      + (F 12 + 2 * (-3 * F 4 + 3 * F 5 - 2 * F 12 - F 13) * u
        + 3 * (2 * F 4 - 2 * F 5 + F 12 + F 13) * u ^ 2) * t
      + ((-3 * F 8 + 3 * F 10 - 2 * F 12 - F 14)
        + 2 * (9 * F 0 - 9 * F 1 - 9 * F 2 + 9 * F 3 + 6 * F 4 - 6 * F 5 + 3 * F 6 - 3 * F 7
            + 6 * F 8 + 3 * F 9 - 6 * F 10 - 3 * F 11 + 4 * F 12 + 2 * F 13 + 2 * F 14 + F 15)
          * u
        + 3 * (-6 * F 0 + 6 * F 1 + 6 * F 2 - 6 * F 3 - 4 * F 4 + 4 * F 5 - 2 * F 6 + 2 * F 7
            - 3 * F 8 - 3 * F 9 + 3 * F 10 + 3 * F 11 - 2 * F 12 - 2 * F 13 - F 14 - F 15)
          * u ^ 2) * t ^ 2
      + ((2 * F 8 - 2 * F 10 + F 12 + F 14)
        + 2 * (-6 * F 0 + 6 * F 1 + 6 * F 2 - 6 * F 3 - 3 * F 4 + 3 * F 5 - 3 * F 6 + 3 * F 7
            - 4 * F 8 - 2 * F 9 + 4 * F 10 + 2 * F 11 - 2 * F 12 - F 13 - 2 * F 14 - F 15)
          * u
        + 3 * (4 * F 0 - 4 * F 1 - 4 * F 2 + 4 * F 3 + 2 * F 4 - 2 * F 5 + 2 * F 6 - 2 * F 7
            + 2 * F 8 + 2 * F 9 - 2 * F 10 - 2 * F 11 + F 12 + F 13 + F 14 + F 15)
          * u ^ 2) * t ^ 3 := by
  obtain ⟨h0, h1, h2, h3, h4, h5, h6, h7, h8, h9, h10, h11, h12, h13, h14, h15⟩ :=
    prod_inv_rows F
  simp only [bicubic_poly_du, Finset.sum_range_succ, Finset.sum_range_zero]
  norm_num
  rw [h1, h2, h3, h5, h6, h7, h9, h10, h11, h13, h14, h15]
  ring

/-- A bicubic query, in closed form: when the located cell `(k0, k1)` is a cell of the grid,
the query returns the bicubic polynomial of the cell's field vector at the normalized
offsets of the located coordinates, and the derivative slot holds the derivatives of that
polynomial with respect to the normalized offsets. -/
theorem interpolate_pchip_closed (grid : data_grid) (mem : scratch) (location : ℚ × ℚ)
    (derivative : Bool) (h : grid.interp_type0 = GRID_INTERP_PCHIP)
    (x y : ℚ) (k0 k1 : Nat)
    (hc : locate_cell (construct grid mem) location = ((x, y), (k0, k1)))
    (h0 : k0 + 1 < grid.axis0.size) (h1 : k1 + 1 < grid.axis1.size) :
    ∃ r, interpolate (construct grid mem) location derivative = .ok r ∧
      r.result = bicubic_poly (prod_mv inv_bicubic_coeff_init (cell_field grid k0 k1))
        (cell_offset grid.axis0 k0 x) (cell_offset grid.axis1 k1 y) ∧
      r.derivative = if derivative then some
        (bicubic_poly_dt (prod_mv inv_bicubic_coeff_init (cell_field grid k0 k1))
          (cell_offset grid.axis0 k0 x) (cell_offset grid.axis1 k1 y),
         bicubic_poly_du (prod_mv inv_bicubic_coeff_init (cell_field grid k0 k1))
          (cell_offset grid.axis0 k0 x) (cell_offset grid.axis1 k1 y)) else none := by
  have hb := built_with_mem (construct_built grid mem)
    { (construct grid mem).mem with _offset := (k0, k1) }
  obtain ⟨hres, hder⟩ := fast_pchip_closed hb k0 k1 (x, y) derivative
  have hF : field_of _ (value_window _ k0 k1) k0 k1 = cell_field _ k0 k1 :=
    field_of_eq_cell_field hb h0 h1
  refine ⟨_, interpolate_pchip_eq _ _ _ h, ?_, ?_⟩
  · rw [hc, hres, hF]; rfl
  · rw [hc, hder, hF]; rfl

/-! ## Bicubic interpolation of affine data next to the grid boundary -/

/-- Affine data in a cell next to the boundary, evaluated: on the axes [0,1,2] x [0,1,2] with
data(i,j) = axis0(i) (a = 0, b = 1, c = 0), the bicubic query (1/2, 1/2), which lies in the
cell (0,0), returns 7/16 and not 1/2, and reports the derivatives (9/8, 0) and not (1, 0):
the one-sided differences over inc = 2 at the first node halve the slope there. -/
theorem interpolate_pchip_affine_boundary :
    ∃ r, interpolate (construct (grid_of axis_unit axis_unit (fun x _ => x) 1 true) scratch_zero)
          (1/2, 1/2) true = .ok r ∧ r.result = 7/16 ∧ r.derivative = some (9/8, 0) ∧
      r.result ≠ 0 + 1 * (1/2) + 0 * (1/2) ∧ r.derivative ≠ some (1, 0) := by
  have hcell : locate_cell (construct (grid_of axis_unit axis_unit (fun x _ => x) 1 true)
      scratch_zero) (1/2, 1/2) = ((1/2, 1/2), (0, 0)) := by
    norm_num [locate_cell, locate, construct, grid_of, axis_unit, seq_data,
      seq_vector.first, seq_vector.last, List.range_succ, List.filter]
  obtain ⟨r, hr, hres, hder⟩ := interpolate_pchip_closed
    (grid_of axis_unit axis_unit (fun x _ => x) 1 true) scratch_zero (1/2, 1/2) true rfl
    (1/2) (1/2) 0 0 hcell (by decide) (by decide)
  have h1 : r.result = 7/16 := by
    rw [hres, bicubic_poly_prod]
    norm_num [cell_field, cell_offset, derv_of, inc_of, grid_of, axis_unit, seq_data]
  have h2 : r.derivative = some (9/8, 0) := by
    rw [hder, bicubic_poly_dt_prod, bicubic_poly_du_prod]
    norm_num [cell_field, cell_offset, derv_of, inc_of, grid_of, axis_unit, seq_data]
  refine ⟨r, hr, h1, h2, ?_, ?_⟩
  · rw [h1]; norm_num
  · rw [h2]; norm_num

/-! ## Dispatch on the interpolation type -/

/-- C5: the scalar `interpolate` raises exactly when the selector of axis 0 is none of
NEAREST (-1), LINEAR (0), PCHIP (1); for these three values it returns a result. -/
theorem interpolate_error_iff (e : data_grid_bathy) (location : ℚ × ℚ) (derivative : Bool) :
    ((∃ msg, interpolate e location derivative = .error msg) ↔
      ¬ (e.grid.interp_type0 = GRID_INTERP_NEAREST ∨ e.grid.interp_type0 = GRID_INTERP_LINEAR ∨
          e.grid.interp_type0 = GRID_INTERP_PCHIP)) ∧
    ((∃ r, interpolate e location derivative = .ok r) ↔
      (e.grid.interp_type0 = GRID_INTERP_NEAREST ∨ e.grid.interp_type0 = GRID_INTERP_LINEAR ∨
          e.grid.interp_type0 = GRID_INTERP_PCHIP)) := by
  simp only [GRID_INTERP_NEAREST, GRID_INTERP_LINEAR, GRID_INTERP_PCHIP]
  by_cases h1 : e.grid.interp_type0 = -1
  · simp [interpolate, h1]
  · by_cases h2 : e.grid.interp_type0 = 0
    · simp [interpolate, h2]
    · by_cases h3 : e.grid.interp_type0 = 1
      · simp [interpolate, h3]
      · simp [interpolate, h1, h2, h3]

/-! ## Nearest mode -/

/-- With the selector of axis 0 equal to NEAREST, a query is the cell location followed by
the choice of one index per axis. -/
theorem interpolate_nearest_eq (e : data_grid_bathy) (location : ℚ × ℚ) (derivative : Bool)
    (h : e.grid.interp_type0 = GRID_INTERP_NEAREST) :
    interpolate e location derivative =
      .ok { result :=
              e.grid.data
                (nearest_index e.grid.axis0 (locate_cell e location).1.1
                  (locate_cell e location).2.1)
                (nearest_index e.grid.axis1 (locate_cell e location).1.2
                  (locate_cell e location).2.2)
            location := (locate_cell e location).1
            derivative := if derivative then some (0, 0) else none
            self :=
              { e with
                mem :=
                  { e.mem with
                    _offset := (locate_cell e location).2
                    fast_index :=
                      (nearest_index e.grid.axis0 (locate_cell e location).1.1
                        (locate_cell e location).2.1,
                       nearest_index e.grid.axis1 (locate_cell e location).1.2
                        (locate_cell e location).2.2) } } } := by
  have h1 : e.grid.interp_type0 = -1 := h
  simp only [interpolate]
  rw [if_pos h1]

/-- The index chosen on an axis in nearest mode is the cell index or its successor. -/
theorem nearest_index_cases (ax : seq_vector) (loc : ℚ) (off : Nat) :
    nearest_index ax loc off = off ∨ nearest_index ax loc off = off + 1 := by
  unfold nearest_index
  simp only []
  split_ifs
  · exact Or.inl rfl
  · exact Or.inr rfl

/-- C6: nearest mode never blends.  When the located cell (k0, k1) is a cell of the grid
(k0 <= R-2, k1 <= C-2), the value returned is data(i, j) for a node with i in (k0, k0+1) and
j in (k1, k1+1), hence with i < R and j < C. -/
theorem interpolate_nearest_is_node (e : data_grid_bathy) (location : ℚ × ℚ)
    (derivative : Bool) (h : e.grid.interp_type0 = GRID_INTERP_NEAREST)
    (h0 : (locate_cell e location).2.1 + 2 ≤ e.grid.axis0.size)
    (h1 : (locate_cell e location).2.2 + 2 ≤ e.grid.axis1.size) :
    ∃ r i j, interpolate e location derivative = .ok r ∧ r.result = e.grid.data i j ∧
      (i = (locate_cell e location).2.1 ∨ i = (locate_cell e location).2.1 + 1) ∧
      (j = (locate_cell e location).2.2 ∨ j = (locate_cell e location).2.2 + 1) ∧
      i < e.grid.axis0.size ∧ j < e.grid.axis1.size := by
  refine ⟨_, _, _, interpolate_nearest_eq e location derivative h, rfl, ?_, ?_, ?_, ?_⟩
  · exact nearest_index_cases _ _ _
  · exact nearest_index_cases _ _ _
  · rcases nearest_index_cases e.grid.axis0 (locate_cell e location).1.1
      (locate_cell e location).2.1 with h | h <;> rw [h] <;> omega
  · rcases nearest_index_cases e.grid.axis1 (locate_cell e location).1.2
      (locate_cell e location).2.2 with h | h <;> rw [h] <;> omega

/-- C8: in nearest mode a supplied derivative slot is set to (0, 0), for every engine and
every query location. -/
theorem interpolate_nearest_derivative (e : data_grid_bathy) (location : ℚ × ℚ)
    (h : e.grid.interp_type0 = GRID_INTERP_NEAREST) :
    ∃ r, interpolate e location true = .ok r ∧ r.derivative = some (0, 0) :=
  ⟨_, interpolate_nearest_eq e location true h, rfl⟩

/-- C6 at a concrete grid: nearest mode on the axes [1,2,6] and [3,2,1]. -/
theorem interpolate_nearest_is_node_witness :
    ∃ r i j,
      interpolate
          (construct (grid_of axis_up axis_down (fun x y => x * x + 3 * y) (-1) true)
            scratch_zero) (3, 5/2) true = .ok r ∧
      r.result = (construct (grid_of axis_up axis_down (fun x y => x * x + 3 * y) (-1) true)
            scratch_zero).grid.data i j ∧
      (i = (locate_cell
              (construct (grid_of axis_up axis_down (fun x y => x * x + 3 * y) (-1) true)
                scratch_zero) (3, 5/2)).2.1 ∨
        i = (locate_cell
              (construct (grid_of axis_up axis_down (fun x y => x * x + 3 * y) (-1) true)
                scratch_zero) (3, 5/2)).2.1 + 1) ∧
      (j = (locate_cell
              (construct (grid_of axis_up axis_down (fun x y => x * x + 3 * y) (-1) true)
                scratch_zero) (3, 5/2)).2.2 ∨
        j = (locate_cell
              (construct (grid_of axis_up axis_down (fun x y => x * x + 3 * y) (-1) true)
                scratch_zero) (3, 5/2)).2.2 + 1) ∧
      i < (construct (grid_of axis_up axis_down (fun x y => x * x + 3 * y) (-1) true)
            scratch_zero).grid.axis0.size ∧
      j < (construct (grid_of axis_up axis_down (fun x y => x * x + 3 * y) (-1) true)
            scratch_zero).grid.axis1.size :=
  interpolate_nearest_is_node
    (construct (grid_of axis_up axis_down (fun x y => x * x + 3 * y) (-1) true) scratch_zero)
    (3, 5/2) true rfl
    (by norm_num [locate_cell, locate, construct, grid_of, axis_up, axis_down, seq_data,
      seq_vector.first, seq_vector.last, List.range_succ, List.filter])
    (by norm_num [locate_cell, locate, construct, grid_of, axis_up, axis_down, seq_data,
      seq_vector.first, seq_vector.last, List.range_succ, List.filter])

/-- C8 at a concrete grid. -/
theorem interpolate_nearest_derivative_witness :
    ∃ r, interpolate
          (construct (grid_of axis_up axis_down (fun x y => x * x + 3 * y) (-1) true)
            scratch_zero) (3, 5/2) true = .ok r ∧ r.derivative = some (0, 0) :=
  interpolate_nearest_derivative
    (construct (grid_of axis_up axis_down (fun x y => x * x + 3 * y) (-1) true) scratch_zero)
    (3, 5/2) rfl

/-- C7, evaluated at a failing input: on the descending axis [3,2,1] the query coordinate 6/5
is located in cell 1, between the nodes 2 and 1; node 2 (coordinate 1) is at distance 1/5 and
node 1 (coordinate 2) at distance 4/5, and nearest mode selects node 1, the farther one.  On
the ascending axis [1,2,6] the coordinate 3 is located in cell 1, between the nodes 2 and
6; node 1 (coordinate 2) is at distance 1, node 2 (coordinate 6) at distance 3, and
nearest mode selects node 2, the farther one. -/
theorem nearest_index_not_nearest :
    axis_down.find_index (6/5) = 1 ∧
    nearest_index axis_down (6/5) 1 = 1 ∧
    |6/5 - axis_down.elem 2| < |6/5 - axis_down.elem 1| ∧
    axis_up.find_index 3 = 1 ∧
    nearest_index axis_up 3 1 = 2 ∧
    |3 - axis_up.elem 1| < |3 - axis_up.elem 2| ∧
    (∃ r, interpolate (construct (grid_of axis_down axis_up (fun x y => 10 * x + y) (-1) false)
        scratch_zero) (6/5, 3) false = .ok r ∧ r.self.mem.fast_index = (1, 2) ∧
        r.result = 26) := by
  have hcell : locate_cell (construct (grid_of axis_down axis_up (fun x y => 10 * x + y) (-1)
      false) scratch_zero) (6/5, 3) = ((6/5, 3), (1, 1)) := by
    norm_num [locate_cell, locate, construct, grid_of, axis_up, axis_down, seq_data,
      List.range_succ, List.filter]
  have hd : nearest_index axis_down (6/5) 1 = 1 := by
    norm_num [nearest_index, axis_down, seq_data, abs_eq_max_neg, max_def]
  have hu : nearest_index axis_up 3 1 = 2 := by
    norm_num [nearest_index, axis_up, seq_data, abs_eq_max_neg, max_def]
  refine ⟨?_, hd, ?_, ?_, hu, ?_, _, interpolate_nearest_eq _ _ _ rfl, ?_, ?_⟩
  · norm_num [axis_down, seq_data, List.range_succ, List.filter]
  · norm_num [axis_down, seq_data, abs_eq_max_neg, max_def]
  · norm_num [axis_up, seq_data, List.range_succ, List.filter]
  · norm_num [axis_up, seq_data, abs_eq_max_neg, max_def]
  · simp only [hcell]
    simp only [construct, grid_of, hd, hu]
  · simp only [hcell]
    simp only [construct, grid_of, hd, hu]
    norm_num [axis_up, axis_down, seq_data]

/-! ## Cell location under edge limit -/

/-- On a valid ascending axis `increment(0)` is positive and the first node is below the
last. -/
theorem seq_vector.ascending_facts {ax : seq_vector} (hv : ax.valid) (ha : ax.ascending) :
    0 < ax.increment 0 ∧ ax.first < ax.last := by
  obtain ⟨hsize, -, hinc⟩ := hv
  refine ⟨?_, ?_⟩
  · rw [hinc 0 (by omega)]
    have := ha 0 (by omega)
    simpa using this
  · exact seq_vector.ascending_lt ha (by omega) (by omega)

/-- On a valid descending axis `increment(0)` is negative and the first node is above the
last. -/
theorem seq_vector.descending_facts {ax : seq_vector} (hv : ax.valid) (hd : ax.descending) :
    ax.increment 0 < 0 ∧ ax.last < ax.first := by
  obtain ⟨hsize, -, hinc⟩ := hv
  refine ⟨?_, ?_⟩
  · rw [hinc 0 (by omega)]
    have := hd 0 (by omega)
    linarith
  · exact seq_vector.descending_lt hd (by omega) (by omega)

/-- One pass of the edge-limit loop on a valid axis. -/
theorem locate_edge_limited {ax : seq_vector} (hv : ax.valid) (x : ℚ) (off : Nat) :
    edge_limited ax x (locate ax true x off).1 (locate ax true x off).2 := by
  refine ⟨fun ha => ?_, fun hd => ?_⟩
  · obtain ⟨hpos, hfl⟩ := seq_vector.ascending_facts hv ha
    have hneg : ¬ ax.increment 0 < 0 := not_lt.mpr hpos.le
    simp only [locate, if_true, hneg, if_false, gt_iff_lt, hpos, ge_iff_le]
    refine ⟨fun h1 => ?_, fun h2 => ?_, fun h1 h2 => ?_⟩
    · simp [h1]
    · have h1 : ¬ x ≤ ax.first := by linarith
      simp [h1, h2]
    · have h1n : ¬ x ≤ ax.first := not_le.mpr h1
      have h2n : ¬ ax.last ≤ x := not_le.mpr h2
      simp [h1n, h2n]
  · obtain ⟨hneg, hfl⟩ := seq_vector.descending_facts hv hd
    have hpos : ¬ 0 < ax.increment 0 := not_lt.mpr hneg.le
    simp only [locate, if_true, hneg, if_false, gt_iff_lt, hpos, ge_iff_le]
    refine ⟨fun h1 => ?_, fun h2 => ?_, fun h1 h2 => ?_⟩
    · simp [h1]
    · have h1 : ¬ ax.first ≤ x := by linarith
      simp [h1, h2]
    · have h1n : ¬ ax.first ≤ x := not_le.mpr h1
      have h2n : ¬ x ≤ ax.last := not_le.mpr h2
      simp [h1n, h2n]

/-- C9: cell location under edge limit.  On each axis with `edge_limit` enabled, a query
coordinate at or beyond the first node is replaced by the first node with cell index 0, one
at or beyond the last node is replaced by the last node with cell index size-2, and one
strictly between them is unchanged with the cell index of the axis lookup; each axis is
treated from its own coordinate alone. -/
theorem locate_cell_edge_limit (e : data_grid_bathy) (location : ℚ × ℚ)
    (hv0 : e.grid.axis0.valid) (hv1 : e.grid.axis1.valid) :
    (e.grid.edge_limit0 = true →
      edge_limited e.grid.axis0 location.1 (locate_cell e location).1.1
        (locate_cell e location).2.1) ∧
    (e.grid.edge_limit1 = true →
      edge_limited e.grid.axis1 location.2 (locate_cell e location).1.2
        (locate_cell e location).2.2) := by
  refine ⟨fun h => ?_, fun h => ?_⟩
  · simp only [locate_cell, h]
    exact locate_edge_limited hv0 _ _
  · simp only [locate_cell, h]
    exact locate_edge_limited hv1 _ _

/-- C9 at a concrete grid: the axes [1,2,6] and [3,2,1], the query (7, 0) beyond the last
node of both. -/
theorem locate_cell_edge_limit_witness :
    edge_limited axis_up 7
        (locate_cell (construct (grid_of axis_up axis_down (fun x y => x + y) 0 true)
          scratch_zero) (7, 0)).1.1
        (locate_cell (construct (grid_of axis_up axis_down (fun x y => x + y) 0 true)
          scratch_zero) (7, 0)).2.1 ∧
    edge_limited axis_down 0
        (locate_cell (construct (grid_of axis_up axis_down (fun x y => x + y) 0 true)
          scratch_zero) (7, 0)).1.2
        (locate_cell (construct (grid_of axis_up axis_down (fun x y => x + y) 0 true)
          scratch_zero) (7, 0)).2.2 :=
  ⟨(locate_cell_edge_limit
      (construct (grid_of axis_up axis_down (fun x y => x + y) 0 true) scratch_zero) (7, 0)
      axis_up_valid axis_down_valid).1 rfl,
   (locate_cell_edge_limit
      (construct (grid_of axis_up axis_down (fun x y => x + y) 0 true) scratch_zero) (7, 0)
      axis_up_valid axis_down_valid).2 rfl⟩

/-! ## Queries beyond the last node -/

/-- C10, evaluated at a failing input: on the descending axes [3,2,1] x [3,2,1] with edge
limit on both axes and data(i,j) = 10*axis0(i) + axis1(j), the nearest-mode query (0, 0),
beyond the last node of both axes, is clamped to (1, 1) in cell (1, 1) = (R-2, C-2) but
returns data(1,1) = 22 and not the last node's value data(2,2) = 11. -/
theorem interpolate_nearest_beyond_last :
    ∃ r, interpolate (construct (grid_of axis_down axis_down (fun x y => 10 * x + y) (-1) true)
          scratch_zero) (0, 0) false = .ok r ∧
      r.location = (1, 1) ∧ r.self.mem._offset = (1, 1) ∧ r.self.mem.fast_index = (1, 1) ∧
      r.result = 22 ∧
      (grid_of axis_down axis_down (fun x y => 10 * x + y) (-1) true).data 2 2 = 11 := by
  have hcell : locate_cell (construct (grid_of axis_down axis_down (fun x y => 10 * x + y) (-1)
      true) scratch_zero) (0, 0) = ((1, 1), (1, 1)) := by
    norm_num [locate_cell, locate, construct, grid_of, axis_down, seq_data,
      seq_vector.first, seq_vector.last]
  have hd : nearest_index axis_down 1 1 = 1 := by
    norm_num [nearest_index, axis_down, seq_data, abs_eq_max_neg, max_def]
  refine ⟨_, interpolate_nearest_eq _ _ _ rfl, ?_, ?_, ?_, ?_, ?_⟩
  · simp only [hcell]
  · simp only [hcell]
  · simp only [hcell]
    simp only [construct, grid_of, hd]
  · simp only [hcell]
    simp only [construct, grid_of, hd]
    norm_num [axis_down, seq_data]
  · norm_num [grid_of, axis_down, seq_data]

/-- Under edge limit a coordinate at or beyond the last node is located at the last node, in
the last cell. -/
theorem locate_beyond_last {ax : seq_vector} (hv : ax.valid) (x : ℚ) (off : Nat)
    (hx : ax.beyond_last x) : locate ax true x off = (ax.last, ax.size - 2) := by
  obtain ⟨hasc, hdesc⟩ := locate_edge_limited hv x off
  rcases hx with ⟨ha, h⟩ | ⟨hd, h⟩
  · obtain ⟨h1, h2⟩ := (hasc ha).2.1 h
    exact Prod.ext h1 h2
  · obtain ⟨h1, h2⟩ := (hdesc hd).2.1 h
    exact Prod.ext h1 h2

/-- The last node is itself at or beyond the last node. -/
theorem beyond_last_last {ax : seq_vector} {x : ℚ} (hx : ax.beyond_last x) :
    ax.beyond_last ax.last := by
  rcases hx with ⟨ha, -⟩ | ⟨hd, -⟩
  · exact Or.inl ⟨ha, le_refl _⟩
  · exact Or.inr ⟨hd, le_refl _⟩

/-- The part of C10 that holds in every mode: with edge limit on axis 0, a query beyond the
last node of axis 0 gives the same outcome as the query placed on that last node. -/
theorem interpolate_beyond_last_axis0 (e : data_grid_bathy) (hv0 : e.grid.axis0.valid)
    (hel : e.grid.edge_limit0 = true) (x y : ℚ) (derivative : Bool)
    (hx : e.grid.axis0.beyond_last x) :
    interpolate e (x, y) derivative = interpolate e (e.grid.axis0.last, y) derivative := by
  have hc : locate_cell e (x, y) = locate_cell e (e.grid.axis0.last, y) := by
    simp only [locate_cell, hel, locate_beyond_last hv0 x _ hx,
      locate_beyond_last hv0 _ _ (beyond_last_last hx)]
  simp only [interpolate, hc]

/-- The same for axis 1. -/
theorem interpolate_beyond_last_axis1 (e : data_grid_bathy) (hv1 : e.grid.axis1.valid)
    (hel : e.grid.edge_limit1 = true) (x y : ℚ) (derivative : Bool)
    (hy : e.grid.axis1.beyond_last y) :
    interpolate e (x, y) derivative = interpolate e (x, e.grid.axis1.last) derivative := by
  have hc : locate_cell e (x, y) = locate_cell e (x, e.grid.axis1.last) := by
    simp only [locate_cell, hel, locate_beyond_last hv1 y _ hy,
      locate_beyond_last hv1 _ _ (beyond_last_last hy)]
  simp only [interpolate, hc]

/-- The part of C10 that holds for the bilinear and the bicubic mode: with edge limit on both
axes, a query beyond the last node of both axes is located in the cell (R-2, C-2) and returns
the last node's value data(R-1, C-1), on ascending and descending axes of any spacing. -/
theorem interpolate_beyond_last_linear_pchip (grid : data_grid) (mem : scratch)
    (derivative : Bool) (hv0 : grid.axis0.valid) (hv1 : grid.axis1.valid)
    (hel0 : grid.edge_limit0 = true) (hel1 : grid.edge_limit1 = true)
    (hmode : grid.interp_type0 = GRID_INTERP_LINEAR ∨ grid.interp_type0 = GRID_INTERP_PCHIP)
    (x y : ℚ) (hx : grid.axis0.beyond_last x) (hy : grid.axis1.beyond_last y) :
    ∃ r, interpolate (construct grid mem) (x, y) derivative = .ok r ∧
      r.result = grid.data (grid.axis0.size - 1) (grid.axis1.size - 1) ∧
      r.self.mem._offset = (grid.axis0.size - 2, grid.axis1.size - 2) := by
  have hs0 := hv0.1
  have hs1 := hv1.1
  have hk0 : grid.axis0.size - 2 + 1 < grid.axis0.size := by omega
  have hk1 : grid.axis1.size - 2 + 1 < grid.axis1.size := by omega
  have e0 : grid.axis0.size - 2 + 1 = grid.axis0.size - 1 := by omega
  have e1 : grid.axis1.size - 2 + 1 = grid.axis1.size - 1 := by omega
  have hc : locate_cell (construct grid mem) (x, y) =
      ((grid.axis0.last, grid.axis1.last), (grid.axis0.size - 2, grid.axis1.size - 2)) := by
    simp only [locate_cell, construct, hel0, hel1, locate_beyond_last hv0 x _ hx,
      locate_beyond_last hv1 y _ hy]
  rcases hmode with hm | hm
  · have h0 : grid.interp_type0 = 0 := hm
    have hne : ¬ grid.interp_type0 = -1 := by rw [h0]; decide
    have hn0 := seq_vector.valid_cell_ne hv0 hk0
    have hn1 := seq_vector.valid_cell_ne hv1 hk1
    simp only [interpolate, hc]
    rw [if_neg (by simpa [construct] using hne), if_pos (by simpa [construct] using h0)]
    refine ⟨_, rfl, ?_, rfl⟩
    simp only [construct, seq_vector.last, e0, e1] at hn0 hn1 ⊢
    field_simp
    ring
  · have hb := built_with_mem (construct_built grid mem)
      { (construct grid mem).mem with
        _offset := (grid.axis0.size - 2, grid.axis1.size - 2) }
    have key := fast_pchip_corner hb hv0 hv1 hk0 hk1 1 1 (by omega) (by omega) derivative
    refine ⟨_, interpolate_pchip_eq _ _ _ hm, ?_, ?_⟩
    · rw [hc]
      simp only [seq_vector.last, ← e0, ← e1]
      exact key
    · rw [hc]
      rfl

/-! ## Queries without edge limit -/

/-- With edge limit off, one pass of the cell location keeps the coordinate and takes the
cell index from the axis lookup. -/
theorem locate_no_edge_limit (ax : seq_vector) (x : ℚ) (off : Nat) :
    locate ax false x off = (x, ax.find_index x) := by
  simp [locate]

/-- With the selector of axis 0 equal to LINEAR, a query on affine data that is located in a
cell of the grid returns the affine function at the located coordinates. -/
theorem interpolate_linear_affine_cell (grid : data_grid) (mem : scratch) (derivative : Bool)
    (a b c : ℚ) (hv0 : grid.axis0.valid) (hv1 : grid.axis1.valid)
    (hl : grid.interp_type0 = GRID_INTERP_LINEAR)
    (hdata : ∀ i j, i < grid.axis0.size → j < grid.axis1.size →
      grid.data i j = a + b * grid.axis0.elem i + c * grid.axis1.elem j)
    (location : ℚ × ℚ) (x y : ℚ) (k0 k1 : Nat)
    (hcell : locate_cell (construct grid mem) location = ((x, y), (k0, k1)))
    (hk0 : k0 + 1 < grid.axis0.size) (hk1 : k1 + 1 < grid.axis1.size) :
    ∃ r, interpolate (construct grid mem) location derivative = .ok r ∧
      r.location = (x, y) ∧ r.result = a + b * x + c * y ∧
      r.derivative = if derivative then some (b, c) else none := by
  have hn0 := seq_vector.valid_cell_ne hv0 hk0
  have hn1 := seq_vector.valid_cell_ne hv1 hk1
  have h0 : grid.interp_type0 = 0 := hl
  have hne : ¬ grid.interp_type0 = -1 := by rw [h0]; decide
  obtain ⟨e1, e2, e3⟩ := bilinear_affine a b c x y (grid.axis0.elem k0)
    (grid.axis0.elem (k0 + 1)) (grid.axis1.elem k1) (grid.axis1.elem (k1 + 1)) hn0 hn1
  simp only [interpolate, hcell]
  rw [if_neg (by simpa [construct] using hne), if_pos (by simpa [construct] using h0)]
  refine ⟨_, rfl, rfl, ?_, ?_⟩
  · simp only [construct, hdata k0 k1 (by omega) (by omega),
      hdata (k0 + 1) k1 (by omega) (by omega), hdata k0 (k1 + 1) (by omega) (by omega),
      hdata (k0 + 1) (k1 + 1) (by omega) (by omega)]
    exact e1
  · simp only [construct, hdata k0 k1 (by omega) (by omega),
      hdata (k0 + 1) k1 (by omega) (by omega), hdata k0 (k1 + 1) (by omega) (by omega),
      hdata (k0 + 1) (k1 + 1) (by omega) (by omega)]
    rw [e2, e3]

/-- A query that returns hands back the coordinates and the cell that the cell location
left, in every mode. -/
theorem interpolate_located (e : data_grid_bathy) (location : ℚ × ℚ) (derivative : Bool)
    (r : query_result) (h : interpolate e location derivative = .ok r) :
    r.location = (locate_cell e location).1 ∧
    r.self.mem._offset = (locate_cell e location).2 := by
  simp only [interpolate] at h
  by_cases t1 : e.grid.interp_type0 = -1
  · rw [if_pos t1] at h; cases h; exact ⟨rfl, rfl⟩
  · rw [if_neg t1] at h
    by_cases t2 : e.grid.interp_type0 = 0
    · rw [if_pos t2] at h; cases h; exact ⟨rfl, rfl⟩
    · rw [if_neg t2] at h
      by_cases t3 : e.grid.interp_type0 = 1
      · rw [if_pos t3] at h; cases h; exact ⟨rfl, rfl⟩
      · rw [if_neg t3] at h; cases h

/-- C11: with edge limit disabled on an axis the query coordinate on that axis is not
modified and the cell index is the answer of the axis lookup, for every grid, every
interpolation type, every data and every coordinate, in range or not: this holds for the
cell location and for the `location` array and the member `_offset` after every query that
returns, so the evaluation that follows uses the same cell formula as for an in-range query.
In particular, with edge limit disabled on both axes, bilinear mode on affine data
a + b*x + c*y (valid axes, the lookup placing the query in a cell of the grid) returns
a + b*x + c*y with derivatives (b, c), inside or outside the axis ranges. -/
theorem interpolate_linear_extrapolates (grid : data_grid) (mem : scratch) (x y : ℚ) :
    (grid.edge_limit0 = false →
      (locate_cell (construct grid mem) (x, y)).1.1 = x ∧
      (locate_cell (construct grid mem) (x, y)).2.1 = grid.axis0.find_index x) ∧
    (grid.edge_limit1 = false →
      (locate_cell (construct grid mem) (x, y)).1.2 = y ∧
      (locate_cell (construct grid mem) (x, y)).2.2 = grid.axis1.find_index y) ∧
    (∀ (derivative : Bool) (r : query_result),
      interpolate (construct grid mem) (x, y) derivative = .ok r →
      (grid.edge_limit0 = false →
        r.location.1 = x ∧ r.self.mem._offset.1 = grid.axis0.find_index x) ∧
      (grid.edge_limit1 = false →
        r.location.2 = y ∧ r.self.mem._offset.2 = grid.axis1.find_index y)) ∧
    (∀ (derivative : Bool) (a b c : ℚ), grid.axis0.valid → grid.axis1.valid →
      grid.interp_type0 = GRID_INTERP_LINEAR →
      (∀ i j, i < grid.axis0.size → j < grid.axis1.size →
        grid.data i j = a + b * grid.axis0.elem i + c * grid.axis1.elem j) →
      grid.axis0.find_index x + 1 < grid.axis0.size →
      grid.axis1.find_index y + 1 < grid.axis1.size →
      grid.edge_limit0 = false → grid.edge_limit1 = false →
      ∃ r, interpolate (construct grid mem) (x, y) derivative = .ok r ∧
        r.location = (x, y) ∧ r.result = a + b * x + c * y ∧
        r.derivative = if derivative then some (b, c) else none) := by
  have l0 : grid.edge_limit0 = false →
      (locate_cell (construct grid mem) (x, y)).1.1 = x ∧
      (locate_cell (construct grid mem) (x, y)).2.1 = grid.axis0.find_index x := by
    intro h
    simp [locate_cell, construct, h, locate_no_edge_limit]
  have l1 : grid.edge_limit1 = false →
      (locate_cell (construct grid mem) (x, y)).1.2 = y ∧
      (locate_cell (construct grid mem) (x, y)).2.2 = grid.axis1.find_index y := by
    intro h
    simp [locate_cell, construct, h, locate_no_edge_limit]
  refine ⟨l0, l1, fun derivative r hr => ?_, ?_⟩
  · obtain ⟨p, q⟩ := interpolate_located _ _ _ r hr
    rw [p, q]
    exact ⟨l0, l1⟩
  · intro derivative a b c hv0 hv1 hl hdata hf0 hf1 h0 h1
    have hcell : locate_cell (construct grid mem) (x, y)
        = ((x, y), (grid.axis0.find_index x, grid.axis1.find_index y)) := by
      simp [locate_cell, construct, h0, h1, locate_no_edge_limit]
    exact interpolate_linear_affine_cell grid mem derivative a b c hv0 hv1 hl hdata (x, y)
      x y _ _ hcell hf0 hf1

/-- C11 at concrete grids on the axes [1,2,6] and [3,2,1] without edge limit, the query
(10, -4) outside both axis ranges: the bicubic query on data x*x + 3*y keeps the coordinate
of axis 0 and takes the cell of the lookup, and the bilinear query on the affine data
5 + 3*x - 2*y returns 5 + 3*10 - 2*(-4) with derivatives (3, -2). -/
theorem interpolate_linear_extrapolates_witness :
    (∃ r, interpolate
          (construct (grid_of axis_up axis_down (fun x y => x * x + 3 * y) 1 false)
            scratch_zero) (10, -4) true = .ok r ∧
        r.location.1 = 10 ∧ r.self.mem._offset.1 = axis_up.find_index 10) ∧
    (∃ r, interpolate
          (construct (grid_of axis_up axis_down (fun x y => 5 + 3 * x + (-2) * y) 0 false)
            scratch_zero) (10, -4) true = .ok r ∧
        r.location = (10, -4) ∧ r.result = 5 + 3 * 10 + (-2) * (-4) ∧
        r.derivative = if true then some (3, -2) else none) :=
  ⟨⟨_, interpolate_pchip_eq _ _ _ rfl,
    ((interpolate_linear_extrapolates
      (grid_of axis_up axis_down (fun x y => x * x + 3 * y) 1 false)
      scratch_zero 10 (-4)).2.2.1 true _ (interpolate_pchip_eq _ _ _ rfl)).1 rfl⟩,
   (interpolate_linear_extrapolates
      (grid_of axis_up axis_down (fun x y => 5 + 3 * x + (-2) * y) 0 false)
      scratch_zero 10 (-4)).2.2.2 true 5 3 (-2) axis_up_valid axis_down_valid rfl
      (fun _ _ _ _ => rfl)
      (by norm_num [grid_of, axis_up, seq_data, List.range_succ, List.filter])
      (by norm_num [grid_of, axis_down, seq_data, List.range_succ, List.filter]) rfl rfl⟩

/-! ## Scale of the bicubic derivative -/

/-- C12, evaluated at a failing input: on the axes [0,2,4,6] x [0,2,4,6] (spacing 2) with
data(i,j) = axis0(i), the bicubic query (3, 3) lies in the cell (1, 1), all of whose corners
are interior nodes.  The derivative slot holds the term-by-term derivatives of the monomial
series, (2, 0), not divided by the axis spacing 2; the quotient by the spacing is 1, the
slope of the data. -/
theorem interpolate_pchip_derivative_scale :
    ∃ r, interpolate (construct (grid_of axis_even axis_even (fun x _ => x) 1 true) scratch_zero)
          (3, 3) true = .ok r ∧ r.self.mem._offset = (1, 1) ∧ r.result = 3 ∧
      r.derivative = some (2, 0) ∧
      r.derivative = some (pchip_derivative0 r.self.mem.bicubic_coeff r.self.mem.xyloc,
        pchip_derivative1 r.self.mem.bicubic_coeff r.self.mem.xyloc) ∧
      pchip_derivative0 r.self.mem.bicubic_coeff r.self.mem.xyloc
        / (axis_even.elem 2 - axis_even.elem 1) = 1 := by
  have hcell : locate_cell (construct (grid_of axis_even axis_even (fun x _ => x) 1 true)
      scratch_zero) (3, 3) = ((3, 3), (1, 1)) := by
    norm_num [locate_cell, locate, construct, grid_of, axis_even, seq_data,
      seq_vector.first, seq_vector.last, List.range_succ, List.filter]
  obtain ⟨r, hr, hres, hder⟩ := interpolate_pchip_closed
    (grid_of axis_even axis_even (fun x _ => x) 1 true) scratch_zero (3, 3) true rfl
    3 3 1 1 hcell (by decide) (by decide)
  have h1 : r.result = 3 := by
    rw [hres, bicubic_poly_prod]
    norm_num [cell_field, cell_offset, derv_of, inc_of, grid_of, axis_even, seq_data]
  have h2 : r.derivative = some (2, 0) := by
    rw [hder, bicubic_poly_dt_prod, bicubic_poly_du_prod]
    norm_num [cell_field, cell_offset, derv_of, inc_of, grid_of, axis_even, seq_data]
  have hr2 := hr
  rw [interpolate_pchip_eq _ _ _ rfl, hcell] at hr2
  have hrr := (Except.ok.inj hr2).symm
  have h3 : r.derivative = some (pchip_derivative0 r.self.mem.bicubic_coeff r.self.mem.xyloc,
        pchip_derivative1 r.self.mem.bicubic_coeff r.self.mem.xyloc) := by
    rw [hrr]; rfl
  have h4 : pchip_derivative0 r.self.mem.bicubic_coeff r.self.mem.xyloc = 2 := by
    have := h3.symm.trans h2
    simp only [Option.some.injEq, Prod.mk.injEq] at this
    exact this.1
  refine ⟨r, hr, ?_, h1, h2, h3, ?_⟩
  · rw [hrr]; rfl
  · rw [h4]; norm_num [axis_even, seq_data]

/-! ## The normalization increment -/

/-- C14: the normalization increment of the constructor is 2 at the first and at the last
node, and (increment(k-1) + increment(k+1)) / increment(k) at every node in between; on a
uniformly spaced axis it is 2 at every node. -/
theorem inc_of_formula (ax : seq_vector) :
    inc_of ax (ax.size - 1) 0 = 2 ∧ inc_of ax (ax.size - 1) (ax.size - 1) = 2 ∧
    (∀ k, 0 < k → k < ax.size - 1 → inc_of ax (ax.size - 1) k
        = (ax.increment (k - 1) + ax.increment (k + 1)) / ax.increment k) ∧
    (∀ h, ax.uniform h → ∀ k, k < ax.size → inc_of ax (ax.size - 1) k = 2) := by
  refine ⟨by simp [inc_of], by simp [inc_of], fun k h0 h1 => ?_, fun h hu k hk => ?_⟩
  · have h2 : ¬ (k = 0 ∨ k = ax.size - 1) := by omega
    simp [inc_of, h2]
  · obtain ⟨hne, hu⟩ := hu
    by_cases hedge : k = 0 ∨ k = ax.size - 1
    · simp [inc_of, hedge]
    · simp only [inc_of, hedge, if_false]
      rw [hu (k - 1) (by omega), hu (k + 1) (by omega), hu k hk]
      field_simp
      ring

/-! ## The derivative fields as clamped differences -/

/-- In each of the nine regions the three fields of the constructor are differences over the
neighbours `min(i+1, R-1)`, `max(i-1, 0)`, `min(j+1, C-1)`, `max(j-1, 0)`, divided by the
normalization increments. -/
theorem derv_of_clamped (grid : data_grid) (hR : 2 ≤ grid.axis0.size)
    (hC : 2 ≤ grid.axis1.size) (i j : Nat) (hi : i < grid.axis0.size)
    (hj : j < grid.axis1.size) :
    derv_of grid i j =
      ( (grid.data (min (i + 1) (grid.axis0.size - 1)) j - grid.data (i - 1) j)
          / inc_of grid.axis0 (grid.axis0.size - 1) i,
        (grid.data i (min (j + 1) (grid.axis1.size - 1)) - grid.data i (j - 1))
          / inc_of grid.axis1 (grid.axis1.size - 1) j,
        (grid.data (min (i + 1) (grid.axis0.size - 1)) (min (j + 1) (grid.axis1.size - 1))
          - grid.data (min (i + 1) (grid.axis0.size - 1)) (j - 1)
          - grid.data (i - 1) (min (j + 1) (grid.axis1.size - 1))
          + grid.data (i - 1) (j - 1))
          / (inc_of grid.axis0 (grid.axis0.size - 1) i
              * inc_of grid.axis1 (grid.axis1.size - 1) j) ) := by
  have hi3 : i = 0 ∨ i = grid.axis0.size - 1 ∨ (1 ≤ i ∧ i < grid.axis0.size - 1) := by omega
  have hj3 : j = 0 ∨ j = grid.axis1.size - 1 ∨ (1 ≤ j ∧ j < grid.axis1.size - 1) := by omega
  rcases hi3 with h0 | h0 | ⟨h0, h0'⟩ <;> rcases hj3 with h1 | h1 | ⟨h1, h1'⟩
  · subst h0; subst h1
    have e0 : min (0 + 1) (grid.axis0.size - 1) = 0 + 1 := by omega
    have e1 : min (0 + 1) (grid.axis1.size - 1) = 0 + 1 := by omega
    simp [derv_of, e0, e1]
  · subst h0
    have e0 : min (0 + 1) (grid.axis0.size - 1) = 0 + 1 := by omega
    have e1 : min (j + 1) (grid.axis1.size - 1) = j := by omega
    have c1 : ¬ j < 1 := by omega
    have c2 : ¬ (0 = grid.axis0.size - 1) := by omega
    simp [derv_of, e0, e1, c1, c2, h1.symm]
  · subst h0
    have e0 : min (0 + 1) (grid.axis0.size - 1) = 0 + 1 := by omega
    have e1 : min (j + 1) (grid.axis1.size - 1) = j + 1 := by omega
    have c1 : ¬ j < 1 := by omega
    have c2 : ¬ (0 = grid.axis0.size - 1) := by omega
    have c3 : ¬ j = grid.axis1.size - 1 := by omega
    simp [derv_of, e0, e1, c1, c2, c3, h1, h1']
  · subst h1
    have e0 : min (i + 1) (grid.axis0.size - 1) = i := by omega
    have e1 : min (0 + 1) (grid.axis1.size - 1) = 0 + 1 := by omega
    have c1 : ¬ i < 1 := by omega
    have c2 : ¬ (0 = grid.axis1.size - 1) := by omega
    simp [derv_of, e0, e1, c1, c2, h0.symm]
  · have e0 : min (i + 1) (grid.axis0.size - 1) = i := by omega
    have e1 : min (j + 1) (grid.axis1.size - 1) = j := by omega
    have c1 : ¬ i < 1 := by omega
    have c2 : ¬ j < 1 := by omega
    simp [derv_of, e0, e1, c1, c2, h0.symm, h1.symm]
  · have e0 : min (i + 1) (grid.axis0.size - 1) = i := by omega
    have e1 : min (j + 1) (grid.axis1.size - 1) = j + 1 := by omega
    have c1 : ¬ i < 1 := by omega
    have c2 : ¬ j < 1 := by omega
    have c3 : ¬ j = grid.axis1.size - 1 := by omega
    simp [derv_of, e0, e1, c1, c2, c3, h0.symm, h1, h1']
  · subst h1
    have e0 : min (i + 1) (grid.axis0.size - 1) = i + 1 := by omega
    have e1 : min (0 + 1) (grid.axis1.size - 1) = 0 + 1 := by omega
    have c1 : ¬ i < 1 := by omega
    have c2 : ¬ (0 = grid.axis1.size - 1) := by omega
    have c3 : ¬ i = grid.axis0.size - 1 := by omega
    simp [derv_of, e0, e1, c1, c2, c3, h0, h0']
  · have e0 : min (i + 1) (grid.axis0.size - 1) = i + 1 := by omega
    have e1 : min (j + 1) (grid.axis1.size - 1) = j := by omega
    have c1 : ¬ i < 1 := by omega
    have c2 : ¬ j < 1 := by omega
    have c3 : ¬ i = grid.axis0.size - 1 := by omega
    simp [derv_of, e0, e1, c1, c2, c3, h1.symm, h0, h0']
  · have e0 : min (i + 1) (grid.axis0.size - 1) = i + 1 := by omega
    have e1 : min (j + 1) (grid.axis1.size - 1) = j + 1 := by omega
    have c1 : ¬ i < 1 := by omega
    have c2 : ¬ j < 1 := by omega
    have c3 : ¬ i = grid.axis0.size - 1 := by omega
    have c4 : ¬ j = grid.axis1.size - 1 := by omega
    simp [derv_of, e0, e1, c1, c2, c3, c4]

theorem prev_index_eq (i : Nat) : prev_index i = i - 1 := by
  unfold prev_index
  omega

/-- C15: on a grid with at least 2 nodes per axis, at every node (i, j) the precomputed
first-derivative fields are clamped-neighbour differences over the normalization increment:
derv_x(i,j) = (data(min(i+1,R-1), j) - data(max(i-1,0), j)) / inc_x(i) and
derv_y(i,j) = (data(i, min(j+1,C-1)) - data(i, max(j-1,0))) / inc_y(j); that is a one-sided
difference (over inc = 2) at the first and last index of the axis of differentiation and a
centered difference in between, whatever the other index. -/
theorem derv_first_clamped (grid : data_grid) (mem : scratch) (hR : 2 ≤ grid.axis0.size)
    (hC : 2 ≤ grid.axis1.size) (i j : Nat) (hi : i < grid.axis0.size)
    (hj : j < grid.axis1.size) :
    (construct grid mem).derv_x i j =
      (grid.data (next_index i grid.axis0.size) j - grid.data (prev_index i) j)
        / inc_of grid.axis0 (grid.axis0.size - 1) i ∧
    (construct grid mem).derv_y i j =
      (grid.data i (next_index j grid.axis1.size) - grid.data i (prev_index j))
        / inc_of grid.axis1 (grid.axis1.size - 1) j ∧
    (i = 0 → (construct grid mem).derv_x i j = (grid.data 1 j - grid.data 0 j) / 2) ∧
    (i = grid.axis0.size - 1 → (construct grid mem).derv_x i j =
      (grid.data (grid.axis0.size - 1) j - grid.data (grid.axis0.size - 2) j) / 2) ∧
    (0 < i → i < grid.axis0.size - 1 → (construct grid mem).derv_x i j =
      (grid.data (i + 1) j - grid.data (i - 1) j)
        / ((grid.axis0.increment (i - 1) + grid.axis0.increment (i + 1))
            / grid.axis0.increment i)) ∧
    (j = 0 → (construct grid mem).derv_y i j = (grid.data i 1 - grid.data i 0) / 2) ∧
    (j = grid.axis1.size - 1 → (construct grid mem).derv_y i j =
      (grid.data i (grid.axis1.size - 1) - grid.data i (grid.axis1.size - 2)) / 2) ∧
    (0 < j → j < grid.axis1.size - 1 → (construct grid mem).derv_y i j =
      (grid.data i (j + 1) - grid.data i (j - 1))
        / ((grid.axis1.increment (j - 1) + grid.axis1.increment (j + 1))
            / grid.axis1.increment j)) := by
  have h := derv_of_clamped grid hR hC i j hi hj
  have hx : (construct grid mem).derv_x i j = (derv_of grid i j).1 := rfl
  have hy : (construct grid mem).derv_y i j = (derv_of grid i j).2.1 := rfl
  rw [hx, hy, h]
  simp only [next_index, prev_index_eq]
  refine ⟨trivial, trivial, fun h0 => ?_, fun h0 => ?_, fun h0 h1 => ?_, fun h0 => ?_, fun h0 => ?_,
    fun h0 h1 => ?_⟩
  · subst h0
    have e0 : min (0 + 1) (grid.axis0.size - 1) = 1 := by omega
    simp [inc_of, e0]
  · have e0 : min (i + 1) (grid.axis0.size - 1) = grid.axis0.size - 1 := by omega
    have e1 : i - 1 = grid.axis0.size - 2 := by omega
    rw [e0, e1]
    simp [inc_of, h0]
  · have e0 : min (i + 1) (grid.axis0.size - 1) = i + 1 := by omega
    have c : ¬ (i = 0 ∨ i = grid.axis0.size - 1) := by omega
    simp [inc_of, e0, c]
  · subst h0
    have e0 : min (0 + 1) (grid.axis1.size - 1) = 1 := by omega
    simp [inc_of, e0]
  · have e0 : min (j + 1) (grid.axis1.size - 1) = grid.axis1.size - 1 := by omega
    have e1 : j - 1 = grid.axis1.size - 2 := by omega
    rw [e0, e1]
    simp [inc_of, h0]
  · have e0 : min (j + 1) (grid.axis1.size - 1) = j + 1 := by omega
    have c : ¬ (j = 0 ∨ j = grid.axis1.size - 1) := by omega
    simp [inc_of, e0, c]

/-- C15 at a concrete grid: node (0, 1) of the axes [1,2,6] and [3,2,1]. -/
theorem derv_first_clamped_witness :
    (construct (grid_of axis_up axis_down (fun x y => x * x + 3 * y) 1 true) scratch_zero).derv_x
        0 1 =
      ((grid_of axis_up axis_down (fun x y => x * x + 3 * y) 1 true).data 1 1
        - (grid_of axis_up axis_down (fun x y => x * x + 3 * y) 1 true).data 0 1) / 2 :=
  (derv_first_clamped (grid_of axis_up axis_down (fun x y => x * x + 3 * y) 1 true)
    scratch_zero (by decide) (by decide) 0 1 (by decide) (by decide)).2.2.1 rfl

/-- C16: on a grid with at least 2 nodes per axis, at every node (i, j) the mixed-derivative
field composes the x-stencil and the y-stencil of the node: with ip = min(i+1,R-1),
im = max(i-1,0), jp = min(j+1,C-1), jm = max(j-1,0),
derv_x_y(i,j) = (data(ip,jp) - data(ip,jm) - data(im,jp) + data(im,jm)) / (inc_x(i)*inc_y(j));
at interior nodes this is the centered cross term over the four diagonal neighbours. -/
theorem derv_mixed_clamped (grid : data_grid) (mem : scratch) (hR : 2 ≤ grid.axis0.size)
    (hC : 2 ≤ grid.axis1.size) (i j : Nat) (hi : i < grid.axis0.size)
    (hj : j < grid.axis1.size) :
    (construct grid mem).derv_x_y i j =
      (grid.data (next_index i grid.axis0.size) (next_index j grid.axis1.size)
        - grid.data (next_index i grid.axis0.size) (prev_index j)
        - grid.data (prev_index i) (next_index j grid.axis1.size)
        + grid.data (prev_index i) (prev_index j))
        / (inc_of grid.axis0 (grid.axis0.size - 1) i
            * inc_of grid.axis1 (grid.axis1.size - 1) j) ∧
    (0 < i → i < grid.axis0.size - 1 → 0 < j → j < grid.axis1.size - 1 →
      (construct grid mem).derv_x_y i j =
        (grid.data (i + 1) (j + 1) - grid.data (i + 1) (j - 1) - grid.data (i - 1) (j + 1)
          + grid.data (i - 1) (j - 1))
          / (inc_of grid.axis0 (grid.axis0.size - 1) i
              * inc_of grid.axis1 (grid.axis1.size - 1) j)) := by
  have h := derv_of_clamped grid hR hC i j hi hj
  have hxy : (construct grid mem).derv_x_y i j = (derv_of grid i j).2.2 := rfl
  rw [hxy, h]
  simp only [next_index, prev_index_eq]
  refine ⟨trivial, fun h0 h1 h2 h3 => ?_⟩
  have e0 : min (i + 1) (grid.axis0.size - 1) = i + 1 := by omega
  have e1 : min (j + 1) (grid.axis1.size - 1) = j + 1 := by omega
  rw [e0, e1]

/-- C16 at a concrete grid: the corner node (2, 0) of the axes [1,2,6] and [3,2,1]. -/
theorem derv_mixed_clamped_witness :
    (construct (grid_of axis_up axis_down (fun x y => x * y) 1 true) scratch_zero).derv_x_y 2 0 =
      ((grid_of axis_up axis_down (fun x y => x * y) 1 true).data
          (next_index 2 (grid_of axis_up axis_down (fun x y => x * y) 1 true).axis0.size)
          (next_index 0 (grid_of axis_up axis_down (fun x y => x * y) 1 true).axis1.size)
        - (grid_of axis_up axis_down (fun x y => x * y) 1 true).data
          (next_index 2 (grid_of axis_up axis_down (fun x y => x * y) 1 true).axis0.size)
          (prev_index 0)
        - (grid_of axis_up axis_down (fun x y => x * y) 1 true).data (prev_index 2)
          (next_index 0 (grid_of axis_up axis_down (fun x y => x * y) 1 true).axis1.size)
        + (grid_of axis_up axis_down (fun x y => x * y) 1 true).data (prev_index 2)
          (prev_index 0))
        / (inc_of (grid_of axis_up axis_down (fun x y => x * y) 1 true).axis0
              ((grid_of axis_up axis_down (fun x y => x * y) 1 true).axis0.size - 1) 2
            * inc_of (grid_of axis_up axis_down (fun x y => x * y) 1 true).axis1
              ((grid_of axis_up axis_down (fun x y => x * y) 1 true).axis1.size - 1) 0) :=
  (derv_mixed_clamped (grid_of axis_up axis_down (fun x y => x * y) 1 true)
    scratch_zero (by decide) (by decide) 2 0 (by decide) (by decide)).1

/-! ## The selector of axis 1 -/

/-- C19: the scalar `interpolate` never reads the interpolation type of axis 1.  Two engines
built from grids that differ only in `interp_type(1)` give, for every query, the same value,
the same `location`, the same derivative slot and the same error. -/
theorem interpolate_ignores_interp_type1 (grid : data_grid) (t : Int) (mem : scratch)
    (location : ℚ × ℚ) (derivative : Bool) :
    (interpolate (construct { grid with interp_type1 := t } mem) location derivative).map
        query_result.view
      = (interpolate (construct grid mem) location derivative).map query_result.view := by
  by_cases h1 : grid.interp_type0 = -1
  · rw [interpolate_nearest_eq _ _ _ h1, interpolate_nearest_eq _ _ _ h1]
    rfl
  · by_cases h2 : grid.interp_type0 = 0
    · have e1 : (construct { grid with interp_type1 := t } mem).grid.interp_type0 = 0 := h2
      have e2 : (construct grid mem).grid.interp_type0 = 0 := h2
      have n1 : ¬ (construct { grid with interp_type1 := t } mem).grid.interp_type0 = -1 := h1
      have n2 : ¬ (construct grid mem).grid.interp_type0 = -1 := h1
      simp only [interpolate, if_neg n1, if_neg n2, if_pos e1, if_pos e2]
      rfl
    · by_cases h3 : grid.interp_type0 = 1
      · rw [interpolate_pchip_eq _ _ _ h3, interpolate_pchip_eq _ _ _ h3]
        rfl
      · have a1 : ¬ (construct { grid with interp_type1 := t } mem).grid.interp_type0 = -1 := h1
        have a2 : ¬ (construct grid mem).grid.interp_type0 = -1 := h1
        have b1 : ¬ (construct { grid with interp_type1 := t } mem).grid.interp_type0 = 0 := h2
        have b2 : ¬ (construct grid mem).grid.interp_type0 = 0 := h2
        have c1 : ¬ (construct { grid with interp_type1 := t } mem).grid.interp_type0 = 1 := h3
        have c2 : ¬ (construct grid mem).grid.interp_type0 = 1 := h3
        simp only [interpolate, if_neg a1, if_neg a2, if_neg b1, if_neg b2, if_neg c1, if_neg c2]

/-! ## The bilinear formulas -/

/-- With the selector of axis 0 equal to LINEAR, a query is the cell location followed by
the bilinear formulas of lines 521-546. -/
theorem interpolate_linear_eq (e : data_grid_bathy) (location : ℚ × ℚ) (derivative : Bool)
    (h : e.grid.interp_type0 = GRID_INTERP_LINEAR) :
    ∃ r, interpolate e location derivative = .ok r ∧
      r.location = (locate_cell e location).1 ∧
      r.self.mem._offset = (locate_cell e location).2 ∧
      r.result =
        ( e.grid.data (locate_cell e location).2.1 (locate_cell e location).2.2
            * (e.grid.axis0.elem ((locate_cell e location).2.1 + 1) - (locate_cell e location).1.1)
            * (e.grid.axis1.elem ((locate_cell e location).2.2 + 1) - (locate_cell e location).1.2)
          + e.grid.data ((locate_cell e location).2.1 + 1) (locate_cell e location).2.2
            * ((locate_cell e location).1.1 - e.grid.axis0.elem (locate_cell e location).2.1)
            * (e.grid.axis1.elem ((locate_cell e location).2.2 + 1) - (locate_cell e location).1.2)
          + e.grid.data (locate_cell e location).2.1 ((locate_cell e location).2.2 + 1)
            * (e.grid.axis0.elem ((locate_cell e location).2.1 + 1) - (locate_cell e location).1.1)
            * ((locate_cell e location).1.2 - e.grid.axis1.elem (locate_cell e location).2.2)
          + e.grid.data ((locate_cell e location).2.1 + 1) ((locate_cell e location).2.2 + 1)
            * ((locate_cell e location).1.1 - e.grid.axis0.elem (locate_cell e location).2.1)
            * ((locate_cell e location).1.2 - e.grid.axis1.elem (locate_cell e location).2.2) )
        / ((e.grid.axis0.elem ((locate_cell e location).2.1 + 1)
              - e.grid.axis0.elem (locate_cell e location).2.1)
            * (e.grid.axis1.elem ((locate_cell e location).2.2 + 1)
              - e.grid.axis1.elem (locate_cell e location).2.2)) ∧
      r.derivative =
        if derivative then some
          ( ( e.grid.data ((locate_cell e location).2.1 + 1) (locate_cell e location).2.2
                * (e.grid.axis1.elem ((locate_cell e location).2.2 + 1)
                  - (locate_cell e location).1.2)
              - e.grid.data (locate_cell e location).2.1 (locate_cell e location).2.2
                * (e.grid.axis1.elem ((locate_cell e location).2.2 + 1)
                  - (locate_cell e location).1.2)
              + e.grid.data ((locate_cell e location).2.1 + 1) ((locate_cell e location).2.2 + 1)
                * ((locate_cell e location).1.2 - e.grid.axis1.elem (locate_cell e location).2.2)
              - e.grid.data (locate_cell e location).2.1 ((locate_cell e location).2.2 + 1)
                * ((locate_cell e location).1.2
                  - e.grid.axis1.elem (locate_cell e location).2.2) )
            / ((e.grid.axis0.elem ((locate_cell e location).2.1 + 1)
                  - e.grid.axis0.elem (locate_cell e location).2.1)
                * (e.grid.axis1.elem ((locate_cell e location).2.2 + 1)
                  - e.grid.axis1.elem (locate_cell e location).2.2)),
            ( e.grid.data (locate_cell e location).2.1 ((locate_cell e location).2.2 + 1)
                * (e.grid.axis0.elem ((locate_cell e location).2.1 + 1)
                  - (locate_cell e location).1.1)
              - e.grid.data (locate_cell e location).2.1 (locate_cell e location).2.2
                * (e.grid.axis0.elem ((locate_cell e location).2.1 + 1)
                  - (locate_cell e location).1.1)
              + e.grid.data ((locate_cell e location).2.1 + 1) ((locate_cell e location).2.2 + 1)
                * ((locate_cell e location).1.1 - e.grid.axis0.elem (locate_cell e location).2.1)
              - e.grid.data ((locate_cell e location).2.1 + 1) (locate_cell e location).2.2
                * ((locate_cell e location).1.1
                  - e.grid.axis0.elem (locate_cell e location).2.1) )
            / ((e.grid.axis0.elem ((locate_cell e location).2.1 + 1)
                  - e.grid.axis0.elem (locate_cell e location).2.1)
                * (e.grid.axis1.elem ((locate_cell e location).2.2 + 1)
                  - e.grid.axis1.elem (locate_cell e location).2.2)) )
        else none := by
  have h0 : e.grid.interp_type0 = 0 := h
  have hne : ¬ e.grid.interp_type0 = -1 := by rw [h0]; decide
  simp only [interpolate]
  rw [if_neg hne, if_pos h0]
  exact ⟨_, rfl, rfl, rfl, rfl, rfl⟩

/-- The field vector of a cell when data(i,j) = f(i): equal values and equal x-slopes along
each row, and no y-slope and no mixed slope. -/
theorem cell_field_columns (grid : data_grid) (f : Nat → ℚ)
    (hdata : ∀ i j, grid.data i j = f i) (hR : 2 ≤ grid.axis0.size)
    (hC : 2 ≤ grid.axis1.size) (k0 k1 : Nat) (h0 : k0 + 1 < grid.axis0.size)
    (h1 : k1 + 1 < grid.axis1.size) :
    cell_field grid k0 k1 0 = f k0 ∧ cell_field grid k0 k1 1 = f k0 ∧
    cell_field grid k0 k1 2 = f (k0 + 1) ∧ cell_field grid k0 k1 3 = f (k0 + 1) ∧
    cell_field grid k0 k1 4 = column_slope grid f k0 ∧
    cell_field grid k0 k1 5 = column_slope grid f k0 ∧
    cell_field grid k0 k1 6 = column_slope grid f (k0 + 1) ∧
    cell_field grid k0 k1 7 = column_slope grid f (k0 + 1) ∧
    cell_field grid k0 k1 8 = 0 ∧ cell_field grid k0 k1 9 = 0 ∧
    cell_field grid k0 k1 10 = 0 ∧ cell_field grid k0 k1 11 = 0 ∧
    cell_field grid k0 k1 12 = 0 ∧ cell_field grid k0 k1 13 = 0 ∧
    cell_field grid k0 k1 14 = 0 ∧ cell_field grid k0 k1 15 = 0 := by
  have a := derv_of_clamped grid hR hC k0 k1 (by omega) (by omega)
  have b := derv_of_clamped grid hR hC k0 (k1 + 1) (by omega) (by omega)
  have c := derv_of_clamped grid hR hC (k0 + 1) k1 (by omega) (by omega)
  have d := derv_of_clamped grid hR hC (k0 + 1) (k1 + 1) (by omega) (by omega)
  simp only [cell_field, a, b, c, d, hdata, column_slope, next_index, prev_index_eq]
  simp

/-- The bicubic polynomial of a cell when data(i,j) = f(i) is the cubic Hermite polynomial in
the normalized offset on axis 0, whatever the offset on axis 1. -/
theorem bicubic_poly_columns (grid : data_grid) (f : Nat → ℚ)
    (hdata : ∀ i j, grid.data i j = f i) (hR : 2 ≤ grid.axis0.size)
    (hC : 2 ≤ grid.axis1.size) (k0 k1 : Nat) (h0 : k0 + 1 < grid.axis0.size)
    (h1 : k1 + 1 < grid.axis1.size) (t u : ℚ) :
    bicubic_poly (prod_mv inv_bicubic_coeff_init (cell_field grid k0 k1)) t u =
      hermite_cubic (f k0) (f (k0 + 1)) (column_slope grid f k0)
        (column_slope grid f (k0 + 1)) t ∧
    bicubic_poly_dt (prod_mv inv_bicubic_coeff_init (cell_field grid k0 k1)) t u =
      hermite_cubic_dt (f k0) (f (k0 + 1)) (column_slope grid f k0)
        (column_slope grid f (k0 + 1)) t ∧
    bicubic_poly_du (prod_mv inv_bicubic_coeff_init (cell_field grid k0 k1)) t u = 0 := by
  obtain ⟨e0, e1, e2, e3, e4, e5, e6, e7, e8, e9, e10, e11, e12, e13, e14, e15⟩ :=
    cell_field_columns grid f hdata hR hC k0 k1 h0 h1
  rw [bicubic_poly_prod, bicubic_poly_dt_prod, bicubic_poly_du_prod]
  simp only [e0, e1, e2, e3, e4, e5, e6, e7, e8, e9, e10, e11, e12, e13, e14, e15,
    hermite_cubic, hermite_cubic_dt]
  refine ⟨?_, ?_, ?_⟩ <;> ring

/-- A bicubic query on data(i,j) = f(i), located in a cell of the grid. -/
theorem interpolate_pchip_columns (grid : data_grid) (mem : scratch) (f : Nat → ℚ)
    (hdata : ∀ i j, grid.data i j = f i) (hR : 2 ≤ grid.axis0.size)
    (hC : 2 ≤ grid.axis1.size) (hp : grid.interp_type0 = GRID_INTERP_PCHIP)
    (location : ℚ × ℚ) (derivative : Bool) (x y : ℚ) (k0 k1 : Nat)
    (hc : locate_cell (construct grid mem) location = ((x, y), (k0, k1)))
    (h0 : k0 + 1 < grid.axis0.size) (h1 : k1 + 1 < grid.axis1.size) :
    ∃ r, interpolate (construct grid mem) location derivative = .ok r ∧
      r.result = hermite_cubic (f k0) (f (k0 + 1)) (column_slope grid f k0)
        (column_slope grid f (k0 + 1)) (cell_offset grid.axis0 k0 x) ∧
      r.derivative = if derivative then some
        (hermite_cubic_dt (f k0) (f (k0 + 1)) (column_slope grid f k0)
          (column_slope grid f (k0 + 1)) (cell_offset grid.axis0 k0 x), 0) else none := by
  obtain ⟨r, hr, hres, hder⟩ :=
    interpolate_pchip_closed grid mem location derivative hp x y k0 k1 hc h0 h1
  obtain ⟨p1, p2, p3⟩ := bicubic_poly_columns grid f hdata hR hC k0 k1 h0 h1
    (cell_offset grid.axis0 k0 x) (cell_offset grid.axis1 k1 y)
  exact ⟨r, hr, by rw [hres, p1], by rw [hder, p2, p3]⟩

/-! ## The accuracy scenario: axes 1, ..., 9 and data x^3 -/

/-- Node `k` of the axis 1, ..., 9 is `k + 1`. -/
theorem axis_nine_elem (k : Nat) (hk : k < 9) : axis_nine.elem k = (k : ℚ) + 1 := by
  interval_cases k <;> norm_num [axis_nine, seq_data]

/-- Every spacing of the axis 1, ..., 9 is 1, the repeated last one included. -/
theorem axis_nine_increment (k : Nat) (hk : k < 9) : axis_nine.increment k = 1 := by
  interval_cases k <;> norm_num [axis_nine, seq_data]

theorem axis_nine_ascending : axis_nine.ascending := by
  intro k hk
  have hk3 : k + 1 < 9 := hk
  rw [axis_nine_elem k (by omega), axis_nine_elem (k + 1) hk3]
  push_cast
  linarith

theorem axis_nine_valid : axis_nine.valid := by
  refine ⟨by decide, Or.inl axis_nine_ascending, ?_⟩
  intro k hk
  have hk3 : k + 1 < 9 := hk
  rw [axis_nine_elem k (by omega), axis_nine_elem (k + 1) hk3, axis_nine_increment k (by omega)]
  push_cast
  ring

/-- The lookup of the axis 1, ..., 9 counts the interior nodes 2, ..., 8 at or below the
coordinate. -/
theorem axis_nine_find_index (x : ℚ) :
    axis_nine.find_index x
      = ((List.range 7).filter (fun k : Nat => decide ((k : ℚ) + 2 ≤ x))).length := by
  have h : ∀ k ∈ List.range 7,
      (if [(1:ℚ), 2, 3, 4, 5, 6, 7, 8, 9].getD 1 0 - [(1:ℚ), 2, 3, 4, 5, 6, 7, 8, 9].getD 0 0 < 0
        then decide (x ≤ [(1:ℚ), 2, 3, 4, 5, 6, 7, 8, 9].getD (k + 1) 0)
        else decide ([(1:ℚ), 2, 3, 4, 5, 6, 7, 8, 9].getD (k + 1) 0 ≤ x))
      = decide ((k : ℚ) + 2 ≤ x) := by
    intro k hk
    have hk7 : k < 7 := List.mem_range.mp hk
    interval_cases k <;> norm_num
  show ((List.range 7).filter _).length = _
  rw [List.filter_congr h]

/-- The cell of the sample coordinate 1 + q/4 on the axis 1, ..., 9. -/
theorem axis_nine_find_sample (q : Nat) (hq : q ≤ 32) :
    axis_nine.find_index (1 + (q : ℚ) / 4) = min (q / 4) 7 := by
  have h : ∀ k : Nat, decide ((k : ℚ) + 2 ≤ 1 + (q : ℚ) / 4) = decide (4 * k + 4 ≤ q) := by
    intro k
    have : ((k : ℚ) + 2 ≤ 1 + (q : ℚ) / 4) ↔ (4 * k + 4 ≤ q) := by
      constructor
      · intro h1
        have h2 : ((4 * k + 4 : Nat) : ℚ) ≤ (q : ℚ) := by push_cast; linarith
        exact_mod_cast h2
      · intro h1
        have h2 : ((4 * k + 4 : Nat) : ℚ) ≤ (q : ℚ) := by exact_mod_cast h1
        push_cast at h2
        linarith
    simp only [this]
  rw [axis_nine_find_index]
  simp only [h]
  interval_cases q <;> rfl

theorem axis_nine_find_first : axis_nine.find_index axis_nine.first = 0 := by
  have h := axis_nine_find_sample 0 (by omega)
  have e : axis_nine.first = 1 + ((0 : Nat) : ℚ) / 4 := by
    rw [seq_vector.first, axis_nine_elem 0 (by omega)]; norm_num
  rw [e, h]
  rfl

theorem axis_nine_find_last : axis_nine.find_index axis_nine.last = axis_nine.size - 2 := by
  have h := axis_nine_find_sample 32 (by omega)
  have e : axis_nine.last = 1 + ((32 : Nat) : ℚ) / 4 := by
    have e8 : axis_nine.size - 1 = 8 := rfl
    rw [seq_vector.last, e8, axis_nine_elem 8 (by omega)]; norm_num
  rw [e, h]
  rfl

/-- On an ascending axis whose lookup answers 0 at the first node and size-2 at the last, a
coordinate inside the range is located unchanged in the cell of the lookup, with or without
edge limit. -/
theorem locate_in_range_eq {ax : seq_vector} (hv : ax.valid) (ha : ax.ascending) (el : Bool)
    (x : ℚ) (off : Nat) (hx : ax.first ≤ x ∧ x ≤ ax.last)
    (hf : ax.find_index ax.first = 0) (hl : ax.find_index ax.last = ax.size - 2) :
    locate ax el x off = (x, ax.find_index x) := by
  cases el with
  | false => exact locate_no_edge_limit ax x off
  | true =>
    obtain ⟨hasc, -⟩ := locate_edge_limited hv x off
    obtain ⟨h1, h2, h3⟩ := hasc ha
    rcases eq_or_lt_of_le hx.1 with e | e
    · obtain ⟨p, q⟩ := h1 (le_of_eq e.symm)
      exact Prod.ext (by rw [p, e]) (by rw [q, ← e, hf])
    · rcases eq_or_lt_of_le hx.2 with e2 | e2
      · obtain ⟨p, q⟩ := h2 (le_of_eq e2.symm)
        exact Prod.ext (by rw [p, e2]) (by rw [q, e2, hl])
      · obtain ⟨p, q⟩ := h3 e e2
        exact Prod.ext p q

/-- The lookup of a list axis answers with a cell of the axis. -/
theorem seq_data_find_index_lt (xs : List ℚ) (h : 2 ≤ xs.length) (x : ℚ) :
    (seq_data xs).find_index x + 1 < (seq_data xs).size := by
  have hle : (seq_data xs).find_index x ≤ xs.length - 2 := by
    simp only [seq_data]
    exact le_trans (List.length_filter_le _ _) (by simp)
  have hs : (seq_data xs).size = xs.length := rfl
  omega

/-- The slope stored in `derv_x` at an interior row of the scenario: the centered difference
((k+2)^3 - k^3) / 2 = 3 (k+1)^2 + 1. -/
theorem cubic_grid_slope_mid (el : Bool) (k : Nat) (h1 : 1 ≤ k) (h7 : k ≤ 7) :
    column_slope (cubic_grid el) (fun i => axis_nine.elem i ^ 3) k = 3 * ((k : ℚ) + 1) ^ 2 + 1 := by
  have e9 : (cubic_grid el).axis0.size = 9 := rfl
  have ea : (cubic_grid el).axis0 = axis_nine := rfl
  have hn : next_index k 9 = k + 1 := by unfold next_index; omega
  have hc : ¬ (k = 0 ∨ k = 9 - 1) := by omega
  have e9a : axis_nine.size = 9 := rfl
  simp only [column_slope, e9, e9a, hn, prev_index_eq, inc_of, hc, if_false, ea]
  rw [axis_nine_elem (k + 1) (by omega), axis_nine_elem (k - 1) (by omega),
    axis_nine_increment (k - 1) (by omega), axis_nine_increment (k + 1) (by omega),
    axis_nine_increment k (by omega)]
  have hk : ((k - 1 : Nat) : ℚ) = (k : ℚ) - 1 := by
    rw [Nat.cast_sub h1]; norm_num
  rw [hk]
  push_cast
  ring

/-- The slopes stored in `derv_x` at the first and the last row of the scenario: the
one-sided differences over 2. -/
theorem cubic_grid_slope_ends (el : Bool) :
    column_slope (cubic_grid el) (fun i => axis_nine.elem i ^ 3) 0 = 7/2 ∧
    column_slope (cubic_grid el) (fun i => axis_nine.elem i ^ 3) 8 = 217/2 := by
  have e9 : (cubic_grid el).axis0.size = 9 := rfl
  have n0 : next_index 0 9 = 1 := by decide
  have n8 : next_index 8 9 = 8 := by decide
  constructor
  · simp only [column_slope, e9, n0, prev_index_eq, inc_of]
    show (axis_nine.elem 1 ^ 3 - axis_nine.elem (0 - 1) ^ 3) / _ = _
    rw [axis_nine_elem 1 (by omega), axis_nine_elem (0 - 1) (by omega)]
    norm_num
  · simp only [column_slope, e9, n8, prev_index_eq, inc_of]
    show (axis_nine.elem 8 ^ 3 - axis_nine.elem (8 - 1) ^ 3) / _ = _
    rw [axis_nine_elem 8 (by omega), axis_nine_elem (8 - 1) (by omega)]
    norm_num

/-- C17: the accuracy scenario in exact arithmetic.  On the axes 1, ..., 9 with
data(i,j) = axis0(i)^3, edge limit on and PCHIP, the query (2.8753, 3.3265) returns a value
within 2% of 2.8753^3, an x-derivative within 2% of 3 * 2.8753^2, and the y-derivative 0. -/
theorem interpolate_pchip_cubic_scenario (mem : scratch) :
    ∃ r dx dy, interpolate (construct (cubic_grid true) mem) (28753/10000, 33265/10000) true
        = .ok r ∧ r.derivative = some (dx, dy) ∧
      |r.result - (28753/10000) ^ 3| ≤ 2/100 * (28753/10000) ^ 3 ∧
      |dx - 3 * (28753/10000) ^ 2| ≤ 2/100 * (3 * (28753/10000) ^ 2) ∧ dy = 0 := by
  have f1 : axis_nine.first = 1 := by rw [seq_vector.first, axis_nine_elem 0 (by omega)]; norm_num
  have f9 : axis_nine.last = 9 := by
    have e8 : axis_nine.size - 1 = 8 := rfl
    rw [seq_vector.last, e8, axis_nine_elem 8 (by omega)]; norm_num
  have hx : locate axis_nine true (28753/10000) mem._offset.1 = (28753/10000, 1) := by
    rw [locate_in_range_eq axis_nine_valid axis_nine_ascending true _ _
      (by rw [f1, f9]; norm_num) axis_nine_find_first axis_nine_find_last, axis_nine_find_index]
    norm_num [List.range_succ, List.filter]
  have hy : locate axis_nine true (33265/10000) mem._offset.2 = (33265/10000, 2) := by
    rw [locate_in_range_eq axis_nine_valid axis_nine_ascending true _ _
      (by rw [f1, f9]; norm_num) axis_nine_find_first axis_nine_find_last, axis_nine_find_index]
    norm_num [List.range_succ, List.filter]
  have hcell : locate_cell (construct (cubic_grid true) mem) (28753/10000, 33265/10000)
      = ((28753/10000, 33265/10000), (1, 2)) := by
    simp only [locate_cell, construct, cubic_grid, grid_of, hx, hy]
  obtain ⟨r, hr, hres, hder⟩ := interpolate_pchip_columns (cubic_grid true) mem
    (fun i => axis_nine.elem i ^ 3) (fun _ _ => rfl) (show 2 ≤ 9 by decide)
    (show 2 ≤ 9 by decide) rfl
    (28753/10000, 33265/10000) true (28753/10000) (33265/10000) 1 2 hcell
    (show 1 + 1 < 9 by decide) (show 2 + 1 < 9 by decide)
  have ea : (cubic_grid true).axis0 = axis_nine := rfl
  rw [cubic_grid_slope_mid true 1 (by omega) (by omega),
    cubic_grid_slope_mid true (1 + 1) (by omega) (by omega)] at hres hder
  simp only [cell_offset, ea] at hres hder
  rw [axis_nine_elem 1 (by omega), axis_nine_elem (1 + 1) (by omega)] at hres hder
  refine ⟨r, _, _, hr, hder, ?_, ?_, rfl⟩
  · rw [hres, abs_le]
    constructor <;> norm_num [hermite_cubic]
  · rw [abs_le]
    constructor <;> norm_num [hermite_cubic_dt]

/-- A bicubic query of the scenario at the sample coordinate 1 + q/4 on axis 0 and any
in-range coordinate on axis 1: the value is the cubic Hermite polynomial of the located
cell. -/
theorem cubic_sample_result (el : Bool) (mem : scratch) (q : Nat) (hq : q ≤ 32) (y : ℚ)
    (hy : axis_nine.in_range y) (derivative : Bool) :
    ∃ r, interpolate (construct (cubic_grid el) mem) (1 + (q : ℚ) / 4, y) derivative = .ok r ∧
      r.result = hermite_cubic (axis_nine.elem (min (q / 4) 7) ^ 3)
        (axis_nine.elem (min (q / 4) 7 + 1) ^ 3)
        (column_slope (cubic_grid el) (fun i => axis_nine.elem i ^ 3) (min (q / 4) 7))
        (column_slope (cubic_grid el) (fun i => axis_nine.elem i ^ 3) (min (q / 4) 7 + 1))
        (cell_offset axis_nine (min (q / 4) 7) (1 + (q : ℚ) / 4)) := by
  have hq' : (q : ℚ) ≤ 32 := by exact_mod_cast hq
  have hq0 : (0 : ℚ) ≤ q := by positivity
  have hxr : axis_nine.first ≤ 1 + (q : ℚ) / 4 ∧ 1 + (q : ℚ) / 4 ≤ axis_nine.last := by
    constructor
    · norm_num [seq_vector.first, axis_nine, seq_data]; positivity
    · norm_num [seq_vector.last, axis_nine, seq_data]; linarith
  have hyr : axis_nine.first ≤ y ∧ y ≤ axis_nine.last := by
    rcases hy with h | h
    · exact h
    · have h1 : axis_nine.first < axis_nine.last :=
        (seq_vector.ascending_facts axis_nine_valid axis_nine_ascending).2
      exact absurd (le_trans h.1 h.2) (not_le.mpr h1)
  have hx := locate_in_range_eq axis_nine_valid axis_nine_ascending el (1 + (q : ℚ) / 4)
    mem._offset.1 hxr axis_nine_find_first axis_nine_find_last
  have hyl := locate_in_range_eq axis_nine_valid axis_nine_ascending el y
    mem._offset.2 hyr axis_nine_find_first axis_nine_find_last
  rw [axis_nine_find_sample q hq] at hx
  have hcell : locate_cell (construct (cubic_grid el) mem) (1 + (q : ℚ) / 4, y)
      = ((1 + (q : ℚ) / 4, y), (min (q / 4) 7, axis_nine.find_index y)) := by
    simp only [locate_cell, construct, cubic_grid, grid_of, hx, hyl]
  have hk1 : axis_nine.find_index y + 1 < axis_nine.size :=
    seq_data_find_index_lt _ (by decide) y
  have hk0 : min (q / 4) 7 + 1 < axis_nine.size := by
    have : axis_nine.size = 9 := rfl
    omega
  obtain ⟨r, hr, hres, -⟩ := interpolate_pchip_columns (cubic_grid el) mem
    (fun i => axis_nine.elem i ^ 3) (fun _ _ => rfl) (show 2 ≤ 9 by decide)
    (show 2 ≤ 9 by decide) rfl
    (1 + (q : ℚ) / 4, y) derivative (1 + (q : ℚ) / 4) y (min (q / 4) 7)
    (axis_nine.find_index y) hcell hk0 hk1
  exact ⟨r, hr, hres⟩

/-- The cubic Hermite polynomial takes the end values at the ends of the unit interval. -/
theorem hermite_cubic_ends (f0 f1 d0 d1 : ℚ) :
    hermite_cubic f0 f1 d0 d1 0 = f0 ∧ hermite_cubic f0 f1 d0 d1 1 = f1 := by
  constructor
  · simp [hermite_cubic]
  · simp only [hermite_cubic]; ring

/-- C18 fails as stated: at x = 1.75, in the cell next to the first node, and at x = 8.5 and
x = 8.75, in the cell next to the last node, the relative error against x^3 is above 2%
(the values returned are 671/128, 10097/16 and 88177/128). -/
theorem interpolate_pchip_cubic_boundary_error :
    (∃ r, interpolate (construct (cubic_grid true) scratch_zero) (7/4, 1) false = .ok r ∧
      r.result = 671/128 ∧ ¬ |r.result - (7/4) ^ 3| ≤ 2/100 * (7/4) ^ 3) ∧
    (∃ r, interpolate (construct (cubic_grid true) scratch_zero) (17/2, 1) false = .ok r ∧
      r.result = 10097/16 ∧ ¬ |r.result - (17/2) ^ 3| ≤ 2/100 * (17/2) ^ 3) ∧
    (∃ r, interpolate (construct (cubic_grid true) scratch_zero) (35/4, 1) false = .ok r ∧
      r.result = 88177/128 ∧ ¬ |r.result - (35/4) ^ 3| ≤ 2/100 * (35/4) ^ 3) := by
  have hy : axis_nine.in_range 1 := by
    left
    have e8 : axis_nine.size - 1 = 8 := rfl
    rw [seq_vector.first, seq_vector.last, e8, axis_nine_elem 0 (by omega),
      axis_nine_elem 8 (by omega)]
    norm_num
  obtain ⟨s0, s8⟩ := cubic_grid_slope_ends true
  have s1 := cubic_grid_slope_mid true 1 (by omega) (by omega)
  have s7 := cubic_grid_slope_mid true 7 (by omega) (by omega)
  have e3 : (1 + ((3 : Nat) : ℚ) / 4) = 7/4 := by norm_num
  have e30 : (1 + ((30 : Nat) : ℚ) / 4) = 17/2 := by norm_num
  have e31 : (1 + ((31 : Nat) : ℚ) / 4) = 35/4 := by norm_num
  have k3 : min (3 / 4) 7 = 0 := by decide
  have k30 : min (30 / 4) 7 = 7 := by decide
  have k31 : min (31 / 4) 7 = 7 := by decide
  have a0 := axis_nine_elem 0 (by omega)
  have a1 := axis_nine_elem 1 (by omega)
  have a7 := axis_nine_elem 7 (by omega)
  have a8 := axis_nine_elem 8 (by omega)
  refine ⟨?_, ?_, ?_⟩
  · obtain ⟨r, hr, hres⟩ := cubic_sample_result true scratch_zero 3 (by omega) 1 hy false
    simp only [k3, e3, Nat.zero_add, cell_offset] at hr hres
    rw [s0, s1, a0, a1] at hres
    have hv : r.result = 671/128 := by
      rw [hres]
      norm_num [hermite_cubic]
    refine ⟨r, hr, hv, ?_⟩
    rw [hv, abs_le]
    norm_num
  · obtain ⟨r, hr, hres⟩ := cubic_sample_result true scratch_zero 30 (by omega) 1 hy false
    simp only [k30, e30, show 7 + 1 = 8 from rfl, cell_offset] at hr hres
    rw [s7, s8, a7, a8] at hres
    have hv : r.result = 10097/16 := by
      rw [hres]
      norm_num [hermite_cubic]
    refine ⟨r, hr, hv, ?_⟩
    rw [hv, abs_le]
    norm_num
  · obtain ⟨r, hr, hres⟩ := cubic_sample_result true scratch_zero 31 (by omega) 1 hy false
    simp only [k31, e31, show 7 + 1 = 8 from rfl, cell_offset] at hr hres
    rw [s7, s8, a7, a8] at hres
    have hv : r.result = 88177/128 := by
      rw [hres]
      norm_num [hermite_cubic]
    refine ⟨r, hr, hv, ?_⟩
    rw [hv, abs_le]
    norm_num

/-- C18, amended: on the axes 1, ..., 9 with data(i,j) = axis0(i)^3, bicubic interpolation at
every sample coordinate x = 1 + q/4, q = 0, ..., 32, other than x = 1.75, x = 8.5 and
x = 8.75 (q = 3, 30, 31), with any in-range y, with or without edge limit, returns a value
within 2% of x^3; the sample points 1.25, 1.5 and 8.25 of the cells adjacent to the first
and last node are included. -/
theorem interpolate_pchip_cubic_samples (el : Bool) (mem : scratch) (q : Nat)
    (hq : q ≤ 32) (hne : q ≠ 3 ∧ q ≠ 30 ∧ q ≠ 31) (y : ℚ) (hy : axis_nine.in_range y) :
    ∃ r, interpolate (construct (cubic_grid el) mem) (1 + (q : ℚ) / 4, y) false = .ok r ∧
      |r.result - (1 + (q : ℚ) / 4) ^ 3| ≤ 2/100 * (1 + (q : ℚ) / 4) ^ 3 := by
  obtain ⟨r, hr, hres⟩ := cubic_sample_result el mem q hq y hy false
  refine ⟨r, hr, ?_⟩
  simp only [cell_offset] at hres
  have hpos : (0 : ℚ) ≤ 2/100 * (1 + (q : ℚ) / 4) ^ 3 := by positivity
  obtain ⟨s0, s8⟩ := cubic_grid_slope_ends el
  have s1 := cubic_grid_slope_mid el 1 (by omega) (by omega)
  have s7 := cubic_grid_slope_mid el 7 (by omega) (by omega)
  have hcase : q = 0 ∨ q = 28 ∨ q = 32 ∨ (4 ≤ q ∧ q ≤ 27) ∨ q = 1 ∨ q = 2 ∨ q = 29 := by
    omega
  rcases hcase with rfl | rfl | rfl | ⟨h4, h27⟩ | rfl | rfl | rfl
  · have k : min (0 / 4) 7 = 0 := by decide
    simp only [k, Nat.zero_add] at hres
    rw [axis_nine_elem 0 (by omega), axis_nine_elem 1 (by omega)] at hres
    have ht : (1 + ((0 : Nat) : ℚ) / 4 - (((0 : Nat) : ℚ) + 1))
        / ((((1 : Nat) : ℚ) + 1) - (((0 : Nat) : ℚ) + 1)) = 0 := by norm_num
    rw [ht, (hermite_cubic_ends _ _ _ _).1] at hres
    rw [hres]
    have e : (((0 : Nat) : ℚ) + 1) ^ 3 - (1 + ((0 : Nat) : ℚ) / 4) ^ 3 = 0 := by norm_num
    rw [e, abs_zero]
    exact hpos
  · have k : min (28 / 4) 7 = 7 := by decide
    simp only [k, show 7 + 1 = 8 from rfl] at hres
    rw [axis_nine_elem 7 (by omega), axis_nine_elem 8 (by omega)] at hres
    have ht : (1 + ((28 : Nat) : ℚ) / 4 - (((7 : Nat) : ℚ) + 1))
        / ((((8 : Nat) : ℚ) + 1) - (((7 : Nat) : ℚ) + 1)) = 0 := by norm_num
    rw [ht, (hermite_cubic_ends _ _ _ _).1] at hres
    rw [hres]
    have e : (((7 : Nat) : ℚ) + 1) ^ 3 - (1 + ((28 : Nat) : ℚ) / 4) ^ 3 = 0 := by norm_num
    rw [e, abs_zero]
    exact hpos
  · have k : min (32 / 4) 7 = 7 := by decide
    simp only [k, show 7 + 1 = 8 from rfl] at hres
    rw [axis_nine_elem 7 (by omega), axis_nine_elem 8 (by omega)] at hres
    have ht : (1 + ((32 : Nat) : ℚ) / 4 - (((7 : Nat) : ℚ) + 1))
        / ((((8 : Nat) : ℚ) + 1) - (((7 : Nat) : ℚ) + 1)) = 1 := by norm_num
    rw [ht, (hermite_cubic_ends _ _ _ _).2] at hres
    rw [hres]
    have e : (((8 : Nat) : ℚ) + 1) ^ 3 - (1 + ((32 : Nat) : ℚ) / 4) ^ 3 = 0 := by norm_num
    rw [e, abs_zero]
    exact hpos
  · have hk1 : 1 ≤ q / 4 := by omega
    have hk6 : q / 4 ≤ 6 := by omega
    have hmin : min (q / 4) 7 = q / 4 := by omega
    have hj : q % 4 < 4 := Nat.mod_lt _ (by omega)
    have hq4 : q = 4 * (q / 4) + q % 4 := (Nat.div_add_mod q 4).symm
    have hqc : (q : ℚ) = 4 * ((q / 4 : Nat) : ℚ) + ((q % 4 : Nat) : ℚ) := by
      exact_mod_cast hq4
    rw [hmin] at hres
    rw [axis_nine_elem (q / 4) (by omega), axis_nine_elem (q / 4 + 1) (by omega),
      cubic_grid_slope_mid el (q / 4) hk1 (by omega),
      cubic_grid_slope_mid el (q / 4 + 1) (by omega) (by omega)] at hres
    simp only [Nat.cast_add, Nat.cast_one] at hres
    generalize hK : ((q / 4 : Nat) : ℚ) = K at hres hqc
    generalize hJ : q % 4 = j at hj hqc
    have hK1 : (1 : ℚ) ≤ K := by rw [← hK]; exact_mod_cast hk1
    have hx : (1 + (q : ℚ) / 4) = K + 1 + (j : ℚ) / 4 := by rw [hqc]; ring
    have herr : r.result - (1 + (q : ℚ) / 4) ^ 3
        = ((j : ℚ) / 4) * (1 - (j : ℚ) / 4) * (1 - 2 * ((j : ℚ) / 4)) := by
      rw [hres, hx]
      simp only [hermite_cubic]
      field_simp
      ring
    have h8 : (8 : ℚ) ≤ (1 + (q : ℚ) / 4) ^ 3 := by
      have h2 : (2 : ℚ) ≤ 1 + (q : ℚ) / 4 := by
        have : (0 : ℚ) ≤ (j : ℚ) := by positivity
        rw [hx]; linarith
      calc (8 : ℚ) = 2 ^ 3 := by norm_num
        _ ≤ (1 + (q : ℚ) / 4) ^ 3 := pow_le_pow_left₀ (by norm_num) h2 3
    rw [herr, abs_le]
    interval_cases j <;> constructor <;> norm_num <;> linarith
  · have k : min (1 / 4) 7 = 0 := by decide
    simp only [k, Nat.zero_add] at hres
    rw [s0, s1, axis_nine_elem 0 (by omega), axis_nine_elem 1 (by omega)] at hres
    rw [hres, abs_le]
    constructor <;> norm_num [hermite_cubic]
  · have k : min (2 / 4) 7 = 0 := by decide
    simp only [k, Nat.zero_add] at hres
    rw [s0, s1, axis_nine_elem 0 (by omega), axis_nine_elem 1 (by omega)] at hres
    rw [hres, abs_le]
    constructor <;> norm_num [hermite_cubic]
  · have k : min (29 / 4) 7 = 7 := by decide
    simp only [k, show 7 + 1 = 8 from rfl] at hres
    rw [s7, s8, axis_nine_elem 7 (by omega), axis_nine_elem 8 (by omega)] at hres
    rw [hres, abs_le]
    constructor <;> norm_num [hermite_cubic]

/-- C18, amended, at a concrete query in the cell adjacent to the last node: x = 8.25
(q = 29), y = 5, edge limit on. -/
theorem interpolate_pchip_cubic_samples_witness :
    ∃ r, interpolate (construct (cubic_grid true) scratch_zero) (1 + ((29 : Nat) : ℚ) / 4, 5)
        false = .ok r ∧
      |r.result - (1 + ((29 : Nat) : ℚ) / 4) ^ 3| ≤ 2/100 * (1 + ((29 : Nat) : ℚ) / 4) ^ 3 :=
  interpolate_pchip_cubic_samples true scratch_zero 29 (by decide)
    ⟨by decide, by decide, by decide⟩ 5
    (by
      left
      have e8 : axis_nine.size - 1 = 8 := rfl
      rw [seq_vector.first, seq_vector.last, e8, axis_nine_elem 0 (by omega),
        axis_nine_elem 8 (by omega)]
      norm_num)

/-! ## Queries and the scratch members -/

/-- On an axis where the edge-limit loop sets `_offset`, the cell location does not depend on
the previous content of `_offset`. -/
theorem locate_off_irrelevant {ax : seq_vector} {el : Bool} (h : ax.locates el) (x : ℚ)
    (off off1 : Nat) : locate ax el x off = locate ax el x off1 := by
  rcases h with h | h
  · subst h; simp [locate]
  · cases el with
    | false => simp [locate]
    | true =>
      rcases lt_or_gt_of_ne h with h1 | h1
      · have h2 : ¬ ax.increment 0 > 0 := not_lt.mpr h1.le
        simp only [locate, if_true, h1, h2, if_false]
      · have h2 : ¬ ax.increment 0 < 0 := not_lt.mpr h1.le
        simp only [locate, if_true, h1, h2, if_false]

/-- A query leaves every member of the engine other than the scratch members as it was. -/
theorem interpolate_self (e : data_grid_bathy) (location : ℚ × ℚ) (derivative : Bool)
    (r : query_result) (h : interpolate e location derivative = .ok r) :
    r.self = { e with mem := r.self.mem } := by
  simp only [interpolate] at h
  by_cases t1 : e.grid.interp_type0 = -1
  · rw [if_pos t1] at h; cases h; rfl
  · rw [if_neg t1] at h
    by_cases t2 : e.grid.interp_type0 = 0
    · rw [if_pos t2] at h; cases h; rfl
    · rw [if_neg t2] at h
      by_cases t3 : e.grid.interp_type0 = 1
      · rw [if_pos t3] at h; cases h; rfl
      · rw [if_neg t3] at h; cases h

/-- With a selector among NEAREST, LINEAR and PCHIP a query returns. -/
theorem interpolate_ok (e : data_grid_bathy) (location : ℚ × ℚ) (derivative : Bool)
    (h : e.grid.interp_type0 = GRID_INTERP_NEAREST ∨ e.grid.interp_type0 = GRID_INTERP_LINEAR ∨
      e.grid.interp_type0 = GRID_INTERP_PCHIP) :
    ∃ r, interpolate e location derivative = .ok r := by
  rcases h with h | h | h
  · exact ⟨_, interpolate_nearest_eq e location derivative h⟩
  · obtain ⟨r, hr, -⟩ := interpolate_linear_eq e location derivative h
    exact ⟨r, hr⟩
  · exact ⟨_, interpolate_pchip_eq e location derivative h⟩

/-- A query with a derivative slot fills the slot. -/
theorem interpolate_derivative_some (e : data_grid_bathy) (location : ℚ × ℚ)
    (r : query_result) (h : interpolate e location true = .ok r) :
    ∃ d, r.derivative = some d := by
  simp only [interpolate] at h
  by_cases t1 : e.grid.interp_type0 = -1
  · rw [if_pos t1] at h; cases h; exact ⟨_, rfl⟩
  · rw [if_neg t1] at h
    by_cases t2 : e.grid.interp_type0 = 0
    · rw [if_pos t2] at h; cases h; exact ⟨_, rfl⟩
    · rw [if_neg t2] at h
      by_cases t3 : e.grid.interp_type0 = 1
      · rw [if_pos t3] at h; cases h; exact ⟨_, rfl⟩
      · rw [if_neg t3] at h; cases h

/-- What a query returns does not depend on the scratch members left by earlier queries, on
axes where the edge-limit loop sets `_offset`. -/
theorem interpolate_view_mem (e : data_grid_bathy) (m : scratch) (location : ℚ × ℚ)
    (derivative : Bool) (h0 : e.grid.axis0.locates e.grid.edge_limit0)
    (h1 : e.grid.axis1.locates e.grid.edge_limit1) :
    (interpolate { e with mem := m } location derivative).map query_result.view
      = (interpolate e location derivative).map query_result.view := by
  have hc : locate_cell { e with mem := m } location = locate_cell e location := by
    simp only [locate_cell]
    rw [locate_off_irrelevant h0 location.1 m._offset.1 e.mem._offset.1,
      locate_off_irrelevant h1 location.2 m._offset.2 e.mem._offset.2]
  by_cases t1 : e.grid.interp_type0 = -1
  · rw [interpolate_nearest_eq { e with mem := m } _ _ t1, interpolate_nearest_eq e _ _ t1, hc]
    rfl
  · by_cases t2 : e.grid.interp_type0 = 0
    · have a1 : ({ e with mem := m } : data_grid_bathy).grid.interp_type0 = 0 := t2
      have b1 : ¬ ({ e with mem := m } : data_grid_bathy).grid.interp_type0 = -1 := t1
      simp only [interpolate, if_neg t1, if_neg b1, if_pos t2, if_pos a1, hc]
      rfl
    · by_cases t3 : e.grid.interp_type0 = 1
      · rw [interpolate_pchip_eq { e with mem := m } _ _ t3, interpolate_pchip_eq e _ _ t3, hc]
        rfl
      · have b1 : ¬ ({ e with mem := m } : data_grid_bathy).grid.interp_type0 = -1 := t1
        have b2 : ¬ ({ e with mem := m } : data_grid_bathy).grid.interp_type0 = 0 := t2
        have b3 : ¬ ({ e with mem := m } : data_grid_bathy).grid.interp_type0 = 1 := t3
        simp only [interpolate, if_neg t1, if_neg t2, if_neg t3, if_neg b1, if_neg b2, if_neg b3]

/-! ## The vectorized interpolate -/

/-- The scalar query of an engine that differs from `e` in the scratch members only returns
what the scalar query of `e` returns. -/
theorem interpolate_same_view (e : data_grid_bathy) (m : scratch) (location : ℚ × ℚ)
    (derivative : Bool) (h0 : e.grid.axis0.locates e.grid.edge_limit0)
    (h1 : e.grid.axis1.locates e.grid.edge_limit1) (r : query_result)
    (hr : interpolate { e with mem := m } location derivative = .ok r) :
    ∃ r0, interpolate e location derivative = .ok r0 ∧ r0.result = r.result ∧
      r0.derivative = r.derivative := by
  have hv := interpolate_view_mem e m location derivative h0 h1
  rw [hr] at hv
  cases hq : interpolate e location derivative with
  | error msg => rw [hq] at hv; cases hv
  | ok r0 =>
    rw [hq] at hv
    have hv2 : r.view = r0.view := Except.ok.inj hv
    simp only [query_result.view, Prod.mk.injEq] at hv2
    exact ⟨r0, rfl, hv2.1.symm, hv2.2.2.symm⟩

/-- One pass of the inner loop body: it returns, keeps the engine equal to `e` up to the
scratch members, keeps the pointers, stores the scalar outcome in entry `(n, m)`, and keeps
the scalar outcomes stored in the other entries. -/
theorem interpolate_body_step (e : data_grid_bathy) (x y : matrix) (slot : Bool)
    (st : matrix_state) (n m : Nat)
    (ht : e.grid.interp_type0 = GRID_INTERP_NEAREST ∨ e.grid.interp_type0 = GRID_INTERP_LINEAR ∨
      e.grid.interp_type0 = GRID_INTERP_PCHIP)
    (h0 : e.grid.axis0.locates e.grid.edge_limit0)
    (h1 : e.grid.axis1.locates e.grid.edge_limit1)
    (hself : ∃ m1, st.self = { e with mem := m1 })
    (hslot : (st.dx.isSome && st.dy.isSome) = slot) :
    ∃ st1, interpolate_body x y st n m = .ok st1 ∧
      (∃ m1, st1.self = { e with mem := m1 }) ∧
      (st1.dx.isSome && st1.dy.isSome) = slot ∧
      (∀ a b, (scalar_entry e x y slot st a b ∨ (a = n ∧ b = m)) →
        scalar_entry e x y slot st1 a b) := by
  obtain ⟨m1, hm1⟩ := hself
  have htype : st.self.grid.interp_type0 = GRID_INTERP_NEAREST ∨
      st.self.grid.interp_type0 = GRID_INTERP_LINEAR ∨
      st.self.grid.interp_type0 = GRID_INTERP_PCHIP := by rw [hm1]; exact ht
  by_cases hboth : ∃ ox oy, st.dx = some ox ∧ st.dy = some oy
  · obtain ⟨ox, oy, hox, hoy⟩ := hboth
    have hs : slot = true := by rw [← hslot, hox, hoy]; rfl
    obtain ⟨r, hr⟩ := interpolate_ok st.self (x.elem n m, y.elem n m) true htype
    obtain ⟨d, hd⟩ := interpolate_derivative_some st.self _ r hr
    have hr' := hr
    rw [hm1] at hr'
    obtain ⟨r0, hr0, hres0, hder0⟩ := interpolate_same_view e m1 _ true h0 h1 r hr'
    have hbody : interpolate_body x y st n m = .ok
        { result := st.result.set n m r.result
          dx := some (ox.set n m d.1)
          dy := some (oy.set n m d.2)
          derivative := d
          self := r.self } := by
      simp only [interpolate_body, hox, hoy, hr, hd, Option.getD_some]
    refine ⟨_, hbody, ⟨r.self.mem, ?_⟩, by rw [hs]; rfl, ?_⟩
    · rw [interpolate_self _ _ _ r hr, hm1]
    · intro a b hab
      by_cases hnm : a = n ∧ b = m
      · obtain ⟨rfl, rfl⟩ := hnm
        refine ⟨r0, by rw [hs]; exact hr0, ?_, fun _ => ⟨_, _, rfl, rfl, ?_⟩⟩
        · simp [matrix.set, assign, hres0]
        · rw [hder0, hd]
          simp [matrix.set, assign]
      · rcases hab with hab | hab
        · obtain ⟨q, hq, hqr, hqd⟩ := hab
          refine ⟨q, hq, ?_, fun hs1 => ?_⟩
          · simpa [matrix.set, assign, hnm] using hqr
          · obtain ⟨px, py, hpx, hpy, hpd⟩ := hqd hs1
            rw [hox] at hpx
            rw [hoy] at hpy
            cases hpx
            cases hpy
            refine ⟨_, _, rfl, rfl, ?_⟩
            simpa [matrix.set, assign, hnm] using hpd
        · exact absurd hab hnm
  · have hs : slot = false := by
      rw [← hslot]
      cases hdx : st.dx with
      | none => rfl
      | some ox =>
        cases hdy : st.dy with
        | none => rfl
        | some oy => exact absurd ⟨ox, oy, hdx, hdy⟩ hboth
    obtain ⟨r, hr⟩ := interpolate_ok st.self (x.elem n m, y.elem n m) false htype
    have hr' := hr
    rw [hm1] at hr'
    obtain ⟨r0, hr0, hres0, -⟩ := interpolate_same_view e m1 _ false h0 h1 r hr'
    have hbody : interpolate_body x y st n m = .ok
        { st with result := st.result.set n m r.result, self := r.self } := by
      cases hdx : st.dx with
      | none => simp only [interpolate_body, hdx, hr]
      | some ox =>
        cases hdy : st.dy with
        | none => simp only [interpolate_body, hdx, hdy, hr]
        | some oy => exact absurd ⟨ox, oy, hdx, hdy⟩ hboth
    refine ⟨_, hbody, ⟨r.self.mem, ?_⟩, hslot, ?_⟩
    · rw [interpolate_self _ _ _ r hr, hm1]
    · intro a b hab
      by_cases hnm : a = n ∧ b = m
      · obtain ⟨rfl, rfl⟩ := hnm
        refine ⟨r0, by rw [hs]; exact hr0, ?_, fun h => ?_⟩
        · simp [matrix.set, assign, hres0]
        · rw [hs] at h; cases h
      · rcases hab with hab | hab
        · obtain ⟨q, hq, hqr, hqd⟩ := hab
          refine ⟨q, hq, ?_, fun h => ?_⟩
          · simpa [matrix.set, assign, hnm] using hqr
          · rw [hs] at h; cases h
        · exact absurd hab hnm

/-- The inner loop over a list of column indices of row `n`. -/
theorem interpolate_row (e : data_grid_bathy) (x y : matrix) (slot : Bool) (n : Nat)
    (ht : e.grid.interp_type0 = GRID_INTERP_NEAREST ∨ e.grid.interp_type0 = GRID_INTERP_LINEAR ∨
      e.grid.interp_type0 = GRID_INTERP_PCHIP)
    (h0 : e.grid.axis0.locates e.grid.edge_limit0)
    (h1 : e.grid.axis1.locates e.grid.edge_limit1) :
    ∀ (ms : List Nat) (st : matrix_state) (S : Nat → Nat → Prop),
      (∃ m1, st.self = { e with mem := m1 }) →
      (st.dx.isSome && st.dy.isSome) = slot →
      (∀ a b, S a b → scalar_entry e x y slot st a b) →
      ∃ st1, ms.foldlM (fun st m => interpolate_body x y st n m) st = .ok st1 ∧
        (∃ m1, st1.self = { e with mem := m1 }) ∧
        (st1.dx.isSome && st1.dy.isSome) = slot ∧
        (∀ a b, (S a b ∨ (a = n ∧ b ∈ ms)) → scalar_entry e x y slot st1 a b) := by
  intro ms
  induction ms with
  | nil =>
    intro st S hself hslot hS
    refine ⟨st, rfl, hself, hslot, fun a b hab => ?_⟩
    rcases hab with h | h
    · exact hS a b h
    · simp at h
  | cons m ms ih =>
    intro st S hself hslot hS
    obtain ⟨st1, hbody, hself1, hslot1, hent1⟩ :=
      interpolate_body_step e x y slot st n m ht h0 h1 hself hslot
    obtain ⟨st2, hfold, hself2, hslot2, hent2⟩ :=
      ih st1 (fun a b => S a b ∨ (a = n ∧ b = m)) hself1 hslot1
        (fun a b hab => hent1 a b (hab.imp_left (hS a b)))
    refine ⟨st2, ?_, hself2, hslot2, fun a b hab => ?_⟩
    · rw [List.foldlM_cons, hbody]
      exact hfold
    · apply hent2
      rcases hab with h | ⟨ha, hb⟩
      · exact Or.inl (Or.inl h)
      · rcases List.mem_cons.mp hb with hb | hb
        · exact Or.inl (Or.inr ⟨ha, hb⟩)
        · exact Or.inr ⟨ha, hb⟩

/-- The outer loop over a list of row indices. -/
theorem interpolate_rows (e : data_grid_bathy) (x y : matrix) (slot : Bool)
    (ht : e.grid.interp_type0 = GRID_INTERP_NEAREST ∨ e.grid.interp_type0 = GRID_INTERP_LINEAR ∨
      e.grid.interp_type0 = GRID_INTERP_PCHIP)
    (h0 : e.grid.axis0.locates e.grid.edge_limit0)
    (h1 : e.grid.axis1.locates e.grid.edge_limit1) :
    ∀ (ns : List Nat) (st : matrix_state) (S : Nat → Nat → Prop),
      (∃ m1, st.self = { e with mem := m1 }) →
      (st.dx.isSome && st.dy.isSome) = slot →
      (∀ a b, S a b → scalar_entry e x y slot st a b) →
      ∃ st1,
        ns.foldlM
          (fun st n => (List.range x.size2).foldlM (fun st m => interpolate_body x y st n m) st)
          st = .ok st1 ∧
        (∃ m1, st1.self = { e with mem := m1 }) ∧
        (st1.dx.isSome && st1.dy.isSome) = slot ∧
        (∀ a b, (S a b ∨ (a ∈ ns ∧ b < x.size2)) → scalar_entry e x y slot st1 a b) := by
  intro ns
  induction ns with
  | nil =>
    intro st S hself hslot hS
    refine ⟨st, rfl, hself, hslot, fun a b hab => ?_⟩
    rcases hab with h | h
    · exact hS a b h
    · simp at h
  | cons n ns ih =>
    intro st S hself hslot hS
    obtain ⟨st1, hrow, hself1, hslot1, hent1⟩ :=
      interpolate_row e x y slot n ht h0 h1 (List.range x.size2) st S hself hslot hS
    obtain ⟨st2, hfold, hself2, hslot2, hent2⟩ :=
      ih st1 (fun a b => S a b ∨ (a = n ∧ b ∈ List.range x.size2)) hself1 hslot1 hent1
    refine ⟨st2, ?_, hself2, hslot2, fun a b hab => ?_⟩
    · rw [List.foldlM_cons, hrow]
      exact hfold
    · apply hent2
      rcases hab with h | ⟨ha, hb⟩
      · exact Or.inl (Or.inl h)
      · rcases List.mem_cons.mp ha with ha | ha
        · exact Or.inl (Or.inr ⟨ha, List.mem_range.mpr hb⟩)
        · exact Or.inr ⟨ha, hb⟩

/-- C13: the vectorized interpolate is the elementwise map of the scalar interpolate.  With a
selector among NEAREST, LINEAR and PCHIP, on axes where the cell location sets `_offset`
(edge limit off, or increment(0) not zero as on every strictly monotonic axis), the call
returns and, for every index (n, m) of `x`, `result(n,m)` is the value of the scalar query at
(x(n,m), y(n,m)) and, when both `dx` and `dy` are supplied, `dx(n,m)` and `dy(n,m)` are the
two derivative components of that scalar query.  The scalar query is the one of the engine
in any scratch state, so the entry depends on no other element of `x` and `y`. -/
theorem interpolate_matrix_elementwise (grid : data_grid) (mem : scratch)
    (x y result : matrix) (dx dy : Option matrix) (derivative : ℚ × ℚ)
    (ht : grid.interp_type0 = GRID_INTERP_NEAREST ∨ grid.interp_type0 = GRID_INTERP_LINEAR ∨
      grid.interp_type0 = GRID_INTERP_PCHIP)
    (h0 : grid.axis0.locates grid.edge_limit0) (h1 : grid.axis1.locates grid.edge_limit1) :
    ∃ out, interpolate_matrix (construct grid mem) x y result dx dy derivative = .ok out ∧
      ∀ n m, n < x.size1 → m < x.size2 → ∀ mem1,
        scalar_entry (construct grid mem1) x y (dx.isSome && dy.isSome) out n m := by
  obtain ⟨out, hout, -, -, hent⟩ :=
    interpolate_rows (construct grid mem) x y (dx.isSome && dy.isSome) ht h0 h1
      (List.range x.size1)
      { result := result, dx := dx, dy := dy, derivative := derivative,
        self := construct grid mem }
      (fun _ _ => False) ⟨(construct grid mem).mem, rfl⟩ rfl (fun _ _ h => h.elim)
  refine ⟨out, hout, fun n m hn hm mem1 => ?_⟩
  obtain ⟨r, hr, hres, hder⟩ := hent n m (Or.inr ⟨List.mem_range.mpr hn, hm⟩)
  obtain ⟨r0, hr0, hres0, hder0⟩ := interpolate_same_view (construct grid mem1)
    (construct grid mem).mem (x.elem n m, y.elem n m) (dx.isSome && dy.isSome) h0 h1 r hr
  refine ⟨r0, hr0, by rw [hres, hres0], fun hs => ?_⟩
  obtain ⟨ox, oy, hox, hoy, hd⟩ := hder hs
  exact ⟨ox, oy, hox, hoy, by rw [hder0, hd]⟩

/-- C13 at a concrete call: bilinear mode on the axes [1,2,6] and [3,2,1], a 1 x 2 array of
locations, both derivative arrays supplied. -/
theorem interpolate_matrix_elementwise_witness :
    ∃ out, interpolate_matrix
          (construct (grid_of axis_up axis_down (fun x y => x * x + 3 * y) 0 true) scratch_zero)
          sample_x sample_y sample_zero (some sample_zero) (some sample_zero) (0, 0) = .ok out ∧
      ∀ n m, n < sample_x.size1 → m < sample_x.size2 → ∀ mem1,
        scalar_entry
          (construct (grid_of axis_up axis_down (fun x y => x * x + 3 * y) 0 true) mem1)
          sample_x sample_y ((some sample_zero).isSome && (some sample_zero).isSome) out n m :=
  interpolate_matrix_elementwise (grid_of axis_up axis_down (fun x y => x * x + 3 * y) 0 true)
    scratch_zero sample_x sample_y sample_zero (some sample_zero) (some sample_zero) (0, 0)
    (Or.inr (Or.inl rfl))
    (Or.inr (by norm_num [grid_of, axis_up, seq_data]))
    (Or.inr (by norm_num [grid_of, axis_down, seq_data]))

/-! ## Reads of the bicubic evaluator -/

/-- The boundary test of `fast_pchip` is the clamp into `0 .. n-1` on an axis with at least
one node. -/
theorem clamp_index_eq (k : Int) (n : Nat) (hn : 1 ≤ n) :
    clamp_index k 0 ((n : Int) - 1) = (max 0 (min k ((n : Int) - 1))).toNat ∧
    clamp_index k 0 ((n : Int) - 1) < n := by
  unfold clamp_index
  split_ifs with h1 h2
  · have e : max 0 (min k ((n : Int) - 1)) = (n : Int) - 1 := by omega
    rw [e]
    exact ⟨rfl, by omega⟩
  · have e : max 0 (min k ((n : Int) - 1)) = 0 := by omega
    rw [e]
    exact ⟨rfl, by simp; omega⟩
  · have e : max 0 (min k ((n : Int) - 1)) = k := by omega
    rw [e]
    exact ⟨rfl, by omega⟩

/-- C21: the bicubic neighbour extraction never reads outside the grid.  On an engine whose
axes have at least one node, for every cell index (k0, k1) the window entry written for the
neighbour offsets (r - 1, c - 1), r, c in 0..3, is the raw value at
(clamp(k0 + r - 1, 0, R-1), clamp(k1 + c - 1, 0, C-1)), a pair inside the grid; and when
k0 <= R-2 and k1 <= C-2 the entries 4..15 of the field vector are `derv_x`, `derv_y` and
`derv_x_y` read at (k0+p, k1+q), p, q in 0..1, pairs inside the R x C arrays. -/
theorem fast_pchip_reads_inside {e : data_grid_bathy} (hb : e.built)
    (hR : 1 ≤ e.grid.axis0.size) (hC : 1 ≤ e.grid.axis1.size) (k0 k1 : Nat)
    (location : ℚ × ℚ) (derivative : Bool) :
    (∀ r c : Nat, r < 4 → c < 4 →
      (fast_pchip e (k0, k1) location derivative).self.mem.value r c =
        e.grid.data
          (max 0 (min ((k0 : Int) + ((r : Int) - 1)) ((e.grid.axis0.size : Int) - 1))).toNat
          (max 0 (min ((k1 : Int) + ((c : Int) - 1)) ((e.grid.axis1.size : Int) - 1))).toNat ∧
      (max 0 (min ((k0 : Int) + ((r : Int) - 1)) ((e.grid.axis0.size : Int) - 1))).toNat
        < e.grid.axis0.size ∧
      (max 0 (min ((k1 : Int) + ((c : Int) - 1)) ((e.grid.axis1.size : Int) - 1))).toNat
        < e.grid.axis1.size) ∧
    (k0 + 2 ≤ e.grid.axis0.size → k1 + 2 ≤ e.grid.axis1.size →
      ∀ p q : Nat, p ≤ 1 → q ≤ 1 →
        (fast_pchip e (k0, k1) location derivative).self.mem.field (4 + 2 * p + q)
          = e.derv_x (k0 + p) (k1 + q) ∧
        (fast_pchip e (k0, k1) location derivative).self.mem.field (8 + 2 * p + q)
          = e.derv_y (k0 + p) (k1 + q) ∧
        (fast_pchip e (k0, k1) location derivative).self.mem.field (12 + 2 * p + q)
          = e.derv_x_y (k0 + p) (k1 + q) ∧
        k0 + p < e.grid.axis0.size ∧ k1 + q < e.grid.axis1.size) := by
  obtain ⟨-, -, -, -, hk, h0, h1⟩ := hb
  constructor
  · intro r c _ _
    have a0 := clamp_index_eq ((k0 : Int) + ((r : Int) - 1)) e.grid.axis0.size hR
    have a1 := clamp_index_eq ((k1 : Int) + ((c : Int) - 1)) e.grid.axis1.size hC
    refine ⟨?_, by rw [← a0.1]; exact a0.2, by rw [← a1.1]; exact a1.2⟩
    show e.grid.data (clamp_index _ e.kmin e.k0max) (clamp_index _ e.kmin e.k1max) = _
    rw [hk, h0, h1, a0.1, a1.1]
  · intro h2 h3 p q hp hq
    have hp2 : p < 2 := by omega
    have hq2 : q < 2 := by omega
    refine ⟨?_, ?_, ?_, by omega, by omega⟩ <;>
      interval_cases p <;> interval_cases q <;> rfl

/-- C21 at a concrete cell: the engine on the axes [1,2,6] and [3,2,1], cell (1, 0); the
window entries, and the read of `derv_x` for the corner (2, 1). -/
theorem fast_pchip_reads_inside_witness :
    (∀ r c : Nat, r < 4 → c < 4 →
      (fast_pchip (example_engine 1) (1, 0) (3, 5/2) true).self.mem.value r c =
        (example_engine 1).grid.data
          (max 0 (min (((1 : Nat) : Int) + ((r : Int) - 1))
            (((example_engine 1).grid.axis0.size : Int) - 1))).toNat
          (max 0 (min (((0 : Nat) : Int) + ((c : Int) - 1))
            (((example_engine 1).grid.axis1.size : Int) - 1))).toNat ∧
      (max 0 (min (((1 : Nat) : Int) + ((r : Int) - 1))
        (((example_engine 1).grid.axis0.size : Int) - 1))).toNat
        < (example_engine 1).grid.axis0.size ∧
      (max 0 (min (((0 : Nat) : Int) + ((c : Int) - 1))
        (((example_engine 1).grid.axis1.size : Int) - 1))).toNat
        < (example_engine 1).grid.axis1.size) ∧
    (fast_pchip (example_engine 1) (1, 0) (3, 5/2) true).self.mem.field (4 + 2 * 1 + 1)
      = (example_engine 1).derv_x (1 + 1) (0 + 1) :=
  ⟨(fast_pchip_reads_inside (construct_built _ _) (by decide) (by decide) 1 0 (3, 5/2) true).1,
   ((fast_pchip_reads_inside (construct_built _ _) (by decide) (by decide) 1 0 (3, 5/2) true).2
      (by decide) (by decide) 1 1 (by decide) (by decide)).1⟩

/-! ## The derivative precomputation has no error path -/

/-- A checked read at a node of the grid returns the raw value. -/
theorem data_2d_checked_inside (grid : data_grid) (a b : Int) (r c : Nat) (ha : a = r)
    (hb : b = c) (hr : r < grid.axis0.size) (hc : c < grid.axis1.size) :
    data_2d_checked grid a b = some (grid.data r c) := by
  subst ha hb
  unfold data_2d_checked
  rw [if_pos ⟨by omega, by omega, by omega, by omega⟩]
  rfl

/-- A branch whose rows and columns are nodes of the grid reads inside the grid, and assigns
the stencil of those rows and columns. -/
theorem stencil_checked_inside (grid : data_grid) (a b c d : Int) (ip im jp jm i j : Nat)
    (ha : a = ip) (hb : b = im) (hc : c = jp) (hd : d = jm)
    (h1 : ip < grid.axis0.size) (h2 : im < grid.axis0.size) (h3 : i < grid.axis0.size)
    (h4 : jp < grid.axis1.size) (h5 : jm < grid.axis1.size) (h6 : j < grid.axis1.size) :
    stencil_checked grid a b c d i j = some (stencil_of grid ip im jp jm i j) := by
  unfold stencil_checked
  simp only [data_2d_checked_inside grid a j ip j ha rfl h1 h6,
    data_2d_checked_inside grid b j im j hb rfl h2 h6,
    data_2d_checked_inside grid i c i jp rfl hc h3 h4,
    data_2d_checked_inside grid i d i jm rfl hd h3 h5,
    data_2d_checked_inside grid a c ip jp ha hc h1 h4,
    data_2d_checked_inside grid a d ip jm ha hd h1 h5,
    data_2d_checked_inside grid b c im jp hb hc h2 h4,
    data_2d_checked_inside grid b d im jm hb hd h2 h5]
  rfl

/-- A branch that reads the clamped neighbours of a node reads inside the grid. -/
theorem stencil_checked_clamped (grid : data_grid) (hR : 2 ≤ grid.axis0.size)
    (hC : 2 ≤ grid.axis1.size) (i j : Nat) (hi : i < grid.axis0.size)
    (hj : j < grid.axis1.size) (a b c d : Int)
    (ha : a = ((min (i + 1) (grid.axis0.size - 1) : Nat) : Int)) (hb : b = ((i - 1 : Nat) : Int))
    (hc : c = ((min (j + 1) (grid.axis1.size - 1) : Nat) : Int)) (hd : d = ((j - 1 : Nat) : Int)) :
    stencil_checked grid a b c d i j =
      some (stencil_of grid (min (i + 1) (grid.axis0.size - 1)) (i - 1)
        (min (j + 1) (grid.axis1.size - 1)) (j - 1) i j) :=
  stencil_checked_inside grid a b c d _ _ _ _ i j ha hb hc hd (by omega) (by omega) hi
    (by omega) (by omega) hj

/-- The constructor with checked reads returns, and returns what the constructor computes. -/
theorem derv_of_checked_eq (grid : data_grid) (hR : 2 ≤ grid.axis0.size)
    (hC : 2 ≤ grid.axis1.size) (i j : Nat) (hi : i < grid.axis0.size)
    (hj : j < grid.axis1.size) :
    derv_of_checked grid i j = some (derv_of grid i j) := by
  rw [derv_of_clamped grid hR hC i j hi hj]
  unfold derv_of_checked
  simp only []
  split_ifs with c1 c2 c3 c4 c5 c6 c7 c8 <;>
    exact stencil_checked_clamped grid hR hC i j hi hj _ _ _ _ (by omega) (by omega)
      (by omega) (by omega)

/-- On a directed axis every spacing, the one reported at the last node included, has the
sign of the axis. -/
theorem seq_vector.directed_increment {ax : seq_vector} (hd : ax.directed) (k : Nat)
    (hk : k < ax.size) :
    (ax.ascending → 0 < ax.increment k) ∧ (ax.descending → ax.increment k < 0) := by
  obtain ⟨⟨h2, -, hinc⟩, hlast⟩ := hd
  by_cases hk1 : k + 1 < ax.size
  · rw [hinc k hk1]
    exact ⟨fun ha => sub_pos.2 (ha k hk1), fun hde => sub_neg.2 (hde k hk1)⟩
  · have ek : k = ax.size - 1 := by omega
    have h3 : ax.size - 2 + 1 < ax.size := by omega
    have e3 : ax.size - 2 + 1 = ax.size - 1 := by omega
    have hl := hinc (ax.size - 2) h3
    rw [ek]
    constructor
    · intro ha
      have := ha (ax.size - 2) h3
      have hp : 0 < ax.increment (ax.size - 2) := by rw [hl]; linarith
      exact (pos_iff_pos_of_mul_pos hlast).2 hp
    · intro hde
      have := hde (ax.size - 2) h3
      have hn : ax.increment (ax.size - 2) < 0 := by rw [hl]; linarith
      exact (neg_iff_neg_of_mul_pos hlast).2 hn

/-- On a directed axis the normalization increment is positive at every node. -/
theorem inc_of_pos {ax : seq_vector} (hd : ax.directed) (i : Nat) (hi : i < ax.size) :
    0 < inc_of ax (ax.size - 1) i := by
  unfold inc_of
  split_ifs with h
  · norm_num
  · have hi0 : i ≠ 0 := fun h0 => h (Or.inl h0)
    have hi1 : i ≠ ax.size - 1 := fun h1 => h (Or.inr h1)
    have a := seq_vector.directed_increment hd (i - 1) (by omega)
    have b := seq_vector.directed_increment hd i hi
    have c := seq_vector.directed_increment hd (i + 1) (by omega)
    rcases hd.1.2.1 with ha | hde
    · exact div_pos (add_pos (a.1 ha) (c.1 ha)) (b.1 ha)
    · exact div_pos_of_neg_of_neg (add_neg (a.2 hde) (c.2 hde)) (b.2 hde)

/-- C22: the derivative precomputation has no error path.  On a grid whose axes are strictly
monotonic with at least two nodes (and report at the last node a spacing in the direction of
the axis), at every node the constructor's branch reads raw data inside the grid only, so
the evaluation with checked reads returns the three derivatives, and the divisors
`inc_x(i)`, `inc_y(j)` and `inc_x(i) * inc_y(j)` are positive. -/
theorem derv_of_no_error (grid : data_grid) (hd0 : grid.axis0.directed)
    (hd1 : grid.axis1.directed) (i j : Nat) (hi : i < grid.axis0.size)
    (hj : j < grid.axis1.size) :
    derv_of_checked grid i j = some (derv_of grid i j) ∧
    (construct grid scratch_zero).derv_x i j = (derv_of grid i j).1 ∧
    (construct grid scratch_zero).derv_y i j = (derv_of grid i j).2.1 ∧
    (construct grid scratch_zero).derv_x_y i j = (derv_of grid i j).2.2 ∧
    0 < inc_of grid.axis0 (grid.axis0.size - 1) i ∧
    0 < inc_of grid.axis1 (grid.axis1.size - 1) j ∧
    0 < inc_of grid.axis0 (grid.axis0.size - 1) i * inc_of grid.axis1 (grid.axis1.size - 1) j :=
  ⟨derv_of_checked_eq grid hd0.1.1 hd1.1.1 i j hi hj, rfl, rfl, rfl, inc_of_pos hd0 i hi,
    inc_of_pos hd1 j hj, mul_pos (inc_of_pos hd0 i hi) (inc_of_pos hd1 j hj)⟩

/-- The axis [1,2,6] is directed. -/
theorem axis_up_directed : axis_up.directed :=
  ⟨axis_up_valid, by norm_num [axis_up, seq_data]⟩

/-- The axis [3,2,1] is directed. -/
theorem axis_down_directed : axis_down.directed :=
  ⟨axis_down_valid, by norm_num [axis_down, seq_data]⟩

/-- C22 at a concrete node: the grid on the axes [1,2,6] and [3,2,1], node (1, 2). -/
theorem derv_of_no_error_witness :
    derv_of_checked (grid_of axis_up axis_down (fun x y => x * x + 3 * y) 1 true) 1 2
      = some (derv_of (grid_of axis_up axis_down (fun x y => x * x + 3 * y) 1 true) 1 2) ∧
    0 < inc_of axis_up (axis_up.size - 1) 1 :=
  ⟨(derv_of_no_error (grid_of axis_up axis_down (fun x y => x * x + 3 * y) 1 true)
      axis_up_directed axis_down_directed 1 2 (by decide) (by decide)).1,
   (derv_of_no_error (grid_of axis_up axis_down (fun x y => x * x + 3 * y) 1 true)
      axis_up_directed axis_down_directed 1 2 (by decide) (by decide)).2.2.2.2.1⟩

/-! ## The nine regions of the derivative precomputation -/

/-- Only the numbers 0, ..., 8 name a region. -/
theorem region_condition_lt (k0max k1max i j m : Nat)
    (h : region_condition k0max k1max i j m = true) : m < 9 := by
  by_contra hm
  obtain ⟨k, rfl⟩ : ∃ k, m = k + 9 := ⟨m - 9, by omega⟩
  simp [region_condition] at h

/-- On axes with at least two nodes every node lies in exactly one region. -/
theorem region_unique (k0max k1max i j : Nat) (h0 : 1 ≤ k0max) (h1 : 1 ≤ k1max)
    (hi : i ≤ k0max) (hj : j ≤ k1max) :
    ∃ n, n < 9 ∧ region_condition k0max k1max i j n = true ∧
      ∀ m, region_condition k0max k1max i j m = true → m = n := by
  have key : ∀ n, n < 9 → region_condition k0max k1max i j n = true →
      (∀ m, m < 9 → m ≠ n → region_condition k0max k1max i j m = false) →
      ∃ n, n < 9 ∧ region_condition k0max k1max i j n = true ∧
        ∀ m, region_condition k0max k1max i j m = true → m = n := by
    intro n hn hc hother
    refine ⟨n, hn, hc, fun m hm => ?_⟩
    by_contra hne
    have := hother m (region_condition_lt _ _ _ _ _ hm) hne
    rw [this] at hm
    exact Bool.false_ne_true hm
  have hi3 : i = 0 ∨ i = k0max ∨ (1 ≤ i ∧ i < k0max) := by omega
  have hj3 : j = 0 ∨ j = k1max ∨ (1 ≤ j ∧ j < k1max) := by omega
  rcases hi3 with hi0 | hi0 | hi0 <;> rcases hj3 with hj0 | hj0 | hj0
  · refine key 0 (by omega) (by simp [region_condition]; omega) (fun m hm hne => ?_)
    interval_cases m <;> simp [region_condition] at hne ⊢ <;> omega
  · refine key 2 (by omega) (by simp [region_condition]; omega) (fun m hm hne => ?_)
    interval_cases m <;> simp [region_condition] at hne ⊢ <;> omega
  · refine key 4 (by omega) (by simp [region_condition]; omega) (fun m hm hne => ?_)
    interval_cases m <;> simp [region_condition] at hne ⊢ <;> omega
  · refine key 3 (by omega) (by simp [region_condition]; omega) (fun m hm hne => ?_)
    interval_cases m <;> simp [region_condition] at hne ⊢ <;> omega
  · refine key 1 (by omega) (by simp [region_condition]; omega) (fun m hm hne => ?_)
    interval_cases m <;> simp [region_condition] at hne ⊢ <;> omega
  · refine key 7 (by omega) (by simp [region_condition]; omega) (fun m hm hne => ?_)
    interval_cases m <;> simp [region_condition] at hne ⊢ <;> omega
  · refine key 5 (by omega) (by simp [region_condition]; omega) (fun m hm hne => ?_)
    interval_cases m <;> simp [region_condition] at hne ⊢ <;> omega
  · refine key 6 (by omega) (by simp [region_condition]; omega) (fun m hm hne => ?_)
    interval_cases m <;> simp [region_condition] at hne ⊢ <;> omega
  · refine key 8 (by omega) (by simp [region_condition]; omega) (fun m hm hne => ?_)
    interval_cases m <;> simp [region_condition] at hne ⊢ <;> omega

/-- Whatever the order in which the eight conditions are tested, the chain selects the one
region whose condition holds. -/
theorem first_region_eq (order : List Nat) (hperm : order.Perm (List.range 8))
    (k0max k1max i j n : Nat) (hn : n < 9)
    (hc : region_condition k0max k1max i j n = true)
    (hu : ∀ m, region_condition k0max k1max i j m = true → m = n) :
    first_region order k0max k1max i j = n := by
  unfold first_region
  cases hfind : order.find? (region_condition k0max k1max i j) with
  | some m =>
    have := List.find?_some hfind
    rw [Option.getD_some]
    exact hu m this
  | none =>
    rw [Option.getD_none]
    rw [List.find?_eq_none] at hfind
    by_contra hne
    have hn8 : n < 8 := by omega
    have hmem : n ∈ order := (hperm.mem_iff).2 (List.mem_range.2 hn8)
    exact hfind n hmem hc

/-- The constructor assigns the stencil of the region that its chain of conditions selects. -/
theorem derv_of_region (grid : data_grid) (i j : Nat) :
    derv_of grid i j = region_stencil grid i j
      (first_region (List.range 8) (grid.axis0.size - 1) (grid.axis1.size - 1) i j) := by
  have hr : List.range 8 = [0, 1, 2, 3, 4, 5, 6, 7] := by decide
  unfold derv_of first_region
  rw [hr]
  simp only []
  split_ifs with c1 c2 c3 c4 c5 c6 c7 c8
  · have b0 : region_condition (grid.axis0.size - 1) (grid.axis1.size - 1) i j 0 = true :=
      decide_eq_true c1
    simp only [List.find?_cons, List.find?_nil, b0, Option.getD_some, Option.getD_none]
    rfl
  · have b0 : region_condition (grid.axis0.size - 1) (grid.axis1.size - 1) i j 0 = false :=
      decide_eq_false c1
    have b1 : region_condition (grid.axis0.size - 1) (grid.axis1.size - 1) i j 1 = true :=
      decide_eq_true c2
    simp only [List.find?_cons, List.find?_nil, b0, b1, Option.getD_some, Option.getD_none]
    rfl
  · have b0 : region_condition (grid.axis0.size - 1) (grid.axis1.size - 1) i j 0 = false :=
      decide_eq_false c1
    have b1 : region_condition (grid.axis0.size - 1) (grid.axis1.size - 1) i j 1 = false :=
      decide_eq_false c2
    have b2 : region_condition (grid.axis0.size - 1) (grid.axis1.size - 1) i j 2 = true :=
      decide_eq_true c3
    simp only [List.find?_cons, List.find?_nil, b0, b1, b2, Option.getD_some, Option.getD_none]
    rfl
  · have b0 : region_condition (grid.axis0.size - 1) (grid.axis1.size - 1) i j 0 = false :=
      decide_eq_false c1
    have b1 : region_condition (grid.axis0.size - 1) (grid.axis1.size - 1) i j 1 = false :=
      decide_eq_false c2
    have b2 : region_condition (grid.axis0.size - 1) (grid.axis1.size - 1) i j 2 = false :=
      decide_eq_false c3
    have b3 : region_condition (grid.axis0.size - 1) (grid.axis1.size - 1) i j 3 = true :=
      decide_eq_true c4
    simp only [List.find?_cons, List.find?_nil, b0, b1, b2, b3, Option.getD_some, Option.getD_none]
    rfl
  · have b0 : region_condition (grid.axis0.size - 1) (grid.axis1.size - 1) i j 0 = false :=
      decide_eq_false c1
    have b1 : region_condition (grid.axis0.size - 1) (grid.axis1.size - 1) i j 1 = false :=
      decide_eq_false c2
    have b2 : region_condition (grid.axis0.size - 1) (grid.axis1.size - 1) i j 2 = false :=
      decide_eq_false c3
    have b3 : region_condition (grid.axis0.size - 1) (grid.axis1.size - 1) i j 3 = false :=
      decide_eq_false c4
    have b4 : region_condition (grid.axis0.size - 1) (grid.axis1.size - 1) i j 4 = true :=
      decide_eq_true c5
    simp only [List.find?_cons, List.find?_nil, b0, b1, b2, b3, b4, Option.getD_some, Option.getD_none]
    rfl
  · have b0 : region_condition (grid.axis0.size - 1) (grid.axis1.size - 1) i j 0 = false :=
      decide_eq_false c1
    have b1 : region_condition (grid.axis0.size - 1) (grid.axis1.size - 1) i j 1 = false :=
      decide_eq_false c2
    have b2 : region_condition (grid.axis0.size - 1) (grid.axis1.size - 1) i j 2 = false :=
      decide_eq_false c3
    have b3 : region_condition (grid.axis0.size - 1) (grid.axis1.size - 1) i j 3 = false :=
      decide_eq_false c4
    have b4 : region_condition (grid.axis0.size - 1) (grid.axis1.size - 1) i j 4 = false :=
      decide_eq_false c5
    have b5 : region_condition (grid.axis0.size - 1) (grid.axis1.size - 1) i j 5 = true :=
      decide_eq_true c6
    simp only [List.find?_cons, List.find?_nil, b0, b1, b2, b3, b4, b5, Option.getD_some, Option.getD_none]
    rfl
  · have b0 : region_condition (grid.axis0.size - 1) (grid.axis1.size - 1) i j 0 = false :=
      decide_eq_false c1
    have b1 : region_condition (grid.axis0.size - 1) (grid.axis1.size - 1) i j 1 = false :=
      decide_eq_false c2
    have b2 : region_condition (grid.axis0.size - 1) (grid.axis1.size - 1) i j 2 = false :=
      decide_eq_false c3
    have b3 : region_condition (grid.axis0.size - 1) (grid.axis1.size - 1) i j 3 = false :=
      decide_eq_false c4
    have b4 : region_condition (grid.axis0.size - 1) (grid.axis1.size - 1) i j 4 = false :=
      decide_eq_false c5
    have b5 : region_condition (grid.axis0.size - 1) (grid.axis1.size - 1) i j 5 = false :=
      decide_eq_false c6
    have b6 : region_condition (grid.axis0.size - 1) (grid.axis1.size - 1) i j 6 = true :=
      decide_eq_true c7
    simp only [List.find?_cons, List.find?_nil, b0, b1, b2, b3, b4, b5, b6, Option.getD_some, Option.getD_none]
    rfl
  · have b0 : region_condition (grid.axis0.size - 1) (grid.axis1.size - 1) i j 0 = false :=
      decide_eq_false c1
    have b1 : region_condition (grid.axis0.size - 1) (grid.axis1.size - 1) i j 1 = false :=
      decide_eq_false c2
    have b2 : region_condition (grid.axis0.size - 1) (grid.axis1.size - 1) i j 2 = false :=
      decide_eq_false c3
    have b3 : region_condition (grid.axis0.size - 1) (grid.axis1.size - 1) i j 3 = false :=
      decide_eq_false c4
    have b4 : region_condition (grid.axis0.size - 1) (grid.axis1.size - 1) i j 4 = false :=
      decide_eq_false c5
    have b5 : region_condition (grid.axis0.size - 1) (grid.axis1.size - 1) i j 5 = false :=
      decide_eq_false c6
    have b6 : region_condition (grid.axis0.size - 1) (grid.axis1.size - 1) i j 6 = false :=
      decide_eq_false c7
    have b7 : region_condition (grid.axis0.size - 1) (grid.axis1.size - 1) i j 7 = true :=
      decide_eq_true c8
    simp only [List.find?_cons, List.find?_nil, b0, b1, b2, b3, b4, b5, b6, b7, Option.getD_some, Option.getD_none]
    rfl
  · have b0 : region_condition (grid.axis0.size - 1) (grid.axis1.size - 1) i j 0 = false :=
      decide_eq_false c1
    have b1 : region_condition (grid.axis0.size - 1) (grid.axis1.size - 1) i j 1 = false :=
      decide_eq_false c2
    have b2 : region_condition (grid.axis0.size - 1) (grid.axis1.size - 1) i j 2 = false :=
      decide_eq_false c3
    have b3 : region_condition (grid.axis0.size - 1) (grid.axis1.size - 1) i j 3 = false :=
      decide_eq_false c4
    have b4 : region_condition (grid.axis0.size - 1) (grid.axis1.size - 1) i j 4 = false :=
      decide_eq_false c5
    have b5 : region_condition (grid.axis0.size - 1) (grid.axis1.size - 1) i j 5 = false :=
      decide_eq_false c6
    have b6 : region_condition (grid.axis0.size - 1) (grid.axis1.size - 1) i j 6 = false :=
      decide_eq_false c7
    have b7 : region_condition (grid.axis0.size - 1) (grid.axis1.size - 1) i j 7 = false :=
      decide_eq_false c8
    simp only [List.find?_cons, List.find?_nil, b0, b1, b2, b3, b4, b5, b6, b7, Option.getD_some, Option.getD_none]
    rfl

/-- C23: on a grid with at least two nodes per axis every node (i, j) satisfies exactly one of
the nine region conditions of the constructor (the eight conditions tested and the interior
1 <= i < R-1, 1 <= j < C-1 for the final else), and whatever the order in which the eight
conditions are tested, the chain selects a region whose condition holds and assigns the
stencil that the constructor assigns. -/
theorem derv_regions_partition (grid : data_grid) (hR : 2 ≤ grid.axis0.size)
    (hC : 2 ≤ grid.axis1.size) (i j : Nat) (hi : i < grid.axis0.size)
    (hj : j < grid.axis1.size) :
    (∃! n, n < 9 ∧
      region_condition (grid.axis0.size - 1) (grid.axis1.size - 1) i j n = true) ∧
    ∀ order : List Nat, order.Perm (List.range 8) →
      region_condition (grid.axis0.size - 1) (grid.axis1.size - 1) i j
        (first_region order (grid.axis0.size - 1) (grid.axis1.size - 1) i j) = true ∧
      region_stencil grid i j
        (first_region order (grid.axis0.size - 1) (grid.axis1.size - 1) i j)
        = derv_of grid i j := by
  obtain ⟨n, hn, hc, hu⟩ := region_unique (grid.axis0.size - 1) (grid.axis1.size - 1) i j
    (by omega) (by omega) (by omega) (by omega)
  refine ⟨⟨n, ⟨hn, hc⟩, fun m hm => hu m hm.2⟩, fun order hperm => ?_⟩
  rw [first_region_eq order hperm _ _ i j n hn hc hu, derv_of_region,
    first_region_eq (List.range 8) (List.Perm.refl _) _ _ i j n hn hc hu]
  exact ⟨hc, rfl⟩

/-- C23 at a concrete node: the interior node (1, 1) of the grid on the axes [1,2,6] and
[3,2,1], with the eight conditions tested in the reverse order. -/
theorem derv_regions_partition_witness :
    region_condition 2 2 1 1 (first_region (List.range 8).reverse 2 2 1 1) = true ∧
    region_stencil (grid_of axis_up axis_down (fun x y => x * x + 3 * y) 1 true) 1 1
        (first_region (List.range 8).reverse 2 2 1 1)
      = derv_of (grid_of axis_up axis_down (fun x y => x * x + 3 * y) 1 true) 1 1 :=
  (derv_regions_partition (grid_of axis_up axis_down (fun x y => x * x + 3 * y) 1 true)
    (by decide) (by decide) 1 1 (by decide) (by decide)).2 (List.range 8).reverse
    (List.reverse_perm _)

/-! ## Centered differences at interior nodes -/

/-- On a uniformly spaced axis the normalization increment is 2 at every node. -/
theorem inc_of_uniform {ax : seq_vector} {h : ℚ} (hu : ax.uniform h) (k : Nat)
    (hk : k < ax.size) : inc_of ax (ax.size - 1) k = 2 := by
  obtain ⟨hne, hu⟩ := hu
  unfold inc_of
  split_ifs with hedge
  · rfl
  · rw [hu (k - 1) (by omega), hu (k + 1) (by omega), hu k hk]
    field_simp
    ring

/-- On a valid, uniformly spaced axis the neighbours of an interior node are two spacings
apart. -/
theorem seq_vector.uniform_span {ax : seq_vector} {h : ℚ} (hv : ax.valid) (hu : ax.uniform h)
    (i : Nat) (h0 : 0 < i) (h1 : i + 1 < ax.size) :
    ax.elem (i + 1) - ax.elem (i - 1) = 2 * h := by
  have a := hv.2.2 i h1
  have b := hv.2.2 (i - 1) (by omega)
  have e : i - 1 + 1 = i := by omega
  rw [e] at b
  rw [hu.2 i (by omega)] at a
  rw [hu.2 (i - 1) (by omega)] at b
  linarith

theorem axis_even_valid : axis_even.valid := by
  refine ⟨by decide, Or.inl ?_, ?_⟩
  · intro k hk
    have hk3 : k < 3 := by have h3 : k + 1 < 4 := hk; omega
    interval_cases k <;> norm_num [axis_even, seq_data]
  · intro k hk
    have hk3 : k < 3 := by have h3 : k + 1 < 4 := hk; omega
    interval_cases k <;> norm_num [axis_even, seq_data]

theorem axis_even_uniform : axis_even.uniform 2 := by
  refine ⟨by norm_num, ?_⟩
  intro k hk
  have hk4 : k < 4 := hk
  interval_cases k <;> norm_num [axis_even, seq_data]

/-- A coordinate between the two nodes of a cell has a normalized offset in [0, 1]. -/
theorem cell_offset_unit (ax : seq_vector) (k : Nat) (x : ℚ)
    (hne : ax.elem (k + 1) - ax.elem k ≠ 0)
    (hb : (ax.elem k ≤ x ∧ x ≤ ax.elem (k + 1)) ∨ (ax.elem (k + 1) ≤ x ∧ x ≤ ax.elem k)) :
    0 ≤ cell_offset ax k x ∧ cell_offset ax k x ≤ 1 := by
  unfold cell_offset
  rcases lt_or_gt_of_ne hne with hneg | hpos
  · have hx : ax.elem (k + 1) ≤ x ∧ x ≤ ax.elem k := by
      rcases hb with ⟨h1, h2⟩ | h
      · exact ⟨by linarith, by linarith⟩
      · exact h
    rw [← neg_div_neg_eq]
    have hd : 0 < -(ax.elem (k + 1) - ax.elem k) := by linarith
    exact ⟨div_nonneg (by linarith) hd.le, (div_le_one hd).2 (by linarith)⟩
  · have hx : ax.elem k ≤ x ∧ x ≤ ax.elem (k + 1) := by
      rcases hb with h | ⟨h1, h2⟩
      · exact h
      · exact ⟨by linarith, by linarith⟩
    exact ⟨div_nonneg (by linarith) hpos.le, (div_le_one hpos).2 (by linarith)⟩

/-- With edge limit on a valid axis whose lookup brackets, the normalized offset of the
located coordinate in the located cell is in [0, 1]; it is 0 at or before the first node and
1 at or beyond the last node. -/
theorem locate_offset_unit {ax : seq_vector} (hv : ax.valid) (hb : ax.brackets) (x : ℚ)
    (off : Nat) :
    0 ≤ cell_offset ax (locate ax true x off).2 (locate ax true x off).1 ∧
    cell_offset ax (locate ax true x off).2 (locate ax true x off).1 ≤ 1 ∧
    (ax.before_first x →
      cell_offset ax (locate ax true x off).2 (locate ax true x off).1 = 0) ∧
    (ax.beyond_last x →
      cell_offset ax (locate ax true x off).2 (locate ax true x off).1 = 1) := by
  have hel := locate_edge_limited hv x off
  have h2 : 2 ≤ ax.size := hv.1
  have e1 : ax.size - 2 + 1 = ax.size - 1 := by omega
  have hfirst : cell_offset ax 0 ax.first = 0 := by
    simp [cell_offset, seq_vector.first]
  have hlast : cell_offset ax (ax.size - 2) ax.last = 1 := by
    unfold cell_offset seq_vector.last
    rw [e1]
    have := seq_vector.valid_cell_ne hv (show ax.size - 2 + 1 < ax.size by omega)
    rw [e1] at this
    exact div_self this
  have hnot : ¬ (ax.ascending ∧ ax.descending) := by
    rintro ⟨ha, hd⟩
    have a := ha 0 (by omega)
    have d := hd 0 (by omega)
    linarith
  rcases hv.2.1 with ha | hd
  · obtain ⟨f1, f2, f3⟩ := hel.1 ha
    have hfl := (seq_vector.ascending_facts hv ha).2
    rcases le_or_lt x ax.first with c1 | c1
    · obtain ⟨p, q⟩ := f1 c1
      rw [p, q, hfirst]
      refine ⟨le_refl _, by norm_num, fun _ => rfl, fun hb2 => ?_⟩
      rcases hb2 with ⟨_, h⟩ | ⟨hd, _⟩
      · linarith
      · exact absurd ⟨ha, hd⟩ hnot
    · rcases le_or_lt ax.last x with c2 | c2
      · obtain ⟨p, q⟩ := f2 c2
        rw [p, q, hlast]
        refine ⟨by norm_num, le_refl _, fun hb1 => ?_, fun _ => rfl⟩
        rcases hb1 with ⟨_, h⟩ | ⟨hd, _⟩
        · linarith
        · exact absurd ⟨ha, hd⟩ hnot
      · obtain ⟨p, q⟩ := f3 c1 c2
        rw [p, q]
        obtain ⟨hk, hbr⟩ := hb x (Or.inl ⟨c1, c2⟩)
        obtain ⟨u0, u1⟩ := cell_offset_unit ax _ x (seq_vector.valid_cell_ne hv hk) hbr
        refine ⟨u0, u1, fun hb1 => ?_, fun hb2 => ?_⟩
        · rcases hb1 with ⟨_, h⟩ | ⟨hd, _⟩
          · linarith
          · exact absurd ⟨ha, hd⟩ hnot
        · rcases hb2 with ⟨_, h⟩ | ⟨hd, _⟩
          · linarith
          · exact absurd ⟨ha, hd⟩ hnot
  · obtain ⟨f1, f2, f3⟩ := hel.2 hd
    have hfl := (seq_vector.descending_facts hv hd).2
    rcases le_or_lt ax.first x with c1 | c1
    · obtain ⟨p, q⟩ := f1 c1
      rw [p, q, hfirst]
      refine ⟨le_refl _, by norm_num, fun _ => rfl, fun hb2 => ?_⟩
      rcases hb2 with ⟨ha, _⟩ | ⟨_, h⟩
      · exact absurd ⟨ha, hd⟩ hnot
      · linarith
    · rcases le_or_lt x ax.last with c2 | c2
      · obtain ⟨p, q⟩ := f2 c2
        rw [p, q, hlast]
        refine ⟨by norm_num, le_refl _, fun hb1 => ?_, fun _ => rfl⟩
        rcases hb1 with ⟨ha, _⟩ | ⟨_, h⟩
        · exact absurd ⟨ha, hd⟩ hnot
        · linarith
      · obtain ⟨p, q⟩ := f3 c1 c2
        rw [p, q]
        obtain ⟨hk, hbr⟩ := hb x (Or.inr ⟨c2, c1⟩)
        obtain ⟨u0, u1⟩ := cell_offset_unit ax _ x (seq_vector.valid_cell_ne hv hk) hbr
        refine ⟨u0, u1, fun hb1 => ?_, fun hb2 => ?_⟩
        · rcases hb1 with ⟨ha, _⟩ | ⟨_, h⟩
          · exact absurd ⟨ha, hd⟩ hnot
          · linarith
        · rcases hb2 with ⟨ha, _⟩ | ⟨_, h⟩
          · exact absurd ⟨ha, hd⟩ hnot
          · linarith

/-- C25: in a bicubic query the entries `xyloc(4)` and `xyloc(1)` are the normalized offsets
(location - axis(k)) / (axis(k+1) - axis(k)) of the located coordinate in the located cell.
On a valid axis with edge limit enabled and a lookup that brackets in-range coordinates, the
offset lies in [0, 1] for every query coordinate; it is 0 for a coordinate at or beyond the
first node and 1 for a coordinate at or beyond the last node, on ascending and on descending
axes. -/
theorem interpolate_pchip_offset_unit (e : data_grid_bathy) (location : ℚ × ℚ)
    (derivative : Bool) (hp : e.grid.interp_type0 = GRID_INTERP_PCHIP) :
    ∃ r, interpolate e location derivative = .ok r ∧
      r.self.mem.xyloc 4 = cell_offset e.grid.axis0 r.self.mem._offset.1 r.location.1 ∧
      r.self.mem.xyloc 1 = cell_offset e.grid.axis1 r.self.mem._offset.2 r.location.2 ∧
      (e.grid.edge_limit0 = true → e.grid.axis0.valid → e.grid.axis0.brackets →
        0 ≤ r.self.mem.xyloc 4 ∧ r.self.mem.xyloc 4 ≤ 1 ∧
        (e.grid.axis0.before_first location.1 → r.self.mem.xyloc 4 = 0) ∧
        (e.grid.axis0.beyond_last location.1 → r.self.mem.xyloc 4 = 1)) ∧
      (e.grid.edge_limit1 = true → e.grid.axis1.valid → e.grid.axis1.brackets →
        0 ≤ r.self.mem.xyloc 1 ∧ r.self.mem.xyloc 1 ≤ 1 ∧
        (e.grid.axis1.before_first location.2 → r.self.mem.xyloc 1 = 0) ∧
        (e.grid.axis1.beyond_last location.2 → r.self.mem.xyloc 1 = 1)) := by
  refine ⟨_, interpolate_pchip_eq e location derivative hp, rfl, rfl, ?_, ?_⟩
  · intro hel hv hb
    have h := locate_offset_unit hv hb location.1 e.mem._offset.1
    have e4 : (fast_pchip { e with mem := { e.mem with _offset := (locate_cell e location).2 } }
        (locate_cell e location).2 (locate_cell e location).1 derivative).self.mem.xyloc 4
        = cell_offset e.grid.axis0 (locate e.grid.axis0 true location.1 e.mem._offset.1).2
            (locate e.grid.axis0 true location.1 e.mem._offset.1).1 := by
      simp only [locate_cell, hel]
      rfl
    rw [e4]
    exact h
  · intro hel hv hb
    have h := locate_offset_unit hv hb location.2 e.mem._offset.2
    have e1 : (fast_pchip { e with mem := { e.mem with _offset := (locate_cell e location).2 } }
        (locate_cell e location).2 (locate_cell e location).1 derivative).self.mem.xyloc 1
        = cell_offset e.grid.axis1 (locate e.grid.axis1 true location.2 e.mem._offset.2).2
            (locate e.grid.axis1 true location.2 e.mem._offset.2).1 := by
      simp only [locate_cell, hel]
      rfl
    rw [e1]
    exact h

/-- The lookup of the axis [1,2,6] brackets. -/
theorem axis_up_brackets : axis_up.brackets := by
  intro x hx
  have e : axis_up.find_index x = if 2 ≤ x then 1 else 0 := by
    by_cases h : (2 : ℚ) ≤ x <;>
      simp [axis_up, seq_data, List.range_succ, List.filter, h]
  have f : axis_up.first = 1 := by norm_num [axis_up, seq_data, seq_vector.first]
  have l : axis_up.last = 6 := by norm_num [axis_up, seq_data, seq_vector.last]
  rw [f, l] at hx
  have hx1 : 1 < x ∧ x < 6 := by
    rcases hx with h | h
    · exact h
    · exact absurd (lt_trans h.1 h.2) (by norm_num)
  rw [e]
  by_cases h : (2 : ℚ) ≤ x
  · rw [if_pos h]
    refine ⟨by decide, Or.inl ?_⟩
    norm_num [axis_up, seq_data]
    exact ⟨h, hx1.2.le⟩
  · rw [if_neg h]
    refine ⟨by decide, Or.inl ?_⟩
    norm_num [axis_up, seq_data]
    exact ⟨hx1.1.le, (not_le.1 h).le⟩

/-- C25 at a concrete query: the engine on the axes [1,2,6] and [3,2,1] with edge limit, the
query coordinate 7 on axis 0, beyond the last node. -/
theorem interpolate_pchip_offset_unit_witness :
    ∃ r, interpolate (example_engine 1) (7, 5/2) true = .ok r ∧
      0 ≤ r.self.mem.xyloc 4 ∧ r.self.mem.xyloc 4 ≤ 1 ∧ r.self.mem.xyloc 4 = 1 := by
  obtain ⟨r, hr, -, -, h0, -⟩ :=
    interpolate_pchip_offset_unit (example_engine 1) (7, 5/2) true rfl
  obtain ⟨a, b, -, d⟩ := h0 rfl axis_up_valid axis_up_brackets
  refine ⟨r, hr, a, b, d (Or.inl ⟨axis_up_valid.2.1.resolve_right ?_, ?_⟩)⟩
  · intro hd
    have := hd 0 (by decide)
    norm_num [axis_up, seq_data] at this
  · show axis_up.last ≤ 7
    norm_num [axis_up, seq_data, seq_vector.last]

/-! ## The field vector of a bicubic query -/

/-- The field vector reads the window at its four inner entries only. -/
theorem field_of_inner (e : data_grid_bathy) (value other : Nat → Nat → ℚ) (k0 k1 : Nat)
    (h : ∀ p q : Nat, p ≤ 1 → q ≤ 1 → other (p + 1) (q + 1) = value (p + 1) (q + 1)) :
    field_of e other k0 k1 = field_of e value k0 k1 := by
  have a := h 0 0 (by omega) (by omega)
  have b := h 0 1 (by omega) (by omega)
  have c := h 1 0 (by omega) (by omega)
  have d := h 1 1 (by omega) (by omega)
  funext n
  unfold field_of
  split <;> simp_all

/-- C26: for a bicubic query located in the cell (k0, k1) with k0 <= R-2 and k1 <= C-2, the
field vector is the raw values at the corners (k0,k1), (k0,k1+1), (k0+1,k1), (k0+1,k1+1)
followed by derv_x, derv_y and derv_x_y at the same corners in the same order; the result and
the derivatives are the bicubic polynomial of that vector, and its term-by-term derivatives,
at the normalized offsets; and a window that agrees with `value` on the four inner entries
gives the same field vector, whatever its outer ring holds. -/
theorem interpolate_pchip_field (grid : data_grid) (mem : scratch) (location : ℚ × ℚ)
    (derivative : Bool) (h : grid.interp_type0 = GRID_INTERP_PCHIP)
    (x y : ℚ) (k0 k1 : Nat)
    (hc : locate_cell (construct grid mem) location = ((x, y), (k0, k1)))
    (h0 : k0 + 1 < grid.axis0.size) (h1 : k1 + 1 < grid.axis1.size) :
    ∃ r, interpolate (construct grid mem) location derivative = .ok r ∧
      r.self.mem.field = cell_field grid k0 k1 ∧
      (∀ p q : Nat, p ≤ 1 → q ≤ 1 →
        r.self.mem.field (2 * p + q) = grid.data (k0 + p) (k1 + q) ∧
        r.self.mem.field (4 + 2 * p + q) = (construct grid mem).derv_x (k0 + p) (k1 + q) ∧
        r.self.mem.field (8 + 2 * p + q) = (construct grid mem).derv_y (k0 + p) (k1 + q) ∧
        r.self.mem.field (12 + 2 * p + q) = (construct grid mem).derv_x_y (k0 + p) (k1 + q)) ∧
      r.result = bicubic_poly (prod_mv inv_bicubic_coeff_init r.self.mem.field)
        (cell_offset grid.axis0 k0 x) (cell_offset grid.axis1 k1 y) ∧
      r.derivative = (if derivative then some
        (bicubic_poly_dt (prod_mv inv_bicubic_coeff_init r.self.mem.field)
          (cell_offset grid.axis0 k0 x) (cell_offset grid.axis1 k1 y),
         bicubic_poly_du (prod_mv inv_bicubic_coeff_init r.self.mem.field)
          (cell_offset grid.axis0 k0 x) (cell_offset grid.axis1 k1 y)) else none) ∧
      (∀ other : Nat → Nat → ℚ,
        (∀ p q : Nat, p ≤ 1 → q ≤ 1 → other (p + 1) (q + 1) = r.self.mem.value (p + 1) (q + 1)) →
        field_of r.self other k0 k1 = r.self.mem.field) := by
  have hb := built_with_mem (construct_built grid mem)
    { (construct grid mem).mem with _offset := (k0, k1) }
  obtain ⟨hres, hder⟩ := fast_pchip_closed hb k0 k1 (x, y) derivative
  have hF : field_of _ (value_window _ k0 k1) k0 k1 = cell_field _ k0 k1 :=
    field_of_eq_cell_field hb h0 h1
  have hfield : (fast_pchip { construct grid mem with
      mem := { (construct grid mem).mem with _offset := (k0, k1) } } (k0, k1) (x, y)
      derivative).self.mem.field = cell_field grid k0 k1 := hF
  refine ⟨_, interpolate_pchip_eq _ _ _ h, ?_, ?_, ?_, ?_, ?_⟩
  · rw [hc]; exact hfield
  · intro p q hp hq
    rw [hc, hfield]
    have hp2 : p < 2 := by omega
    have hq2 : q < 2 := by omega
    interval_cases p <;> interval_cases q <;> exact ⟨rfl, rfl, rfl, rfl⟩
  · rw [hc, hfield, hres, hF]; rfl
  · rw [hc, hfield, hder, hF]; rfl
  · intro other ho
    rw [hc] at ho ⊢
    exact field_of_inner _ _ other k0 k1 ho

/-- C26 at a concrete query: the engine on the axes [1,2,6] and [3,2,1], the query (3, 5/2)
in the cell (1, 0). -/
theorem interpolate_pchip_field_witness :
    ∃ r, interpolate (example_engine 1) (3, 5/2) true = .ok r ∧
      r.self.mem.field =
        cell_field (grid_of axis_up axis_down (fun x y => x * x + 3 * y) 1 true) 1 0 := by
  have hcell : locate_cell (example_engine 1) (3, 5/2) = ((3, 5/2), (1, 0)) := by
    norm_num [locate_cell, locate, example_engine, construct, grid_of, axis_up, axis_down,
      seq_data, seq_vector.first, seq_vector.last, scratch_zero, List.range_succ, List.filter]
  obtain ⟨r, hr, hf, -⟩ := interpolate_pchip_field
    (grid_of axis_up axis_down (fun x y => x * x + 3 * y) 1 true) scratch_zero (3, 5/2) true
    rfl 3 (5/2) 1 0 hcell (by decide) (by decide)
  exact ⟨r, hr, hf⟩

/-! ## Continuity across the edges of the cells -/

/-- On the edges t = 0 and t = 1 of the unit cell the bicubic polynomial built from a field
vector, and its two derivatives, are cubic Hermite polynomials in u of the entries that
belong to the two corners of the edge. -/
theorem bicubic_poly_edge_t (F : Nat → ℚ) (u : ℚ) :
    bicubic_poly (prod_mv inv_bicubic_coeff_init F) 0 u
      = hermite_cubic (F 0) (F 1) (F 8) (F 9) u ∧
    bicubic_poly (prod_mv inv_bicubic_coeff_init F) 1 u
      = hermite_cubic (F 2) (F 3) (F 10) (F 11) u ∧
    bicubic_poly_dt (prod_mv inv_bicubic_coeff_init F) 0 u
      = hermite_cubic (F 4) (F 5) (F 12) (F 13) u ∧
    bicubic_poly_dt (prod_mv inv_bicubic_coeff_init F) 1 u
      = hermite_cubic (F 6) (F 7) (F 14) (F 15) u ∧
    bicubic_poly_du (prod_mv inv_bicubic_coeff_init F) 0 u
      = hermite_cubic_dt (F 0) (F 1) (F 8) (F 9) u ∧
    bicubic_poly_du (prod_mv inv_bicubic_coeff_init F) 1 u
      = hermite_cubic_dt (F 2) (F 3) (F 10) (F 11) u := by
  rw [bicubic_poly_prod, bicubic_poly_prod, bicubic_poly_dt_prod, bicubic_poly_dt_prod,
    bicubic_poly_du_prod, bicubic_poly_du_prod]
  unfold hermite_cubic hermite_cubic_dt
  refine ⟨?_, ?_, ?_, ?_, ?_, ?_⟩ <;> ring

/-- On the edges u = 0 and u = 1 of the unit cell the bicubic polynomial built from a field
vector, and its two derivatives, are cubic Hermite polynomials in t of the entries that
belong to the two corners of the edge. -/
theorem bicubic_poly_edge_u (F : Nat → ℚ) (t : ℚ) :
    bicubic_poly (prod_mv inv_bicubic_coeff_init F) t 0
      = hermite_cubic (F 0) (F 2) (F 4) (F 6) t ∧
    bicubic_poly (prod_mv inv_bicubic_coeff_init F) t 1
      = hermite_cubic (F 1) (F 3) (F 5) (F 7) t ∧
    bicubic_poly_du (prod_mv inv_bicubic_coeff_init F) t 0
      = hermite_cubic (F 8) (F 10) (F 12) (F 14) t ∧
    bicubic_poly_du (prod_mv inv_bicubic_coeff_init F) t 1
      = hermite_cubic (F 9) (F 11) (F 13) (F 15) t ∧
    bicubic_poly_dt (prod_mv inv_bicubic_coeff_init F) t 0
      = hermite_cubic_dt (F 0) (F 2) (F 4) (F 6) t ∧
    bicubic_poly_dt (prod_mv inv_bicubic_coeff_init F) t 1
      = hermite_cubic_dt (F 1) (F 3) (F 5) (F 7) t := by
  rw [bicubic_poly_prod, bicubic_poly_prod, bicubic_poly_dt_prod, bicubic_poly_dt_prod,
    bicubic_poly_du_prod, bicubic_poly_du_prod]
  unfold hermite_cubic hermite_cubic_dt
  refine ⟨?_, ?_, ?_, ?_, ?_, ?_⟩ <;> ring

/-- C27: the bicubic surface and the two reported derivatives are continuous across the
shared edge of adjacent cells.  On a built engine with valid axes, for k0 <= R-3 and a cell
index k1, the evaluator at the coordinate axis0(k0+1), any y, gives in the cell (k0, k1)
(offset t = 1) the same value and the same derivative slot as in the cell (k0+1, k1)
(offset t = 0); symmetrically for the cells (k0, k1) and (k0, k1+1) at the coordinate
axis1(k1+1). -/
theorem fast_pchip_continuous {e : data_grid_bathy} (hb : e.built)
    (hv0 : e.grid.axis0.valid) (hv1 : e.grid.axis1.valid) (derivative : Bool) :
    (∀ k0 k1 : Nat, ∀ y : ℚ, k0 + 2 < e.grid.axis0.size → k1 + 1 < e.grid.axis1.size →
      cell_offset e.grid.axis0 k0 (e.grid.axis0.elem (k0 + 1)) = 1 ∧
      cell_offset e.grid.axis0 (k0 + 1) (e.grid.axis0.elem (k0 + 1)) = 0 ∧
      (fast_pchip e (k0, k1) (e.grid.axis0.elem (k0 + 1), y) derivative).result
        = (fast_pchip e (k0 + 1, k1) (e.grid.axis0.elem (k0 + 1), y) derivative).result ∧
      (fast_pchip e (k0, k1) (e.grid.axis0.elem (k0 + 1), y) derivative).derivative
        = (fast_pchip e (k0 + 1, k1) (e.grid.axis0.elem (k0 + 1), y) derivative).derivative) ∧
    (∀ k0 k1 : Nat, ∀ x : ℚ, k0 + 1 < e.grid.axis0.size → k1 + 2 < e.grid.axis1.size →
      cell_offset e.grid.axis1 k1 (e.grid.axis1.elem (k1 + 1)) = 1 ∧
      cell_offset e.grid.axis1 (k1 + 1) (e.grid.axis1.elem (k1 + 1)) = 0 ∧
      (fast_pchip e (k0, k1) (x, e.grid.axis1.elem (k1 + 1)) derivative).result
        = (fast_pchip e (k0, k1 + 1) (x, e.grid.axis1.elem (k1 + 1)) derivative).result ∧
      (fast_pchip e (k0, k1) (x, e.grid.axis1.elem (k1 + 1)) derivative).derivative
        = (fast_pchip e (k0, k1 + 1) (x, e.grid.axis1.elem (k1 + 1)) derivative).derivative) := by
  constructor
  · intro k0 k1 y h0 h1
    have hn := seq_vector.valid_cell_ne hv0 (show k0 + 1 < e.grid.axis0.size by omega)
    have t1 : (e.grid.axis0.elem (k0 + 1) - e.grid.axis0.elem k0)
        / (e.grid.axis0.elem (k0 + 1) - e.grid.axis0.elem k0) = 1 := div_self hn
    have t0 : (e.grid.axis0.elem (k0 + 1) - e.grid.axis0.elem (k0 + 1))
        / (e.grid.axis0.elem (k0 + 1 + 1) - e.grid.axis0.elem (k0 + 1)) = 0 := by
      rw [sub_self, zero_div]
    obtain ⟨ra, da⟩ := fast_pchip_closed hb k0 k1 (e.grid.axis0.elem (k0 + 1), y) derivative
    obtain ⟨rb, db⟩ := fast_pchip_closed hb (k0 + 1) k1 (e.grid.axis0.elem (k0 + 1), y)
      derivative
    have Fa := field_of_eq_cell_field hb (show k0 + 1 < e.grid.axis0.size by omega) h1
    have Fb := field_of_eq_cell_field hb (show k0 + 1 + 1 < e.grid.axis0.size by omega) h1
    obtain ⟨-, a1, -, a3, -, a5⟩ := bicubic_poly_edge_t (cell_field e.grid k0 k1)
      ((y - e.grid.axis1.elem k1) / (e.grid.axis1.elem (k1 + 1) - e.grid.axis1.elem k1))
    obtain ⟨b0, -, b2, -, b4, -⟩ := bicubic_poly_edge_t (cell_field e.grid (k0 + 1) k1)
      ((y - e.grid.axis1.elem k1) / (e.grid.axis1.elem (k1 + 1) - e.grid.axis1.elem k1))
    refine ⟨t1, t0, ?_, ?_⟩
    · rw [ra, rb, Fa, Fb]
      simp only [t1, t0]
      rw [a1, b0]
      rfl
    · rw [da, db, Fa, Fb]
      simp only [t1, t0]
      rw [a3, b2, a5, b4]
      rfl
  · intro k0 k1 x h0 h1
    have hn := seq_vector.valid_cell_ne hv1 (show k1 + 1 < e.grid.axis1.size by omega)
    have t1 : (e.grid.axis1.elem (k1 + 1) - e.grid.axis1.elem k1)
        / (e.grid.axis1.elem (k1 + 1) - e.grid.axis1.elem k1) = 1 := div_self hn
    have t0 : (e.grid.axis1.elem (k1 + 1) - e.grid.axis1.elem (k1 + 1))
        / (e.grid.axis1.elem (k1 + 1 + 1) - e.grid.axis1.elem (k1 + 1)) = 0 := by
      rw [sub_self, zero_div]
    obtain ⟨ra, da⟩ := fast_pchip_closed hb k0 k1 (x, e.grid.axis1.elem (k1 + 1)) derivative
    obtain ⟨rb, db⟩ := fast_pchip_closed hb k0 (k1 + 1) (x, e.grid.axis1.elem (k1 + 1))
      derivative
    have Fa := field_of_eq_cell_field hb h0 (show k1 + 1 < e.grid.axis1.size by omega)
    have Fb := field_of_eq_cell_field hb h0 (show k1 + 1 + 1 < e.grid.axis1.size by omega)
    obtain ⟨-, a1, -, a3, -, a5⟩ := bicubic_poly_edge_u (cell_field e.grid k0 k1)
      ((x - e.grid.axis0.elem k0) / (e.grid.axis0.elem (k0 + 1) - e.grid.axis0.elem k0))
    obtain ⟨b0, -, b2, -, b4, -⟩ := bicubic_poly_edge_u (cell_field e.grid k0 (k1 + 1))
      ((x - e.grid.axis0.elem k0) / (e.grid.axis0.elem (k0 + 1) - e.grid.axis0.elem k0))
    refine ⟨t1, t0, ?_, ?_⟩
    · rw [ra, rb, Fa, Fb]
      simp only [t1, t0]
      rw [a1, b0]
      rfl
    · rw [da, db, Fa, Fb]
      simp only [t1, t0]
      rw [a5, b4, a3, b2]
      rfl

/-- C27 at a concrete edge: the engine on the axes [1,2,6] and [3,2,1], the cells (0, 0) and
(1, 0) at the coordinate axis0(1) = 2 and y = 5/2. -/
theorem fast_pchip_continuous_witness :
    (fast_pchip (example_engine 1) (0, 0) (axis_up.elem (0 + 1), 5/2) true).result
      = (fast_pchip (example_engine 1) (0 + 1, 0) (axis_up.elem (0 + 1), 5/2) true).result ∧
    (fast_pchip (example_engine 1) (0, 0) (axis_up.elem (0 + 1), 5/2) true).derivative
      = (fast_pchip (example_engine 1) (0 + 1, 0) (axis_up.elem (0 + 1), 5/2) true).derivative :=
  ((fast_pchip_continuous
      (construct_built (grid_of axis_up axis_down (fun x y => x * x + 3 * y) 1 true)
        scratch_zero)
      axis_up_valid axis_down_valid true).1 0 0 (5/2) (by decide) (by decide)).2.2

/-! ## Independence of the scratch state -/

/-- On a valid axis the edge-limit loop sets `_offset`. -/
theorem seq_vector.valid_locates {ax : seq_vector} (hv : ax.valid) (el : Bool) :
    ax.locates el := by
  right
  rw [hv.2.2 0 (by have := hv.1; omega)]
  exact seq_vector.valid_cell_ne hv (by have := hv.1; omega)

/-- C28: queries do not depend on the scratch members and do not change the immutable
members.  On an engine with valid (strictly monotonic) axes, for every location and
derivative request, two engines that differ only in the scratch members `_offset`,
`fast_index`, `value`, `field`, `xyloc`, `bicubic_coeff` and `result_pchip` give the same
outcome (value, location array and derivative slot, or the same error); and the engine after
a query has the grid data, `derv_x`, `derv_y`, `derv_x_y` and `inv_bicubic_coeff` it had
before. -/
theorem interpolate_scratch_independent (e : data_grid_bathy) (hv0 : e.grid.axis0.valid)
    (hv1 : e.grid.axis1.valid) (location : ℚ × ℚ) (derivative : Bool) :
    (∀ m1 m2 : scratch,
      (interpolate { e with mem := m1 } location derivative).map query_result.view
        = (interpolate { e with mem := m2 } location derivative).map query_result.view) ∧
    (∀ (m : scratch) (r : query_result),
      interpolate { e with mem := m } location derivative = .ok r →
        r.self.grid = e.grid ∧ r.self.derv_x = e.derv_x ∧ r.self.derv_y = e.derv_y ∧
        r.self.derv_x_y = e.derv_x_y ∧ r.self.inv_bicubic_coeff = e.inv_bicubic_coeff) := by
  have l0 := seq_vector.valid_locates hv0 e.grid.edge_limit0
  have l1 := seq_vector.valid_locates hv1 e.grid.edge_limit1
  constructor
  · intro m1 m2
    rw [interpolate_view_mem e m1 location derivative l0 l1,
      interpolate_view_mem e m2 location derivative l0 l1]
  · intro m r hr
    have hs := interpolate_self _ location derivative r hr
    rw [hs]
    exact ⟨rfl, rfl, rfl, rfl, rfl⟩

/-- C28 at a concrete query: the engine on the axes [1,2,6] and [3,2,1] in bicubic mode,
with two different scratch states. -/
theorem interpolate_scratch_independent_witness :
    (interpolate { example_engine 1 with
        mem := { scratch_zero with _offset := (1, 1), value := fun _ _ => 5,
                                   bicubic_coeff := fun _ => 3 } }
        (3, 5/2) true).map query_result.view
      = (interpolate { example_engine 1 with mem := scratch_zero } (3, 5/2) true).map
          query_result.view :=
  (interpolate_scratch_independent (example_engine 1) axis_up_valid axis_down_valid (3, 5/2)
    true).1 _ _

/-! ## The derivative outputs are the partial derivatives of the series -/

open MvPolynomial in
/-- The partial derivative in t of one term of the series. -/
theorem pderiv_monomial_t (a : ℚ) (i j : Nat) :
    pderiv (0 : Fin 2) (C a * X 0 ^ i * X 1 ^ j : MvPolynomial (Fin 2) ℚ)
      = C ((i : ℚ) * a) * X 0 ^ (i - 1) * X 1 ^ j := by
  simp [Derivation.leibniz, pderiv_X, Pi.single_apply]
  ring

open MvPolynomial in
/-- The partial derivative in u of one term of the series. -/
theorem pderiv_monomial_u (a : ℚ) (i j : Nat) :
    pderiv (1 : Fin 2) (C a * X 0 ^ i * X 1 ^ j : MvPolynomial (Fin 2) ℚ)
      = C ((j : ℚ) * a) * X 0 ^ i * X 1 ^ (j - 1) := by
  simp [Derivation.leibniz, pderiv_X, Pi.single_apply]
  ring

/-- The polynomial of a coefficient vector and its partial derivatives, evaluated at a
point, are the sums `bicubic_poly`, `bicubic_poly_dt` and `bicubic_poly_du`. -/
theorem pchip_series_spec_poly (a : Nat → ℚ) (t u : ℚ) :
    pchip_series_spec a t u (bicubic_poly a t u) (bicubic_poly_dt a t u)
      (bicubic_poly_du a t u) := by
  simp only [pchip_series_spec, bicubic_poly, bicubic_poly_dt, bicubic_poly_du, map_sum,
    pderiv_monomial_t, pderiv_monomial_u, MvPolynomial.eval_mul, MvPolynomial.eval_C,
    MvPolynomial.eval_pow, MvPolynomial.eval_X, Matrix.cons_val_zero, Matrix.cons_val_one,
    Matrix.head_cons]
  exact ⟨trivial, trivial, trivial⟩

/-- The two accumulations of the derivative loops are the term-by-term derivatives of the
series at the normalized offsets. -/
theorem pchip_derivative_eq (a : Nat → ℚ) (x_inv y_inv norm0 norm1 : ℚ) :
    pchip_derivative0 a (xyloc_of x_inv y_inv norm0 norm1)
      = bicubic_poly_dt a (x_inv / norm0) (y_inv / norm1) ∧
    pchip_derivative1 a (xyloc_of x_inv y_inv norm0 norm1)
      = bicubic_poly_du a (x_inv / norm0) (y_inv / norm1) := by
  constructor
  · simp only [pchip_derivative0, bicubic_poly_dt, xyloc_of, Finset.sum_range_succ,
      Finset.sum_range_zero, Finset.sum_Ico_eq_sum_range]
    norm_num
    ring
  · simp only [pchip_derivative1, bicubic_poly_du, xyloc_of, Finset.sum_range_succ,
      Finset.sum_range_zero, Finset.sum_Ico_eq_sum_range]
    norm_num
    ring

/-- The entries of the power series are the monomials of the normalized offsets. -/
theorem xyloc_of_monomial (x_inv y_inv norm0 norm1 : ℚ) (i j : Nat) (hi : i < 4) (hj : j < 4) :
    xyloc_of x_inv y_inv norm0 norm1 (4 * i + j) = (x_inv / norm0) ^ i * (y_inv / norm1) ^ j := by
  interval_cases i <;> interval_cases j <;> simp only [xyloc_of] <;> ring

/-- C29: the derivative outputs of the bicubic evaluator are the partial derivatives, with
respect to the normalized coordinates t and u, of the polynomial
g(t,u) = sum a_ij t^i u^j whose value it returns, a_ij being `bicubic_coeff(4i+j)`:
`xyloc(4i+j) = t^i u^j` for i, j in 0..3, the result is g(t,u), derivative[0] is dg/dt(t,u)
and derivative[1] is dg/du(t,u), for every engine, cell and location. -/
theorem fast_pchip_derivative_spec (e : data_grid_bathy) (k0 k1 : Nat) (location : ℚ × ℚ) :
    (∀ i j : Nat, i < 4 → j < 4 →
      (fast_pchip e (k0, k1) location true).self.mem.xyloc (4 * i + j)
        = cell_offset e.grid.axis0 k0 location.1 ^ i
          * cell_offset e.grid.axis1 k1 location.2 ^ j) ∧
    ∃ d0 d1, (fast_pchip e (k0, k1) location true).derivative = some (d0, d1) ∧
      pchip_series_spec (fast_pchip e (k0, k1) location true).self.mem.bicubic_coeff
        (cell_offset e.grid.axis0 k0 location.1) (cell_offset e.grid.axis1 k1 location.2)
        (fast_pchip e (k0, k1) location true).result d0 d1 := by
  refine ⟨fun i j hi hj => xyloc_of_monomial _ _ _ _ i j hi hj, _, _, rfl, ?_⟩
  have h := pchip_series_spec_poly
    (fast_pchip e (k0, k1) location true).self.mem.bicubic_coeff
    (cell_offset e.grid.axis0 k0 location.1) (cell_offset e.grid.axis1 k1 location.2)
  have hd := pchip_derivative_eq
    (fast_pchip e (k0, k1) location true).self.mem.bicubic_coeff
    (location.1 - e.grid.axis0.elem k0) (location.2 - e.grid.axis1.elem k1)
    (e.grid.axis0.elem (k0 + 1) - e.grid.axis0.elem k0)
    (e.grid.axis1.elem (k1 + 1) - e.grid.axis1.elem k1)
  have hv : bicubic_poly (fast_pchip e (k0, k1) location true).self.mem.bicubic_coeff
      ((location.1 - e.grid.axis0.elem k0) / (e.grid.axis0.elem (k0 + 1) - e.grid.axis0.elem k0))
      ((location.2 - e.grid.axis1.elem k1) / (e.grid.axis1.elem (k1 + 1) - e.grid.axis1.elem k1))
      = (fast_pchip e (k0, k1) location true).result := (prod_vv_xyloc _ _ _ _ _).symm
  simp only [cell_offset] at h
  rw [← hd.1, ← hd.2, hv] at h
  exact h

/-! ## Constant fields -/

/-- On a valid axis whose lookup answers with a cell, the cell location answers with a cell,
with or without edge limit. -/
theorem locate_index_lt {ax : seq_vector} (hv : ax.valid)
    (hf : ∀ x, ax.find_index x + 1 < ax.size) (el : Bool) (x : ℚ) (off : Nat) :
    (locate ax el x off).2 + 1 < ax.size := by
  have h2 : 2 ≤ ax.size := hv.1
  cases el with
  | false => rw [locate_no_edge_limit]; exact hf x
  | true =>
    have hel := locate_edge_limited hv x off
    rcases hv.2.1 with ha | hd
    · obtain ⟨f1, f2, f3⟩ := hel.1 ha
      rcases le_or_lt x ax.first with c1 | c1
      · rw [(f1 c1).2]; omega
      · rcases le_or_lt ax.last x with c2 | c2
        · rw [(f2 c2).2]; omega
        · rw [(f3 c1 c2).2]; exact hf x
    · obtain ⟨f1, f2, f3⟩ := hel.2 hd
      rcases le_or_lt ax.first x with c1 | c1
      · rw [(f1 c1).2]; omega
      · rcases le_or_lt x ax.last with c2 | c2
        · rw [(f2 c2).2]; omega
        · rw [(f3 c1 c2).2]; exact hf x

/-- The index taken by nearest mode is one of the two nodes of the located cell. -/
theorem nearest_index_lt (ax : seq_vector) (loc : ℚ) (off n : Nat) (h : off + 1 < n) :
    nearest_index ax loc off < n := by
  rcases nearest_index_cases ax loc off with e | e <;> rw [e] <;> omega

/-- On constant data the three derivative fields vanish at every node. -/
theorem derv_of_constant (grid : data_grid) (c : ℚ) (hR : 2 ≤ grid.axis0.size)
    (hC : 2 ≤ grid.axis1.size)
    (hdata : ∀ i j, i < grid.axis0.size → j < grid.axis1.size → grid.data i j = c)
    (i j : Nat) (hi : i < grid.axis0.size) (hj : j < grid.axis1.size) :
    derv_of grid i j = (0, 0, 0) := by
  rw [derv_of_clamped grid hR hC i j hi hj]
  have a1 : min (i + 1) (grid.axis0.size - 1) < grid.axis0.size := by omega
  have a2 : i - 1 < grid.axis0.size := by omega
  have b1 : min (j + 1) (grid.axis1.size - 1) < grid.axis1.size := by omega
  have b2 : j - 1 < grid.axis1.size := by omega
  rw [hdata _ _ a1 hj, hdata _ _ a2 hj, hdata _ _ hi b1, hdata _ _ hi b2, hdata _ _ a1 b1,
    hdata _ _ a1 b2, hdata _ _ a2 b1, hdata _ _ a2 b2]
  simp

/-- The bicubic polynomial of a field vector with four equal corner values and vanishing
derivative entries is constant. -/
theorem bicubic_poly_constant (F : Nat → ℚ) (c : ℚ)
    (hF : ∀ n, F n = if n < 4 then c else 0) (t u : ℚ) :
    bicubic_poly (prod_mv inv_bicubic_coeff_init F) t u = c ∧
    bicubic_poly_dt (prod_mv inv_bicubic_coeff_init F) t u = 0 ∧
    bicubic_poly_du (prod_mv inv_bicubic_coeff_init F) t u = 0 := by
  rw [bicubic_poly_prod, bicubic_poly_dt_prod, bicubic_poly_du_prod]
  simp only [hF]
  norm_num

/-- On constant data the field vector of every cell of the grid is the constant at the four
corners and zero in the derivative entries. -/
theorem cell_field_constant (grid : data_grid) (c : ℚ) (hR : 2 ≤ grid.axis0.size)
    (hC : 2 ≤ grid.axis1.size)
    (hdata : ∀ i j, i < grid.axis0.size → j < grid.axis1.size → grid.data i j = c)
    (k0 k1 : Nat) (h0 : k0 + 1 < grid.axis0.size) (h1 : k1 + 1 < grid.axis1.size) (n : Nat) :
    cell_field grid k0 k1 n = if n < 4 then c else 0 := by
  have d00 := derv_of_constant grid c hR hC hdata k0 k1 (by omega) (by omega)
  have d01 := derv_of_constant grid c hR hC hdata k0 (k1 + 1) (by omega) h1
  have d10 := derv_of_constant grid c hR hC hdata (k0 + 1) k1 h0 (by omega)
  have d11 := derv_of_constant grid c hR hC hdata (k0 + 1) (k1 + 1) h0 h1
  have v00 := hdata k0 k1 (by omega) (by omega)
  have v01 := hdata k0 (k1 + 1) (by omega) h1
  have v10 := hdata (k0 + 1) k1 h0 (by omega)
  have v11 := hdata (k0 + 1) (k1 + 1) h0 h1
  by_cases hn : n < 16
  · interval_cases n <;> simp [cell_field, d00, d01, d10, d11, v00, v01, v10, v11]
  · obtain ⟨k, rfl⟩ : ∃ k, n = k + 16 := ⟨n - 16, by omega⟩
    rw [if_neg (by omega)]
    rfl

/-- C30: constant fields are reproduced by every mode.  On a grid with directed (strictly
monotonic) axes whose lookup answers with a cell, if data(i,j) = c at every node, then for
every query location, in range or not, with edge limit on or off, nearest, bilinear and
bicubic interpolation return c and, when a derivative is requested, the derivative (0, 0). -/
theorem interpolate_constant (grid : data_grid) (mem : scratch) (c : ℚ)
    (hd0 : grid.axis0.directed) (hd1 : grid.axis1.directed)
    (hf0 : ∀ x, grid.axis0.find_index x + 1 < grid.axis0.size)
    (hf1 : ∀ y, grid.axis1.find_index y + 1 < grid.axis1.size)
    (hdata : ∀ i j, i < grid.axis0.size → j < grid.axis1.size → grid.data i j = c)
    (hmode : grid.interp_type0 = GRID_INTERP_NEAREST ∨ grid.interp_type0 = GRID_INTERP_LINEAR ∨
      grid.interp_type0 = GRID_INTERP_PCHIP)
    (location : ℚ × ℚ) (derivative : Bool) :
    ∃ r, interpolate (construct grid mem) location derivative = .ok r ∧ r.result = c ∧
      r.derivative = if derivative then some (0, 0) else none := by
  have hv0 := hd0.1
  have hv1 := hd1.1
  have k0 := locate_index_lt hv0 hf0 grid.edge_limit0 location.1 mem._offset.1
  have k1 := locate_index_lt hv1 hf1 grid.edge_limit1 location.2 mem._offset.2
  have hcell : locate_cell (construct grid mem) location =
      (((locate grid.axis0 grid.edge_limit0 location.1 mem._offset.1).1,
        (locate grid.axis1 grid.edge_limit1 location.2 mem._offset.2).1),
       ((locate grid.axis0 grid.edge_limit0 location.1 mem._offset.1).2,
        (locate grid.axis1 grid.edge_limit1 location.2 mem._offset.2).2)) := rfl
  rcases hmode with hn | hl | hp
  · refine ⟨_, interpolate_nearest_eq _ location derivative hn, ?_, rfl⟩
    exact hdata _ _ (nearest_index_lt _ _ _ _ k0) (nearest_index_lt _ _ _ _ k1)
  · obtain ⟨r, hr, -, hres, hder⟩ := interpolate_linear_affine_cell grid mem derivative c 0 0
      hv0 hv1 hl (fun i j hi hj => by rw [hdata i j hi hj]; ring) location _ _ _ _ hcell k0 k1
    exact ⟨r, hr, by rw [hres]; ring, hder⟩
  · obtain ⟨r, hr, hres, hder⟩ := interpolate_pchip_closed grid mem location derivative hp
      _ _ _ _ hcell k0 k1
    obtain ⟨p1, p2, p3⟩ := bicubic_poly_constant (cell_field grid _ _) c
      (cell_field_constant grid c hv0.1 hv1.1 hdata _ _ k0 k1)
      (cell_offset grid.axis0 (locate grid.axis0 grid.edge_limit0 location.1 mem._offset.1).2
        (locate grid.axis0 grid.edge_limit0 location.1 mem._offset.1).1)
      (cell_offset grid.axis1 (locate grid.axis1 grid.edge_limit1 location.2 mem._offset.2).2
        (locate grid.axis1 grid.edge_limit1 location.2 mem._offset.2).1)
    exact ⟨r, hr, by rw [hres, p1], by rw [hder, p2, p3]⟩

/-- The lookup of an axis given by its nodes answers with a cell. -/
theorem axis_up_find_index_lt (x : ℚ) : axis_up.find_index x + 1 < axis_up.size :=
  seq_data_find_index_lt [1, 2, 6] (by decide) x

/-- The lookup of the axis [3,2,1] answers with a cell. -/
theorem axis_down_find_index_lt (x : ℚ) : axis_down.find_index x + 1 < axis_down.size :=
  seq_data_find_index_lt [3, 2, 1] (by decide) x

/-- C30 at a concrete query: the constant 7 on the axes [1,2,6] and [3,2,1], bicubic mode
without edge limit, at the location (9, 5), outside the range of both axes. -/
theorem interpolate_constant_witness :
    ∃ r, interpolate (construct (grid_of axis_up axis_down (fun _ _ => 7) 1 false) scratch_zero)
        (9, 5) true = .ok r ∧ r.result = 7 ∧
      r.derivative = if true then some (0, 0) else none :=
  interpolate_constant (grid_of axis_up axis_down (fun _ _ => 7) 1 false) scratch_zero 7
    axis_up_directed axis_down_directed axis_up_find_index_lt axis_down_find_index_lt
    (fun _ _ _ _ => rfl) (Or.inr (Or.inr rfl)) (9, 5) true

/-! ## Bicubic interpolation of affine data away from the grid boundary -/

/-- On valid, uniformly spaced axes and affine data the derivative fields at an interior
node are the slopes in units of the cell, and the mixed derivative vanishes. -/
theorem derv_of_affine_interior (grid : data_grid) (a b c h0 h1 : ℚ)
    (hv0 : grid.axis0.valid) (hv1 : grid.axis1.valid)
    (hu0 : grid.axis0.uniform h0) (hu1 : grid.axis1.uniform h1)
    (hdata : ∀ i j, i < grid.axis0.size → j < grid.axis1.size →
      grid.data i j = a + b * grid.axis0.elem i + c * grid.axis1.elem j)
    (i j : Nat) (hi0 : 0 < i) (hi1 : i + 1 < grid.axis0.size)
    (hj0 : 0 < j) (hj1 : j + 1 < grid.axis1.size) :
    derv_of grid i j = (b * h0, c * h1, 0) := by
  rw [derv_of_clamped grid hv0.1 hv1.1 i j (by omega) (by omega)]
  have m0 : min (i + 1) (grid.axis0.size - 1) = i + 1 := by omega
  have m1 : min (j + 1) (grid.axis1.size - 1) = j + 1 := by omega
  rw [m0, m1, inc_of_uniform hu0 i (by omega), inc_of_uniform hu1 j (by omega)]
  have s0 := seq_vector.uniform_span hv0 hu0 i hi0 hi1
  have s1 := seq_vector.uniform_span hv1 hu1 j hj0 hj1
  rw [hdata (i + 1) j hi1 (by omega), hdata (i - 1) j (by omega) (by omega),
    hdata i (j + 1) (by omega) hj1, hdata i (j - 1) (by omega) (by omega),
    hdata (i + 1) (j + 1) hi1 hj1, hdata (i + 1) (j - 1) hi1 (by omega),
    hdata (i - 1) (j + 1) (by omega) hj1, hdata (i - 1) (j - 1) (by omega) (by omega)]
  simp only [Prod.mk.injEq]
  refine ⟨?_, ?_, ?_⟩
  · linear_combination (b / 2) * s0
  · linear_combination (c / 2) * s1
  · ring

/-- C31: on a grid with valid, uniformly spaced axes (spacings h0 and h1) and affine data
a + b*axis0(i) + c*axis1(j), a bicubic query located in a cell (k0, k1) whose four corners
are interior nodes (1 <= k0 <= R-3, 1 <= k1 <= C-3) returns a + b*x + c*y at the located
coordinates (x, y), and its derivative outputs are (b*h0, c*h1). -/
theorem interpolate_pchip_affine_interior (grid : data_grid) (mem : scratch)
    (location : ℚ × ℚ) (derivative : Bool) (a b c h0 h1 : ℚ)
    (hp : grid.interp_type0 = GRID_INTERP_PCHIP)
    (hv0 : grid.axis0.valid) (hv1 : grid.axis1.valid)
    (hu0 : grid.axis0.uniform h0) (hu1 : grid.axis1.uniform h1)
    (hdata : ∀ i j, i < grid.axis0.size → j < grid.axis1.size →
      grid.data i j = a + b * grid.axis0.elem i + c * grid.axis1.elem j)
    (x y : ℚ) (k0 k1 : Nat)
    (hc : locate_cell (construct grid mem) location = ((x, y), (k0, k1)))
    (hk0 : 1 ≤ k0) (hk0R : k0 + 2 < grid.axis0.size)
    (hk1 : 1 ≤ k1) (hk1C : k1 + 2 < grid.axis1.size) :
    ∃ r, interpolate (construct grid mem) location derivative = .ok r ∧
      r.result = a + b * x + c * y ∧
      r.derivative = if derivative then some (b * h0, c * h1) else none := by
  obtain ⟨r, hr, hres, hder⟩ := interpolate_pchip_closed grid mem location derivative hp
    x y k0 k1 hc (by omega) (by omega)
  have d00 := derv_of_affine_interior grid a b c h0 h1 hv0 hv1 hu0 hu1 hdata k0 k1
    (by omega) (by omega) (by omega) (by omega)
  have d01 := derv_of_affine_interior grid a b c h0 h1 hv0 hv1 hu0 hu1 hdata k0 (k1 + 1)
    (by omega) (by omega) (by omega) (by omega)
  have d10 := derv_of_affine_interior grid a b c h0 h1 hv0 hv1 hu0 hu1 hdata (k0 + 1) k1
    (by omega) (by omega) (by omega) (by omega)
  have d11 := derv_of_affine_interior grid a b c h0 h1 hv0 hv1 hu0 hu1 hdata (k0 + 1)
    (k1 + 1) (by omega) (by omega) (by omega) (by omega)
  have v00 := hdata k0 k1 (by omega) (by omega)
  have v01 := hdata k0 (k1 + 1) (by omega) (by omega)
  have v10 := hdata (k0 + 1) k1 (by omega) (by omega)
  have v11 := hdata (k0 + 1) (k1 + 1) (by omega) (by omega)
  have n0 : h0 ≠ 0 := hu0.1
  have n1 : h1 ≠ 0 := hu1.1
  have e0 : grid.axis0.elem (k0 + 1) = grid.axis0.elem k0 + h0 := by
    have := hv0.2.2 k0 (by omega)
    rw [hu0.2 k0 (by omega)] at this
    linarith
  have e1 : grid.axis1.elem (k1 + 1) = grid.axis1.elem k1 + h1 := by
    have := hv1.2.2 k1 (by omega)
    rw [hu1.2 k1 (by omega)] at this
    linarith
  have hT : cell_offset grid.axis0 k0 x * h0 = x - grid.axis0.elem k0 := by
    unfold cell_offset
    rw [e0, add_sub_cancel_left]
    field_simp
  have hU : cell_offset grid.axis1 k1 y * h1 = y - grid.axis1.elem k1 := by
    unfold cell_offset
    rw [e1, add_sub_cancel_left]
    field_simp
  generalize cell_offset grid.axis0 k0 x = T at hres hder hT
  generalize cell_offset grid.axis1 k1 y = U at hres hder hU
  refine ⟨r, hr, ?_, ?_⟩
  · rw [hres, bicubic_poly_prod]
    simp only [cell_field, d00, d01, d10, d11, v00, v01, v10, v11, e0, e1]
    linear_combination b * hT + c * hU
  · rw [hder, bicubic_poly_dt_prod, bicubic_poly_du_prod]
    simp only [cell_field, d00, d01, d10, d11, v00, v01, v10, v11, e0, e1]
    cases derivative with
    | false => rfl
    | true =>
      simp only [if_true, Option.some.injEq, Prod.mk.injEq]
      constructor <;> ring

/-- C31 at a concrete query: the axes [0,2,4,6] x [0,2,4,6] (spacing 2) with
data(i,j) = 1 + 2*axis0(i) + 3*axis1(j), the query (3, 7/2) in the cell (1, 1): the value is
1 + 2*3 + 3*(7/2) and the derivative outputs are (2*2, 3*2). -/
theorem interpolate_pchip_affine_interior_witness :
    ∃ r, interpolate
        (construct (grid_of axis_even axis_even (fun x y => 1 + 2 * x + 3 * y) 1 true)
          scratch_zero) (3, 7/2) true = .ok r ∧
      r.result = 1 + 2 * 3 + 3 * (7/2) ∧
      r.derivative = if true then some (2 * 2, 3 * 2) else none :=
  interpolate_pchip_affine_interior
    (grid_of axis_even axis_even (fun x y => 1 + 2 * x + 3 * y) 1 true) scratch_zero
    (3, 7/2) true 1 2 3 2 2 rfl axis_even_valid axis_even_valid axis_even_uniform
    axis_even_uniform (fun _ _ _ _ => rfl) 3 (7/2) 1 1
    (by norm_num [locate_cell, locate, construct, grid_of, axis_even, seq_data,
      seq_vector.first, seq_vector.last, scratch_zero, List.range_succ, List.filter])
    (by decide) (by decide) (by decide) (by decide)

/-! ## The derivative of bicubic interpolation on affine data -/

/-- C4, evaluated at a failing input: on the axes [0,2,4,6] x [0,2,4,6] (spacing 2) with the
affine data 1 + 2*x + 3*y (a = 1, b = 2, c = 3), the bicubic query (3, 7/2) lies in the cell
(1, 1), all of whose corners are interior nodes.  The value is 1 + 2*3 + 3*(7/2), but the
derivative slot holds (4, 6), that is (b*2, c*2), and not (b, c) = (2, 3); the bilinear
branch of the same `interpolate` on the same grid returns the same value and the derivative
(2, 3). -/
theorem interpolate_pchip_affine_derivative :
    (∃ r, interpolate
          (construct (grid_of axis_even axis_even (fun x y => 1 + 2 * x + 3 * y) 1 true)
            scratch_zero) (3, 7/2) true = .ok r ∧
        r.location = (3, 7/2) ∧ r.self.mem._offset = (1, 1) ∧
        r.result = 1 + 2 * 3 + 3 * (7/2) ∧ r.derivative = some (4, 6) ∧
        r.derivative ≠ some (2, 3)) ∧
    (∃ r, interpolate
          (construct (grid_of axis_even axis_even (fun x y => 1 + 2 * x + 3 * y) 0 true)
            scratch_zero) (3, 7/2) true = .ok r ∧
        r.result = 1 + 2 * 3 + 3 * (7/2) ∧ r.derivative = some (2, 3)) := by
  have hcell : ∀ t : Int,
      locate_cell (construct (grid_of axis_even axis_even (fun x y => 1 + 2 * x + 3 * y) t true)
        scratch_zero) (3, 7/2) = ((3, 7/2), (1, 1)) := by
    intro t
    norm_num [locate_cell, locate, construct, grid_of, axis_even, seq_data,
      seq_vector.first, seq_vector.last, scratch_zero, List.range_succ, List.filter]
  constructor
  · obtain ⟨r, hr, hres, hder⟩ := interpolate_pchip_closed
      (grid_of axis_even axis_even (fun x y => 1 + 2 * x + 3 * y) 1 true) scratch_zero
      (3, 7/2) true rfl 3 (7/2) 1 1 (hcell 1) (by decide) (by decide)
    obtain ⟨hl, ho⟩ := interpolate_located _ _ _ r hr
    have h1 : r.result = 1 + 2 * 3 + 3 * (7/2) := by
      rw [hres, bicubic_poly_prod]
      norm_num [cell_field, cell_offset, derv_of, inc_of, grid_of, axis_even, seq_data]
    have h2 : r.derivative = some (4, 6) := by
      rw [hder, bicubic_poly_dt_prod, bicubic_poly_du_prod]
      norm_num [cell_field, cell_offset, derv_of, inc_of, grid_of, axis_even, seq_data]
    refine ⟨r, hr, ?_, ?_, h1, h2, ?_⟩
    · rw [hl, hcell 1]
    · rw [ho, hcell 1]
    · rw [h2]; norm_num
  · obtain ⟨r, hr, -, hres, hder⟩ := interpolate_linear_affine_cell
      (grid_of axis_even axis_even (fun x y => 1 + 2 * x + 3 * y) 0 true) scratch_zero true
      1 2 3 axis_even_valid axis_even_valid rfl (fun _ _ _ _ => rfl) (3, 7/2) 3 (7/2) 1 1
      (hcell 0) (by decide) (by decide)
    exact ⟨r, hr, hres, hder⟩

end usml
